import Mathlib

/-!
Verification of the DataScribe dbt schema-YAML reconciliation engine
(`schema_scribe/components/writers/dbt_yaml_writer.py`) and the global
lineage merge algorithm (`schema_scribe/services/lineage_generator.py`).

The Python code is shallowly embedded as pure Lean functions:

* Python dicts that the code reads and writes by string key are modelled as
  association lists (first-match lookup, update-in-place-else-append
  insertion, which reproduces `dict` assignment / last-write-wins).
* The scalar YAML values the reconciler touches (`description` and the
  `ai_generated` fields) are strings; a missing key and an explicit empty
  value are both represented by `""`, matching Python truthiness
  (`if not node.get(key)`), which is the only way the code inspects them.
* The filesystem is an association list from path to file content; a file is
  either a parsed document, an empty (falsy) document, or malformed (raising
  `YAMLError` on load).  `os.walk` over the three project roots is modelled
  as filtering the filesystem's paths by a "lies under the root" test.
* The `DbtYamlWriter` instance state (`yaml_files`, `model_to_file_map`,
  `files_to_write`) is passed explicitly; one `write` call starts from a
  fresh writer, matching the orchestrator (`DbtWorkflow._handle_yaml_update`
  constructs a new `DbtYamlWriter` for each run).
* `typer.prompt` interaction in `interactive` mode is an oracle function
  returning `some value` (accept or edit) or `none` (skip), exactly the
  result of `_prompt_user_for_change`.
* Python `set` iteration order is unspecified; the embedding iterates the
  catalog in list order (first the update loop, then the create loop, as in
  `write`).  All verified properties are insensitive to that order.
-/

/-! ## Association lists (Python dict operations) -/

/-- First-match lookup, i.e. `d.get(k)` on a dict without duplicate keys. -/
def lookupA {α : Type} (l : List (String × α)) (k : String) : Option α :=
  match l with
  | [] => none
  | (k', v) :: t => if k' = k then some v else lookupA t k

/-- `d[k] = v`: replace the first binding of `k`, else append a new one. -/
def insertA {α : Type} (l : List (String × α)) (k : String) (v : α) :
    List (String × α) :=
  match l with
  | [] => [(k, v)]
  | (k', v') :: t => if k' = k then (k', v) :: t else (k', v') :: insertA t k v

/-- `s.add(x)` on a set modelled as a duplicate-free list. -/
def addIfAbsent (l : List String) (x : String) : List String :=
  if x ∈ l then l else l ++ [x]

/-! ## String and path helpers (`os.path`) -/

/-- Substring test, `needle in hay` on Python strings. -/
def containsSub (needle : List Char) : List Char → Bool
  | [] => needle.isEmpty
  | c :: t => needle.isPrefixOf (c :: t) || containsSub needle t

/-- `p.startswith(q)`. -/
def strStartsWith (p q : String) : Bool := q.toList.isPrefixOf p.toList

/-- `p.endswith(q)`. -/
def strEndsWith (p q : String) : Bool :=
  q.toList.reverse.isPrefixOf p.toList.reverse

/-- `os.path.basename`: the part after the last slash. -/
def basename (p : String) : String :=
  String.mk ((p.toList.reverse.takeWhile (fun c => ¬ c = '/')).reverse)

/-- `os.path.dirname` (POSIX): everything before the last slash, with
trailing slashes stripped unless the result is all slashes. -/
def dirname (p : String) : String :=
  let l := p.toList
  let tail := (l.reverse.takeWhile (fun c => ¬ c = '/')).reverse
  let head := l.take (l.length - tail.length)
  let head2 :=
    if head ≠ [] ∧ ¬ head.all (fun c => c = '/') then
      (head.reverse.dropWhile (fun c => c = '/')).reverse
    else head
  String.mk head2

/-- `os.path.join a b` for a single relative or absolute component `b`. -/
def joinPath (a b : String) : String :=
  if strStartsWith b "/" then b
  else if a = "" then b
  else if strEndsWith a "/" then a ++ b
  else a ++ "/" ++ b

/-! ## `GlobalLineageGenerator` (services/lineage_generator.py) -/

namespace GlobalLineageGenerator

/-- `_get_style_priority`. -/
def get_style_priority (style : String) : Int :=
  if style = "box" then 3
  else if style = "source" then 2
  else if style = "db" then 1
  else 0

/-- `_add_node`: record the style of `name`, upgrading only when the new
style has strictly higher priority. -/
def add_node (nodes : List (String × String)) (name style : String) :
    List (String × String) :=
  let current_priority :=
    match lookupA nodes name with
    | some s => get_style_priority s
    | none => (-1 : Int)
  if get_style_priority style > current_priority then insertA nodes name style
  else nodes

/-- The Mermaid edge line produced by `_add_edge`. -/
def edgeLine (from_node to_node label : String) : String :=
  if label ≠ "" then
    "    " ++ from_node ++ " -- \"" ++ label ++ "\" --> " ++ to_node
  else
    "    " ++ from_node ++ " --> " ++ to_node

/-- `_add_edge`: edges live in a set, so re-adding an existing line is a
no-op. -/
def add_edge (edges : List String) (from_node to_node label : String) :
    List String :=
  addIfAbsent edges (edgeLine from_node to_node label)

/-- A sequence of `_add_edge` calls starting from an empty edge set. -/
def applyEdges (adds : List (String × String × String)) : List String :=
  adds.foldl (fun es e => add_edge es e.1 e.2.1 e.2.2) []

/-- A database foreign key as consumed by the generator (the two column
fields are never read). -/
structure FK where
  source_table : String
  target_table : String
deriving DecidableEq, Repr

/-- A dbt model as consumed by the generator. -/
structure DbtModel where
  name : String
  dependencies : List String
deriving DecidableEq, Repr

/-- Python string `<`: lexicographic comparison by code point. -/
def strListLt : List Char → List Char → Bool
  | [], [] => false
  | [], _ :: _ => true
  | _ :: _, [] => false
  | a :: as, b :: bs =>
      Nat.blt a.toNat b.toNat ||
        (Nat.beq a.toNat b.toNat && strListLt as bs)

/-- Python string `<=`. -/
def strLeB (a b : String) : Bool := ! strListLt b.toList a.toList

/-- Insert into an ascending list, after any equal elements. -/
def insertSorted (a : String) : List String → List String
  | [] => [a]
  | b :: t => if strLeB b a then b :: insertSorted a t else a :: b :: t

/-- Python `sorted` on strings: ascending, stable insertion sort. -/
def sortStrings (l : List String) : List String := l.foldr insertSorted []

/-- Steps 1 and 2 of `generate_graph`: accumulate nodes and edges. -/
def collect (db_fks : List FK) (dbt_models : List DbtModel) :
    List (String × String) × List String :=
  let s1 := db_fks.foldl
    (fun (s : List (String × String) × List String) fk =>
      let n1 := add_node s.1 fk.source_table "db"
      let n2 := add_node n1 fk.target_table "db"
      (n2, add_edge s.2 fk.source_table fk.target_table "FK"))
    ([], [])
  dbt_models.foldl
    (fun (s : List (String × String) × List String) model =>
      let n0 := add_node s.1 model.name "box"
      model.dependencies.foldl
        (fun (s' : List (String × String) × List String) dep =>
          if containsSub ".".toList dep.toList then
            (add_node s'.1 dep "source", add_edge s'.2 dep model.name "")
          else
            (add_node s'.1 dep "box", add_edge s'.2 dep model.name ""))
        (n0, s.2))
    s1

/-- Step 3 of `generate_graph`: serialize to the Mermaid string. -/
def render (nodes : List (String × String)) (edges : List String) : String :=
  let node_definitions := nodes.foldl
    (fun acc (ns : String × String) =>
      if ns.2 = "box" then
        acc ++ ["    " ++ ns.1 ++ "[\"" ++ ns.1 ++ "\"]"]
      else if ns.2 = "db" then
        acc ++ ["    " ++ ns.1 ++ "[(\"" ++ ns.1 ++ "\")]"]
      else if ns.2 = "source" then
        acc ++ ["    " ++ ns.1 ++ "((\"" ++ ns.1 ++ "\"))"]
      else acc)
    []
  let graph_lines :=
    ["graph TD;"] ++ sortStrings node_definitions ++ [""] ++
      sortStrings edges
  String.intercalate "\n" graph_lines

/-- `generate_graph`. -/
def generate_graph (db_fks : List FK) (dbt_models : List DbtModel) : String :=
  let s := collect db_fks dbt_models
  render s.1 s.2

end GlobalLineageGenerator

/-! ## `DbtYamlWriter` (components/writers/dbt_yaml_writer.py)

Scalar fields of a YAML mapping node are an association list of string keys
to string values (`Fields`); `getF` returns `""` for a missing key, which is
exactly how the code distinguishes values (Python truthiness). -/

namespace DbtYamlWriter

abbrev Fields := List (String × String)

/-- `node.get(key)` with falsy missing/empty values collapsed to `""`. -/
def getF (fs : Fields) (k : String) : String := (lookupA fs k).getD ""

/-- `node[key] = v`. -/
def setF (fs : Fields) (k v : String) : Fields := insertA fs k v

/-- One entry of a `models`/`sources`/`seeds`/`snapshots` list: its scalar
string entries (including `name` and `description`) plus its `columns` list,
each column being a mapping of scalar string entries (including `name`). -/
structure NodeConfig where
  fields : Fields
  columns : List Fields
deriving DecidableEq, Repr

/-- One parsed documentation file (a truthy `ruamel` document).  Keys the
reconciler never touches are omitted; they are constant through a run. -/
structure DocTree where
  version : Option Int := none
  models : List NodeConfig := []
  sources : List NodeConfig := []
  seeds : List NodeConfig := []
  snapshots : List NodeConfig := []
deriving DecidableEq, Repr

/-- What `yaml.load` sees for one on-disk file. -/
inductive FileContent where
  /-- Parses to a truthy document. -/
  | yamlDoc (t : DocTree)
  /-- Parses to a falsy value (empty file): skipped by the loader. -/
  | emptyDoc
  /-- Raises `YAMLError` on load. -/
  | malformed
deriving DecidableEq, Repr

/-- The writer's operational mode, fixed at construction. -/
inductive Mode where
  | update
  | check
  | interactive
  | drift
deriving DecidableEq, Repr

/-- Result of `_prompt_user_for_change(node_log_name, key, ai_value)`:
`some v` when the user accepts or edits, `none` when the user skips. -/
abbrev Oracle := String → String → String → Option String

/-- Mutable writer state (`self.yaml_files`, `self.model_to_file_map`,
`self.files_to_write`); the map is never written after loading. -/
structure WState where
  yaml_files : List (String × DocTree) := []
  model_to_file_map : List (String × String) := []
  files_to_write : List String := []
deriving DecidableEq, Repr

/-- One AI catalog column: `{name, ai_generated, drift_status}`. -/
structure AiColumn where
  name : String
  ai_generated : Fields := []
  drift_status : String := ""
deriving DecidableEq, Repr

/-- One AI catalog entry:
`{model_description, columns, original_file_path}`. -/
structure AiModel where
  model_description : String := ""
  columns : List AiColumn := []
  original_file_path : String := ""
deriving DecidableEq, Repr

/-- `catalog_data`: a dict keyed by model name. -/
abbrev Catalog := List (String × AiModel)

/-- `_find_schema_files`: walk the `models`, `seeds` and `snapshots` roots
(an absent root contributes nothing, mirroring the `os.path.exists` guard)
keeping files whose name has a YAML extension and does not contain
`dbt_project`. -/
def find_schema_files (dbt_project_dir : String) (fsPaths : List String) :
    List String :=
  let model_paths := [joinPath dbt_project_dir "models",
    joinPath dbt_project_dir "seeds", joinPath dbt_project_dir "snapshots"]
  model_paths.foldl
    (fun acc root =>
      acc ++ fsPaths.filter (fun p =>
        strStartsWith p (root ++ "/") &&
        (strEndsWith (basename p) ".yml" ||
          strEndsWith (basename p) ".yaml") &&
        !containsSub "dbt_project".toList (basename p).toList))
    []

/-- `n.get("name")` on a node, with falsy values collapsed to `""`. -/
def nodeName (n : NodeConfig) : String := getF n.fields "name"

/-- The inner loops of `_load_and_map_existing_yamls`: record
`name -> file path` for every named node of the four lists (dict
assignment, so a later file wins for a duplicated name). -/
def indexTree (m : List (String × String)) (p : String) (t : DocTree) :
    List (String × String) :=
  (t.models ++ t.sources ++ t.seeds ++ t.snapshots).foldl
    (fun m n => if nodeName n = "" then m else insertA m (nodeName n) p) m

/-- `_load_and_map_existing_yamls`: load every discovered file, skip falsy
documents, abort with `WriterError` on a malformed one, and build the
model-to-file map. -/
def loadStep (disk : List (String × FileContent))
    (acc : List (String × DocTree) × List (String × String)) (p : String) :
    Except String (List (String × DocTree) × List (String × String)) :=
  match lookupA disk p with
  | none => Except.ok acc
  | some .malformed => Except.error ("Failed to parse YAML file: " ++ p)
  | some .emptyDoc => Except.ok acc
  | some (.yamlDoc t) => Except.ok (insertA acc.1 p t, indexTree acc.2 p t)

def load_and_map_existing_yamls (dbt_project_dir : String)
    (disk : List (String × FileContent)) :
    Except String (List (String × DocTree) × List (String × String)) :=
  (find_schema_files dbt_project_dir (disk.map Prod.fst)).foldlM
    (loadStep disk) ([], [])

/-- `_process_update`: the single mode dispatch point for one missing key. -/
def process_update (mode : Mode) (oracle : Oracle) (config_node : Fields)
    (key ai_value node_log_name : String) : Fields × Bool :=
  match mode with
  | .check => (config_node, true)
  | .interactive =>
      match oracle node_log_name key ai_value with
      | some final_value => (setF config_node key final_value, true)
      | none => (config_node, false)
  | _ => (setF config_node key ai_value, true)

/-- One iteration of the `ai_generated` loop of
`_update_existing_model_in_memory`: fill the key if it is missing. -/
def fillStep (mode : Mode) (oracle : Oracle) (node_log_name : String)
    (s : Fields × Bool) (kv : String × String) : Fields × Bool :=
  if getF s.1 kv.1 = "" then
    let r := process_update mode oracle s.1 kv.1 kv.2 node_log_name
    (r.1, s.2 || r.2)
  else s

/-- The per-column body of `_update_existing_model_in_memory`: drift check,
then fill each missing `ai_generated` key.  Returns the updated column and
its contribution to `file_changed`. -/
def updateOneColumn (mode : Mode) (oracle : Oracle) (model_name : String)
    (ai_model_data : AiModel) (column_config : Fields) : Fields × Bool :=
  let col_name := getF column_config "name"
  match ai_model_data.columns.find? (fun c => c.name = col_name) with
  | none => (column_config, false)
  | some ai_column =>
      if mode = .drift ∧ getF column_config "description" ≠ "" ∧
          ai_column.drift_status = "DRIFT" then
        (column_config, true)
      else
        ai_column.ai_generated.foldl
          (fillStep mode oracle
            ("column " ++ model_name ++ "." ++ col_name))
          (column_config, false)

/-- One iteration of the column loop of
`_update_existing_model_in_memory`. -/
def colStep (mode : Mode) (oracle : Oracle) (model_name : String)
    (ai_model_data : AiModel) (s : List Fields × Bool) (col : Fields) :
    List Fields × Bool :=
  let r := updateOneColumn mode oracle model_name ai_model_data col
  (s.1 ++ [r.1], s.2 || r.2)

/-- The node-level body of `_update_existing_model_in_memory`: fill a
missing model description, then process every column. -/
def updateModelNode (mode : Mode) (oracle : Oracle) (model_name : String)
    (ai_model_data : AiModel) (node : NodeConfig) : NodeConfig × Bool :=
  let s1 :=
    if getF node.fields "description" = "" ∧
        ai_model_data.model_description ≠ "" then
      process_update mode oracle node.fields "description"
        ai_model_data.model_description ("model " ++ model_name)
    else (node.fields, false)
  let s2 := node.columns.foldl
    (colStep mode oracle model_name ai_model_data) ([], false)
  (⟨s1.1, s2.1⟩, s1.2 || s2.2)

/-- `_update_existing_model_in_memory`. -/
def update_existing_model_in_memory (mode : Mode) (oracle : Oracle)
    (st : WState) (file_path model_name : String) (ai_model_data : AiModel) :
    WState × Bool :=
  match lookupA st.yaml_files file_path with
  | none => (st, false)
  | some data =>
      match data.models.findIdx? (fun n => nodeName n = model_name) with
      | none => (st, false)
      | some i =>
          match data.models[i]? with
          | none => (st, false)
          | some node =>
              let r := updateModelNode mode oracle model_name ai_model_data
                node
              let data' := { data with models := data.models.set i r.1 }
              let st' : WState :=
                { st with
                  yaml_files := insertA st.yaml_files file_path data'
                  files_to_write :=
                    if r.2 then addIfAbsent st.files_to_write file_path
                    else st.files_to_write }
              (st', r.2)

/-- The stub node built by `_create_new_model_stub_in_memory` (in modes
other than `check`).  The `Bool` results of `_process_update` are ignored
there, exactly as in the source. -/
def stubFillStep (mode : Mode) (oracle : Oracle) (node_log_name : String)
    (acc : Fields) (kv : String × String) : Fields :=
  (process_update mode oracle acc kv.1 kv.2 node_log_name).1

def makeStub (mode : Mode) (oracle : Oracle) (model_name : String)
    (ai_model_data : AiModel) : NodeConfig :=
  let fields1 := (process_update mode oracle [("name", model_name)]
    "description" ai_model_data.model_description
    ("model " ++ model_name)).1
  let cols := ai_model_data.columns.map (fun col =>
    col.ai_generated.foldl
      (stubFillStep mode oracle
        ("column " ++ model_name ++ "." ++ col.name))
      [("name", col.name)])
  ⟨fields1, cols⟩

/-- The target path for a new stub: `schema.yml` next to the model's SQL
file. -/
def stubTarget (ai_model_data : AiModel) : String :=
  joinPath (dirname ai_model_data.original_file_path) "schema.yml"

/-- `_create_new_model_stub_in_memory`. -/
def create_new_model_stub_in_memory (mode : Mode) (oracle : Oracle)
    (st : WState) (model_name : String) (ai_model_data : AiModel) :
    WState × Bool :=
  if mode = .check then (st, true)
  else
    let stub := makeStub mode oracle model_name ai_model_data
    if ai_model_data.original_file_path = "" then (st, false)
    else
      let target := stubTarget ai_model_data
      let yf :=
        match lookupA st.yaml_files target with
        | some data =>
            insertA st.yaml_files target
              { data with models := data.models ++ [stub] }
        | none =>
            insertA st.yaml_files target
              { version := some 2, models := [stub] }
      ({ st with
          yaml_files := yf
          files_to_write := addIfAbsent st.files_to_write target }, true)

/-- One iteration of the loop over documented catalog models in `write`. -/
def updateLoopStep (mode : Mode) (oracle : Oracle)
    (mmap : List (String × String)) (s : WState × Bool)
    (entry : String × AiModel) : WState × Bool :=
  match lookupA mmap entry.1 with
  | some file_path =>
      let r := update_existing_model_in_memory mode oracle s.1 file_path
        entry.1 entry.2
      (r.1, s.2 || r.2)
  | none => s

/-- One iteration of the loop over undocumented catalog models in
`write`. -/
def createLoopStep (mode : Mode) (oracle : Oracle)
    (mmap : List (String × String)) (s : WState × Bool)
    (entry : String × AiModel) : WState × Bool :=
  match lookupA mmap entry.1 with
  | some _ => s
  | none =>
      let r := create_new_model_stub_in_memory mode oracle s.1 entry.1
        entry.2
      (r.1, s.2 || r.2)

/-- The in-memory phase of `write`: load and map, then the update loop over
documented catalog models, then the create loop over undocumented ones.
The Python code iterates two name sets; the embedding iterates the catalog
in list order, which fixes one of the unspecified set orders. -/
def writeState (mode : Mode) (oracle : Oracle) (dbt_project_dir : String)
    (disk : List (String × FileContent)) (catalog_data : Catalog) :
    Except String (WState × Bool) :=
  match load_and_map_existing_yamls dbt_project_dir disk with
  | .error e => .error e
  | .ok lm =>
      let st0 : WState := ⟨lm.1, lm.2, []⟩
      let s1 := catalog_data.foldl (updateLoopStep mode oracle lm.2)
        (st0, false)
      let s2 := catalog_data.foldl (createLoopStep mode oracle lm.2) s1
      .ok s2

/-- `_write_modified_files_to_disk`: dump every dirty in-memory document. -/
def write_modified_files_to_disk (st : WState)
    (disk : List (String × FileContent)) : List (String × FileContent) :=
  st.files_to_write.foldl
    (fun d p =>
      insertA d p
        (.yamlDoc ((lookupA st.yaml_files p).getD
          { version := none })))
    disk

/-- `write`: the full run on one abstract filesystem.  Returns the new
filesystem and the `is_outdated` flag, or the `WriterError` message. -/
def write (mode : Mode) (oracle : Oracle) (dbt_project_dir : String)
    (disk : List (String × FileContent)) (catalog_data : Catalog) :
    Except String (List (String × FileContent) × Bool) :=
  match writeState mode oracle dbt_project_dir disk catalog_data with
  | .error e => .error e
  | .ok s =>
      let disk' :=
        if (mode ≠ .check ∧ mode ≠ .drift) ∧ s.1.files_to_write ≠ [] then
          write_modified_files_to_disk s.1 disk
        else disk
      .ok (disk', s.2)

/-- A scripted operator that always skips; used for closed evaluations in
modes where the oracle is never consulted. -/
def skipOracle : Oracle := fun _ _ _ => none

end DbtYamlWriter

/-! ## Spec-side discovery predicates (for the refinement claim about
`_find_schema_files`) -/

/-- The discovery condition exactly as the claim words it: a `.yml`/`.yaml`
file found recursively under the project's `models`, `seeds` or `snapshots`
root, excluding only the root configuration file by its exact name
`dbt_project.yml`. -/
def specDiscoveryKeeps (dbt_project_dir p : String) : Bool :=
  (strStartsWith p (joinPath dbt_project_dir "models" ++ "/") ||
    strStartsWith p (joinPath dbt_project_dir "seeds" ++ "/") ||
    strStartsWith p (joinPath dbt_project_dir "snapshots" ++ "/")) &&
  (strEndsWith (basename p) ".yml" || strEndsWith (basename p) ".yaml") &&
  !(basename p = "dbt_project.yml")

/-- The discovery condition with the exclusion amended to what the code
tests: any file whose name contains the substring `dbt_project`. -/
def specDiscoveryKeepsAmended (dbt_project_dir p : String) : Bool :=
  (strStartsWith p (joinPath dbt_project_dir "models" ++ "/") ||
    strStartsWith p (joinPath dbt_project_dir "seeds" ++ "/") ||
    strStartsWith p (joinPath dbt_project_dir "snapshots" ++ "/")) &&
  (strEndsWith (basename p) ".yml" || strEndsWith (basename p) ".yaml") &&
  !containsSub "dbt_project".toList (basename p).toList

/-! ## Concrete scenario data -/

/-- The catalog of the spec's scenario: one model `orders` with description
`Order facts` and one column `id` with AI description `PK`. -/
def ordersCatalog : DbtYamlWriter.Catalog :=
  [("orders",
    { model_description := "Order facts",
      columns := [{ name := "id", ai_generated := [("description", "PK")] }],
      original_file_path := "models/orders.sql" })]

/-- A catalog whose only AI value is the empty string. -/
def emptyValueCatalog : DbtYamlWriter.Catalog :=
  [("orders",
    { columns := [{ name := "id", ai_generated := [("description", "")] }] })]

/-- A project with one undocumented model `orders` (no description at all). -/
def ordersDisk : List (String × DbtYamlWriter.FileContent) :=
  [("models/schema.yml",
    .yamlDoc { models := [⟨[("name", "orders")], [[("name", "id")]]⟩] })]

/-- A catalog reporting drift on column `orders.id`. -/
def driftCatalog : DbtYamlWriter.Catalog :=
  [("orders", { columns := [{ name := "id", drift_status := "DRIFT" }] })]

/-- A project where `orders.id` already has a human description. -/
def documentedDisk : List (String × DbtYamlWriter.FileContent) :=
  [("models/schema.yml",
    .yamlDoc { models :=
      [⟨[("name", "orders")],
        [[("name", "id"), ("description", "human text")]]⟩] })]

/-- A project whose only documentation file is malformed. -/
def malformedDisk : List (String × DbtYamlWriter.FileContent) :=
  [("models/schema.yml", .malformed)]

/-- A project documenting `orders` only under a `sources` list. -/
def sourcesDisk : List (String × DbtYamlWriter.FileContent) :=
  [("models/schema.yml",
    .yamlDoc { sources := [⟨[("name", "orders")], []⟩] })]

/-! ## Preservation relations

`nodePres n n'` says the reconciler turned node `n` into `n'` without
renaming it, without touching a non-empty description, and without touching
any non-empty column field (columns matched by position, their number
unchanged).  `treePres t t'` extends this to a whole document: untouched
top-level lists are equal and existing model entries are preserved
(new stubs may only be appended). -/

def nodePres (n n' : DbtYamlWriter.NodeConfig) : Prop :=
  DbtYamlWriter.nodeName n' = DbtYamlWriter.nodeName n
  ∧ (DbtYamlWriter.getF n.fields "description" ≠ "" →
      DbtYamlWriter.getF n'.fields "description" =
        DbtYamlWriter.getF n.fields "description")
  ∧ n'.columns.length = n.columns.length
  ∧ ∀ i k, i < n.columns.length →
      DbtYamlWriter.getF (n.columns.getD i []) k ≠ "" →
      DbtYamlWriter.getF (n'.columns.getD i []) k =
        DbtYamlWriter.getF (n.columns.getD i []) k

def treePres (t t' : DbtYamlWriter.DocTree) : Prop :=
  t'.version = t.version
  ∧ t'.sources = t.sources
  ∧ t'.seeds = t.seeds
  ∧ t'.snapshots = t.snapshots
  ∧ t.models.length ≤ t'.models.length
  ∧ ∀ i, i < t.models.length →
      nodePres (t.models.getD i ⟨[], []⟩) (t'.models.getD i ⟨[], []⟩)

/-- Every tree present in `yfs0` is still present in `yfs`, preserved in
the sense of `treePres`. -/
def yfsPres (yfs0 yfs : List (String × DbtYamlWriter.DocTree)) : Prop :=
  ∀ p t0, lookupA yfs0 p = some t0 →
    ∃ t, lookupA yfs p = some t ∧ treePres t0 t

/-! ## Change measure

`muF` strictly increases whenever the reconciler fills a missing or empty
field with a non-empty value, and never decreases under any step the
reconciler performs in one run; it witnesses that a mutated document can
never return to its original value within a run. -/

/-- Weight of one scalar value: an empty value weighs 1, a non-empty one
weighs 2. -/
def muV (v : String) : Nat := if v = "" then 1 else 2

def muF (fs : DbtYamlWriter.Fields) : Nat :=
  (fs.map (fun kv => muV kv.2)).sum

def muN (n : DbtYamlWriter.NodeConfig) : Nat :=
  muF n.fields + (n.columns.map muF).sum

def muT (t : DbtYamlWriter.DocTree) : Nat :=
  t.models.length + (t.models.map muN).sum

def muO : Option DbtYamlWriter.DocTree → Nat
  | none => 0
  | some t => muT t + 1

/-- The dirty-set invariant: a path in `files_to_write` holds an in-memory
document strictly heavier than its loaded original (so it truly changed),
and a path outside it is untouched. -/
def dirtyInv (old : List (String × DbtYamlWriter.DocTree))
    (st : DbtYamlWriter.WState) : Prop :=
  ∀ p, (p ∈ st.files_to_write →
      muO (lookupA old p) < muO (lookupA st.yaml_files p))
    ∧ (p ∉ st.files_to_write →
      lookupA st.yaml_files p = lookupA old p)

/-! ## Saturation predicates (for the idempotence analysis)

A node is saturated for a catalog entry when a second `update` pass can
fill nothing further: its description is non-empty or the catalog offers
none, and every column already has every `ai_generated` key the catalog
would look up for it. -/

def namesModels (n : String) (t : DbtYamlWriter.DocTree) : Prop :=
  ∃ nd ∈ t.models, DbtYamlWriter.nodeName nd = n

def namesTree (n : String) (t : DbtYamlWriter.DocTree) : Prop :=
  ∃ nd ∈ t.models ++ t.sources ++ t.seeds ++ t.snapshots,
    DbtYamlWriter.nodeName nd = n

def SatCol (ai : DbtYamlWriter.AiModel) (col : DbtYamlWriter.Fields) :
    Prop :=
  ∀ aiCol, ai.columns.find?
      (fun c => c.name = DbtYamlWriter.getF col "name") = some aiCol →
    ∀ kv ∈ aiCol.ai_generated, DbtYamlWriter.getF col kv.1 ≠ ""

def SatNode (ai : DbtYamlWriter.AiModel)
    (node : DbtYamlWriter.NodeConfig) : Prop :=
  (DbtYamlWriter.getF node.fields "description" ≠ "" ∨
    ai.model_description = "")
  ∧ ∀ col ∈ node.columns, SatCol ai col

/-- The first `models` entry of `t` named `n`, if any, is saturated. -/
def firstSat (ai : DbtYamlWriter.AiModel) (n : String)
    (t : DbtYamlWriter.DocTree) : Prop :=
  ∀ i node,
    t.models.findIdx? (fun nd => DbtYamlWriter.nodeName nd = n) = some i →
    t.models[i]? = some node → SatNode ai node

/-- Executable form of `namesTree`, for closed instances. -/
def namesTreeB (n : String) (t : DbtYamlWriter.DocTree) : Bool :=
  (t.models ++ t.sources ++ t.seeds ++ t.snapshots).any
    (fun nd => DbtYamlWriter.nodeName nd = n)

/-- The on-disk file at `p` parses to a document containing a node named
`n` (executable, for closed instances). -/
def namesDiskB (disk : List (String × DbtYamlWriter.FileContent))
    (n p : String) : Bool :=
  match lookupA disk p with
  | some (DbtYamlWriter.FileContent.yamlDoc t) => namesTreeB n t
  | _ => false

/-- Every in-memory document containing a node named `n` sits at path
`p`. -/
def onlyAt (n p : String)
    (yfs : List (String × DbtYamlWriter.DocTree)) : Prop :=
  ∀ q data, lookupA yfs q = some data → namesTree n data → q = p

/-- No in-memory document contains a node named `n`. -/
def noName (n : String)
    (yfs : List (String × DbtYamlWriter.DocTree)) : Prop :=
  ∀ q data, lookupA yfs q = some data → ¬ namesTree n data

/-- The project of `ordersDisk` after one `update` run on
`ordersCatalog`: both descriptions filled. -/
def ordersDocumentedDisk : List (String × DbtYamlWriter.FileContent) :=
  [("models/schema.yml",
    .yamlDoc { models :=
      [⟨[("name", "orders"), ("description", "Order facts")],
        [[("name", "id"), ("description", "PK")]]⟩] })]

/-- The project of `ordersDisk` after one `update` run on
`emptyValueCatalog`: the empty AI value was written into the column. -/
def emptyFilledDisk : List (String × DbtYamlWriter.FileContent) :=
  [("models/schema.yml",
    .yamlDoc { models :=
      [⟨[("name", "orders")],
        [[("name", "id"), ("description", "")]]⟩] })]

/-! ## Association list lemmas -/

theorem lookupA_insertA_self {α : Type} (l : List (String × α)) (k : String)
    (v : α) : lookupA (insertA l k v) k = some v := by
  induction l with
  | nil => simp [insertA, lookupA]
  | cons h t ih =>
    obtain ⟨k', v'⟩ := h
    by_cases hk : k' = k <;> simp [insertA, lookupA, hk, ih]

theorem lookupA_insertA_ne {α : Type} (l : List (String × α)) (k k' : String)
    (v : α) (h : k ≠ k') : lookupA (insertA l k v) k' = lookupA l k' := by
  induction l with
  | nil => simp [insertA, lookupA, h]
  | cons hd t ih =>
    obtain ⟨k'', v''⟩ := hd
    by_cases hk : k'' = k
    · subst hk
      simp [insertA, lookupA, h]
    · simp [insertA, lookupA, hk, ih]

theorem insertA_self {α : Type} (l : List (String × α)) (k : String) (v : α)
    (h : lookupA l k = some v) : insertA l k v = l := by
  induction l with
  | nil => simp [lookupA] at h
  | cons hd t ih =>
    obtain ⟨k', v'⟩ := hd
    by_cases hk : k' = k
    · subst hk
      simp [lookupA] at h
      simp [insertA, h]
    · simp [lookupA, hk] at h
      simp [insertA, hk, ih h]

theorem mem_addIfAbsent (l : List String) (x y : String) :
    y ∈ addIfAbsent l x ↔ y ∈ l ∨ y = x := by
  unfold addIfAbsent
  by_cases h : x ∈ l
  · simp [h]
    intro hy; subst hy; exact h
  · simp [h]

theorem addIfAbsent_mem (l : List String) (x : String) (h : x ∈ l) :
    addIfAbsent l x = l := by
  simp [addIfAbsent, h]

theorem nodup_addIfAbsent (l : List String) (x : String) (h : l.Nodup) :
    (addIfAbsent l x).Nodup := by
  unfold addIfAbsent
  by_cases hx : x ∈ l
  · simp [hx, h]
  · simp [hx, List.nodup_append, h]

/-! ## C5: style monotonicity of `_add_node` -/

namespace GlobalLineageGenerator

theorem lookupA_add_node_self (nodes : List (String × String)) (n s : String) :
    lookupA (add_node nodes n s) n =
      if get_style_priority s >
          (match lookupA nodes n with
           | some cur => get_style_priority cur
           | none => (-1 : Int)) then some s
      else lookupA nodes n := by
  simp only [add_node]
  split <;> simp_all [lookupA_insertA_self]

end GlobalLineageGenerator

/-- C5: for every node name and every nonempty sequence of `_add_node`
calls mixing the table (`"db"`), source (`"source"`) and model (`"box"`)
styles in any order, the final recorded style is the highest-priority style
seen, under the priority `box > source > db`; in particular a later
lower-priority observation never downgrades the stored style. -/
theorem style_monotonicity (name : String) (l : List String)
    (h : ∀ s ∈ l, s = "box" ∨ s = "source" ∨ s = "db") (hne : l ≠ []) :
    lookupA
        (l.foldl (fun ns s => GlobalLineageGenerator.add_node ns name s) [])
        name =
      some (if "box" ∈ l then "box"
            else if "source" ∈ l then "source" else "db") := by
  induction l using List.reverseRecOn with
  | nil => exact absurd rfl hne
  | append_singleton l s ih =>
    rw [List.foldl_append, List.foldl_cons, List.foldl_nil,
      GlobalLineageGenerator.lookupA_add_node_self]
    rcases Decidable.em (l = []) with rfl | hl
    · simp only [List.foldl_nil, lookupA]
      rcases h s (by simp) with rfl | rfl | rfl <;>
        simp [GlobalLineageGenerator.get_style_priority]
    · rw [ih (fun x hx => h x (by simp [hx])) hl]
      rcases h s (by simp) with rfl | rfl | rfl <;>
        by_cases hb : "box" ∈ l <;> by_cases hs2 : "source" ∈ l <;>
          simp [GlobalLineageGenerator.get_style_priority, hb, hs2]

/-! ## C6: edge deduplication -/

theorem edgeLine_label_ne (f t : String) :
    GlobalLineageGenerator.edgeLine f t "FK" ≠
      GlobalLineageGenerator.edgeLine f t "" := by
  intro h
  have hlen := congrArg String.length h
  simp [GlobalLineageGenerator.edgeLine, String.length_append] at hlen
  have h1 : " -- \"".length = 5 := rfl
  have h2 : "FK".length = 2 := rfl
  have h3 : "\" --> ".length = 6 := rfl
  have h4 : " --> ".length = 5 := rfl
  omega

theorem applyEdges_nodup_aux (adds : List (String × String × String))
    (es : List String) (h : es.Nodup) :
    (adds.foldl
      (fun es e => GlobalLineageGenerator.add_edge es e.1 e.2.1 e.2.2)
      es).Nodup := by
  induction adds generalizing es with
  | nil => exact h
  | cons a t ih =>
      exact ih _ (nodup_addIfAbsent _ _ h)

/-- C6: edges are deduplicated by their literal (from, to, label) line.  An
edge set built by any sequence of `_add_edge` calls never holds a line
twice; re-adding the same triple is a no-op; a labeled `FK` edge and an
unlabeled dependency edge between the same pair are distinct lines and both
survive; concretely, `generate_graph` on a duplicated foreign key emits the
`FK` edge once. -/
theorem edge_dedup (adds : List (String × String × String))
    (f t lab : String) :
    (GlobalLineageGenerator.applyEdges adds).Nodup
    ∧ GlobalLineageGenerator.applyEdges (adds ++ [(f, t, lab), (f, t, lab)])
        = GlobalLineageGenerator.applyEdges (adds ++ [(f, t, lab)])
    ∧ GlobalLineageGenerator.applyEdges [(f, t, "FK"), (f, t, "")]
        = [GlobalLineageGenerator.edgeLine f t "FK",
           GlobalLineageGenerator.edgeLine f t ""]
    ∧ GlobalLineageGenerator.edgeLine f t "FK" ≠
        GlobalLineageGenerator.edgeLine f t ""
    ∧ GlobalLineageGenerator.generate_graph
        [⟨"a", "b"⟩, ⟨"a", "b"⟩] [] =
        "graph TD;\n    a[(\"a\")]\n    b[(\"b\")]\n\n    a -- \"FK\" --> b" := by
  refine ⟨applyEdges_nodup_aux adds [] (by simp), ?_, ?_,
    edgeLine_label_ne f t, by rfl⟩
  · simp only [GlobalLineageGenerator.applyEdges, List.foldl_append,
      List.foldl_cons, List.foldl_nil, GlobalLineageGenerator.add_edge]
    exact addIfAbsent_mem _ _ ((mem_addIfAbsent _ _ _).mpr (Or.inr rfl))
  · simp only [GlobalLineageGenerator.applyEdges, List.foldl_cons,
      List.foldl_nil, GlobalLineageGenerator.add_edge, addIfAbsent]
    have hne := edgeLine_label_ne f t
    simp [hne.symm]

/-- Witness for C5 at a concrete mixed sequence. -/
theorem style_monotonicity_witness :
    lookupA
        ((["db", "box", "source"]).foldl
          (fun ns s => GlobalLineageGenerator.add_node ns "orders" s) [])
        "orders" = some "box" := by
  have := style_monotonicity "orders" ["db", "box", "source"]
    (by intro s hs; fin_cases hs <;> simp) (by simp)
  simpa using this

/-! ## C9: discovery of documentation files -/

/-- C9 counterexample: a file under `models/` whose name merely contains
the substring `dbt_project` is excluded by `_find_schema_files`, although
the claim says only the exact name `dbt_project.yml` is excluded. -/
theorem discovery_exclusion_counterexample :
    specDiscoveryKeeps "" "models/dbt_project_extra.yml" = true ∧
      "models/dbt_project_extra.yml" ∈ (["models/dbt_project_extra.yml"] : List String) ∧
      "models/dbt_project_extra.yml" ∉
        DbtYamlWriter.find_schema_files "" ["models/dbt_project_extra.yml"] := by
  refine ⟨by decide, by decide, by decide⟩

theorem mem_find_schema_files (dbt_project_dir : String)
    (fsPaths : List String) (p : String) :
    p ∈ DbtYamlWriter.find_schema_files dbt_project_dir fsPaths ↔
      p ∈ fsPaths ∧ specDiscoveryKeepsAmended dbt_project_dir p = true := by
  simp only [DbtYamlWriter.find_schema_files, List.foldl_cons, List.foldl_nil,
    List.nil_append, List.mem_append, List.mem_filter,
    specDiscoveryKeepsAmended, Bool.and_eq_true, Bool.or_eq_true,
    Bool.not_eq_true']
  tauto

/-- C9 amended: the enumerated files are exactly the `.yml`/`.yaml` files
under the `models`, `seeds` and `snapshots` roots whose name does not
contain the substring `dbt_project` (an absent root simply contributes no
paths). -/
theorem discovery_amended (dbt_project_dir : String) (fsPaths : List String)
    (p : String) :
    p ∈ DbtYamlWriter.find_schema_files dbt_project_dir fsPaths ↔
      p ∈ fsPaths ∧ specDiscoveryKeepsAmended dbt_project_dir p = true :=
  mem_find_schema_files dbt_project_dir fsPaths p

/-! ## C3: `check` and `drift` never touch disk; persistence only for the
dirty set -/

theorem lookupA_foldl_insertA {α : Type} (ps : List String)
    (f : String → α) (d : List (String × α)) (p : String) (hp : p ∉ ps) :
    lookupA (ps.foldl (fun d q => insertA d q (f q)) d) p = lookupA d p := by
  induction ps generalizing d with
  | nil => rfl
  | cons q t ih =>
    simp only [List.mem_cons, not_or] at hp
    rw [List.foldl_cons, ih _ hp.2, lookupA_insertA_ne _ _ _ _ (Ne.symm hp.1)]

theorem write_modified_files_to_disk_frame (st : DbtYamlWriter.WState)
    (disk : List (String × DbtYamlWriter.FileContent)) (p : String)
    (hp : p ∉ st.files_to_write) :
    lookupA (DbtYamlWriter.write_modified_files_to_disk st disk) p =
      lookupA disk p :=
  lookupA_foldl_insertA st.files_to_write _ disk p hp

/-- C3: in `check` or `drift` mode, `write` leaves the filesystem exactly
as it was; in every mode a path outside the dirty set keeps its on-disk
content; and on an empty project in `check` mode no file is created while
`write` still returns `true` for the missing documentation. -/
theorem check_drift_never_write_disk :
    (∀ (mode : DbtYamlWriter.Mode) (oracle : DbtYamlWriter.Oracle)
        (dir : String) (disk : List (String × DbtYamlWriter.FileContent))
        (catalog : DbtYamlWriter.Catalog) disk' b,
      (mode = DbtYamlWriter.Mode.check ∨ mode = DbtYamlWriter.Mode.drift) →
      DbtYamlWriter.write mode oracle dir disk catalog = .ok (disk', b) →
      disk' = disk)
    ∧ (∀ (mode : DbtYamlWriter.Mode) (oracle : DbtYamlWriter.Oracle)
        (dir : String) (disk : List (String × DbtYamlWriter.FileContent))
        (catalog : DbtYamlWriter.Catalog) st b disk' b' p,
      DbtYamlWriter.writeState mode oracle dir disk catalog = .ok (st, b) →
      DbtYamlWriter.write mode oracle dir disk catalog = .ok (disk', b') →
      p ∉ st.files_to_write →
      lookupA disk' p = lookupA disk p)
    ∧ DbtYamlWriter.write .check DbtYamlWriter.skipOracle "" [] ordersCatalog
        = .ok ([], true) := by
  refine ⟨?_, ?_, by rfl⟩
  · intro mode oracle dir disk catalog disk' b hmode hw
    unfold DbtYamlWriter.write at hw
    rcases hws : DbtYamlWriter.writeState mode oracle dir disk catalog with
      e | s
    · rw [hws] at hw; exact absurd hw (by simp)
    · rw [hws] at hw
      rcases hmode with rfl | rfl <;> simp at hw <;> exact hw.1.symm
  · intro mode oracle dir disk catalog st b disk' b' p hws hw hp
    unfold DbtYamlWriter.write at hw
    rw [hws] at hw
    simp only [Except.ok.injEq, Prod.mk.injEq] at hw
    rw [← hw.1]
    split
    · exact write_modified_files_to_disk_frame st disk p hp
    · rfl

/-- Witness for C3: `drift` mode on a project with detected drift reports
`true` but leaves the filesystem untouched. -/
theorem check_drift_never_write_disk_witness :
    DbtYamlWriter.write DbtYamlWriter.Mode.drift DbtYamlWriter.skipOracle ""
        documentedDisk driftCatalog = .ok (documentedDisk, true)
      ∧ documentedDisk = documentedDisk :=
  ⟨by rfl, check_drift_never_write_disk.1 DbtYamlWriter.Mode.drift
    DbtYamlWriter.skipOracle "" documentedDisk driftCatalog documentedDisk
    true (Or.inr rfl) (by rfl)⟩

/-! ## C7: malformed files abort the run; placement problems do not -/

theorem except_error_bind {σ : Type} (e : String)
    (f : σ → Except String σ) :
    ((Except.error e : Except String σ) >>= f) = Except.error e := rfl

theorem except_ok_bind {σ : Type} (a : σ) (f : σ → Except String σ) :
    ((Except.ok a : Except String σ) >>= f) = f a := rfl

theorem foldlM_loadStep_error (disk : List (String × DbtYamlWriter.FileContent))
    (files : List String)
    (acc : List (String × DbtYamlWriter.DocTree) × List (String × String))
    (h : ∃ p ∈ files, lookupA disk p =
      some DbtYamlWriter.FileContent.malformed) :
    ∃ e, List.foldlM (DbtYamlWriter.loadStep disk) acc files =
      Except.error e := by
  induction files generalizing acc with
  | nil => simp at h
  | cons q t ih =>
    rcases h with ⟨p, hp, hm⟩
    rcases List.mem_cons.mp hp with rfl | hpt
    · exact ⟨"Failed to parse YAML file: " ++ p,
        by simp [List.foldlM_cons, DbtYamlWriter.loadStep, hm,
          except_error_bind]⟩
    · cases hq : DbtYamlWriter.loadStep disk acc q with
      | error e =>
          exact ⟨e, by simp [List.foldlM_cons, hq, except_error_bind]⟩
      | ok acc' =>
          rcases ih acc' ⟨p, hpt, hm⟩ with ⟨e, he⟩
          exact ⟨e, by simp [List.foldlM_cons, hq, except_ok_bind, he]⟩

theorem foldlM_loadStep_ok (disk : List (String × DbtYamlWriter.FileContent))
    (files : List String)
    (acc : List (String × DbtYamlWriter.DocTree) × List (String × String))
    (h : ∀ p ∈ files, lookupA disk p ≠
      some DbtYamlWriter.FileContent.malformed) :
    ∃ r, List.foldlM (DbtYamlWriter.loadStep disk) acc files =
      Except.ok r := by
  induction files generalizing acc with
  | nil => exact ⟨acc, rfl⟩
  | cons q t ih =>
    have hstep : ∃ acc', DbtYamlWriter.loadStep disk acc q =
        Except.ok acc' := by
      unfold DbtYamlWriter.loadStep
      rcases hl : lookupA disk q with _ | c
      · exact ⟨acc, rfl⟩
      · cases c with
        | yamlDoc t' => exact ⟨_, rfl⟩
        | emptyDoc => exact ⟨acc, rfl⟩
        | malformed => exact absurd hl (h q (by simp))
    rcases hstep with ⟨acc', hq⟩
    rcases ih acc' (fun p hp => h p (by simp [hp])) with ⟨r, hr⟩
    exact ⟨r, by simp [List.foldlM_cons, hq, except_ok_bind, hr]⟩

/-- C7: a malformed discovered documentation file makes `write` abort the
whole run with a `WriterError` (no disk state is returned at all); when no
discovered file is malformed the run never aborts; and a model whose
catalog entry lacks `original_file_path` is skipped per-model — the stub
step returns `(st, False)` without touching state and without raising. -/
theorem malformed_file_aborts :
    (∀ (mode : DbtYamlWriter.Mode) (oracle : DbtYamlWriter.Oracle)
        (dir : String) (disk : List (String × DbtYamlWriter.FileContent))
        (catalog : DbtYamlWriter.Catalog) (p : String),
      p ∈ DbtYamlWriter.find_schema_files dir (disk.map Prod.fst) →
      lookupA disk p = some DbtYamlWriter.FileContent.malformed →
      ∃ e, DbtYamlWriter.write mode oracle dir disk catalog =
        Except.error e)
    ∧ (∀ (mode : DbtYamlWriter.Mode) (oracle : DbtYamlWriter.Oracle)
        (dir : String) (disk : List (String × DbtYamlWriter.FileContent))
        (catalog : DbtYamlWriter.Catalog),
      (∀ p ∈ DbtYamlWriter.find_schema_files dir (disk.map Prod.fst),
        lookupA disk p ≠ some DbtYamlWriter.FileContent.malformed) →
      ∃ r, DbtYamlWriter.write mode oracle dir disk catalog = Except.ok r)
    ∧ (∀ (mode : DbtYamlWriter.Mode) (oracle : DbtYamlWriter.Oracle)
        (st : DbtYamlWriter.WState) (name : String)
        (ai : DbtYamlWriter.AiModel),
      mode ≠ DbtYamlWriter.Mode.check → ai.original_file_path = "" →
      DbtYamlWriter.create_new_model_stub_in_memory mode oracle st name ai =
        (st, false)) := by
  refine ⟨?_, ?_, ?_⟩
  · intro mode oracle dir disk catalog p hp hm
    rcases foldlM_loadStep_error disk _ ([], []) ⟨p, hp, hm⟩ with ⟨e, he⟩
    refine ⟨e, ?_⟩
    unfold DbtYamlWriter.write DbtYamlWriter.writeState
      DbtYamlWriter.load_and_map_existing_yamls
    rw [he]
  · intro mode oracle dir disk catalog h
    rcases foldlM_loadStep_ok disk _ ([], []) h with ⟨r, hr⟩
    have hs : ∃ s, DbtYamlWriter.writeState mode oracle dir disk catalog =
        Except.ok s := by
      unfold DbtYamlWriter.writeState DbtYamlWriter.load_and_map_existing_yamls
      rw [hr]
      exact ⟨_, rfl⟩
    rcases hs with ⟨s, hs⟩
    refine ⟨(if (mode ≠ DbtYamlWriter.Mode.check ∧
        mode ≠ DbtYamlWriter.Mode.drift) ∧ s.1.files_to_write ≠ [] then
        DbtYamlWriter.write_modified_files_to_disk s.1 disk else disk,
      s.2), ?_⟩
    unfold DbtYamlWriter.write
    rw [hs]
  · intro mode oracle st name ai hmode hpath
    unfold DbtYamlWriter.create_new_model_stub_in_memory
    rw [if_neg hmode, if_pos hpath]

/-- Witness for C7: the malformed one-file project aborts `write` in
`update` mode. -/
theorem malformed_file_aborts_witness :
    ("models/schema.yml" ∈
        DbtYamlWriter.find_schema_files "" (malformedDisk.map Prod.fst))
      ∧ ∃ e, DbtYamlWriter.write DbtYamlWriter.Mode.update
          DbtYamlWriter.skipOracle "" malformedDisk [] = Except.error e :=
  ⟨by decide, malformed_file_aborts.1 DbtYamlWriter.Mode.update
    DbtYamlWriter.skipOracle "" malformedDisk [] "models/schema.yml"
    (by decide) (by rfl)⟩

/-! ## Field and column preservation lemmas -/

namespace DbtYamlWriter

theorem getF_setF_self (fs : Fields) (k v : String) :
    getF (setF fs k v) k = v := by
  simp [getF, setF, lookupA_insertA_self]

theorem getF_setF_ne (fs : Fields) (k k' v : String) (h : k ≠ k') :
    getF (setF fs k v) k' = getF fs k' := by
  simp [getF, setF, lookupA_insertA_ne _ _ _ _ h]

/-- `_process_update` is only invoked on a missing key, so it never changes
a key that already has a non-empty value. -/
theorem process_update_preserves (mode : Mode) (oracle : Oracle)
    (fs : Fields) (key v ln k' : String) (hkey : getF fs key = "")
    (hk' : getF fs k' ≠ "") :
    getF (process_update mode oracle fs key v ln).1 k' = getF fs k' := by
  have hne : key ≠ k' := fun h => hk' (h ▸ hkey)
  cases mode with
  | check => rfl
  | interactive =>
      unfold process_update
      cases oracle ln key v with
      | none => rfl
      | some fv => exact getF_setF_ne fs key k' fv hne
  | update => exact getF_setF_ne fs key k' v hne
  | drift => exact getF_setF_ne fs key k' v hne

/-- The fill loop never changes a key that already has a non-empty
value. -/
theorem fillFold_preserves (mode : Mode) (oracle : Oracle) (ln : String)
    (kvs : Fields) (s : Fields × Bool) (k : String)
    (hk : getF s.1 k ≠ "") :
    getF ((kvs.foldl (fillStep mode oracle ln) s).1) k = getF s.1 k := by
  induction kvs generalizing s with
  | nil => rfl
  | cons kv t ih =>
    rw [List.foldl_cons]
    by_cases hg : getF s.1 kv.1 = ""
    · have hstep : getF (fillStep mode oracle ln s kv).1 k = getF s.1 k := by
        simp only [fillStep, if_pos hg]
        exact process_update_preserves mode oracle s.1 kv.1 kv.2 ln k hg hk
      rw [ih _ (by rw [hstep]; exact hk), hstep]
    · have hstep : fillStep mode oracle ln s kv = s := by
        simp [fillStep, hg]
      rw [hstep]
      exact ih s hk

/-- `updateOneColumn` never changes a non-empty column field. -/
theorem updateOneColumn_preserves (mode : Mode) (oracle : Oracle)
    (model_name : String) (ai : AiModel) (col : Fields) (k : String)
    (hk : getF col k ≠ "") :
    getF (updateOneColumn mode oracle model_name ai col).1 k = getF col k := by
  simp only [updateOneColumn]
  cases hf : List.find? (fun c => decide (c.name = getF col "name"))
      ai.columns with
  | none => rfl
  | some ai_column =>
      dsimp only
      by_cases hd : mode = Mode.drift ∧ getF col "description" ≠ "" ∧
          ai_column.drift_status = "DRIFT"
      · rw [if_pos hd]
      · rw [if_neg hd]
        exact fillFold_preserves mode oracle _ ai_column.ai_generated
          (col, false) k hk

/-- The column loop produces exactly the per-column updates, in order. -/
theorem colStep_foldl (mode : Mode) (oracle : Oracle) (model_name : String)
    (ai : AiModel) (cols : List Fields) (acc : List Fields × Bool) :
    (cols.foldl (colStep mode oracle model_name ai) acc).1 =
      acc.1 ++ cols.map
        (fun col => (updateOneColumn mode oracle model_name ai col).1) := by
  induction cols generalizing acc with
  | nil => simp
  | cons c t ih =>
    rw [List.foldl_cons, ih]
    simp [colStep]

/-- `_process_update` can only touch the given key. -/
theorem process_update_other (mode : Mode) (oracle : Oracle) (fs : Fields)
    (key v ln k' : String) (hne : key ≠ k') :
    getF (process_update mode oracle fs key v ln).1 k' = getF fs k' := by
  cases mode with
  | check => rfl
  | interactive =>
      unfold process_update
      cases oracle ln key v with
      | none => rfl
      | some fv => exact getF_setF_ne fs key k' fv hne
  | update => exact getF_setF_ne fs key k' v hne
  | drift => exact getF_setF_ne fs key k' v hne

/-- `updateModelNode` never renames the node. -/
theorem updateModelNode_name (mode : Mode) (oracle : Oracle)
    (model_name : String) (ai : AiModel) (node : NodeConfig) :
    nodeName (updateModelNode mode oracle model_name ai node).1 =
      nodeName node := by
  unfold updateModelNode nodeName
  by_cases hg : getF node.fields "description" = "" ∧
      ai.model_description ≠ ""
  · simp only [if_pos hg]
    exact process_update_other mode oracle node.fields "description" _ _
      "name" (by decide)
  · simp only [if_neg hg]

/-- `updateModelNode` preserves the node in the sense of `nodePres`. -/
theorem updateModelNode_nodePres (mode : Mode) (oracle : Oracle)
    (model_name : String) (ai : AiModel) (node : NodeConfig) :
    nodePres node (updateModelNode mode oracle model_name ai node).1 := by
  refine ⟨updateModelNode_name mode oracle model_name ai node, ?_, ?_, ?_⟩
  · intro hdesc
    unfold updateModelNode
    by_cases hg : getF node.fields "description" = "" ∧
        ai.model_description ≠ ""
    · exact absurd hg.1 hdesc
    · simp only [if_neg hg]
  · unfold updateModelNode
    simp only [colStep_foldl]
    simp
  · intro i k hi hk
    unfold updateModelNode
    simp only [colStep_foldl, List.nil_append]
    have hmap : ((node.columns.map
        (fun col => (updateOneColumn mode oracle model_name ai col).1)).getD
          i []) =
        (updateOneColumn mode oracle model_name ai
          (node.columns.getD i [])).1 := by
      rw [List.getD_eq_getElem?_getD, List.getElem?_map,
        List.getElem?_eq_getElem hi, List.getD_eq_getElem?_getD,
        List.getElem?_eq_getElem hi]
      rfl
    rw [hmap]
    exact updateOneColumn_preserves mode oracle model_name ai _ k hk

end DbtYamlWriter

/-! ## Tree preservation lemmas -/

theorem getD_set_self {α : Type} (l : List α) (i : Nat) (x d : α)
    (h : i < l.length) : (l.set i x).getD i d = x := by
  rw [List.getD_eq_getElem?_getD, List.getElem?_set_self h]
  rfl

theorem getD_set_ne {α : Type} (l : List α) (i j : Nat) (x d : α)
    (h : i ≠ j) : (l.set i x).getD j d = l.getD j d := by
  rw [List.getD_eq_getElem?_getD, List.getElem?_set_ne h,
    ← List.getD_eq_getElem?_getD]

theorem getD_append_left {α : Type} (l l' : List α) (i : Nat) (d : α)
    (h : i < l.length) : (l ++ l').getD i d = l.getD i d := by
  rw [List.getD_eq_getElem?_getD, List.getElem?_append, if_pos h,
    ← List.getD_eq_getElem?_getD]

theorem nodePres_refl (n : DbtYamlWriter.NodeConfig) : nodePres n n :=
  ⟨rfl, fun _ => rfl, rfl, fun _ _ _ _ => rfl⟩

theorem nodePres_trans {a b c : DbtYamlWriter.NodeConfig}
    (h1 : nodePres a b) (h2 : nodePres b c) : nodePres a c := by
  obtain ⟨hn1, hd1, hl1, hc1⟩ := h1
  obtain ⟨hn2, hd2, hl2, hc2⟩ := h2
  refine ⟨hn2.trans hn1, ?_, hl2.trans hl1, ?_⟩
  · intro hd
    rw [hd2 (by rw [hd1 hd]; exact hd), hd1 hd]
  · intro i k hi hk
    have hib : i < b.columns.length := by omega
    rw [hc2 i k hib (by rw [hc1 i k hi hk]; exact hk), hc1 i k hi hk]

theorem treePres_refl (t : DbtYamlWriter.DocTree) : treePres t t :=
  ⟨rfl, rfl, rfl, rfl, le_refl _, fun i _ => nodePres_refl _⟩

theorem treePres_trans {a b c : DbtYamlWriter.DocTree}
    (h1 : treePres a b) (h2 : treePres b c) : treePres a c := by
  obtain ⟨hv1, hs1, he1, hn1, hl1, hm1⟩ := h1
  obtain ⟨hv2, hs2, he2, hn2, hl2, hm2⟩ := h2
  refine ⟨hv2.trans hv1, hs2.trans hs1, he2.trans he1, hn2.trans hn1,
    hl1.trans hl2, ?_⟩
  intro i hi
  exact nodePres_trans (hm1 i hi) (hm2 i (by omega))

/-- Updating one model node in place preserves the tree. -/
theorem treePres_set (t : DbtYamlWriter.DocTree) (i : Nat)
    (node n' : DbtYamlWriter.NodeConfig)
    (hnode : t.models[i]? = some node) (hpres : nodePres node n') :
    treePres t { t with models := t.models.set i n' } := by
  have hi : i < t.models.length := by
    by_contra h
    rw [List.getElem?_eq_none (by omega)] at hnode
    exact Option.noConfusion hnode
  refine ⟨rfl, rfl, rfl, rfl, by simp [List.length_set], ?_⟩
  intro j hj
  by_cases hij : i = j
  · subst hij
    have hgetD : t.models.getD i ⟨[], []⟩ = node := by
      rw [List.getD_eq_getElem?_getD, hnode]
      rfl
    rw [getD_set_self _ _ _ _ hi, hgetD]
    exact hpres
  · rw [getD_set_ne _ _ _ _ _ hij]
    exact nodePres_refl _

/-- Appending a stub preserves every existing model node. -/
theorem treePres_append (t : DbtYamlWriter.DocTree)
    (stub : DbtYamlWriter.NodeConfig) :
    treePres t { t with models := t.models ++ [stub] } := by
  refine ⟨rfl, rfl, rfl, rfl, by simp, ?_⟩
  intro i hi
  rw [show ({ t with models := t.models ++ [stub] } :
      DbtYamlWriter.DocTree).models = t.models ++ [stub] from rfl,
    getD_append_left _ _ _ _ hi]
  exact nodePres_refl _

/-! ## State-level preservation -/

theorem yfsPres_refl (yfs : List (String × DbtYamlWriter.DocTree)) :
    yfsPres yfs yfs :=
  fun p t0 h0 => ⟨t0, h0, treePres_refl t0⟩

theorem yfsPres_insert_pres (yfs0 yfs : List (String × DbtYamlWriter.DocTree))
    (fp : String) (data data' : DbtYamlWriter.DocTree)
    (hinv : yfsPres yfs0 yfs) (hly : lookupA yfs fp = some data)
    (hpres : treePres data data') :
    yfsPres yfs0 (insertA yfs fp data') := by
  intro p t0 h0
  by_cases hp : fp = p
  · subst hp
    rcases hinv fp t0 h0 with ⟨t, hlt, htp⟩
    rw [hly] at hlt
    injection hlt with hlt
    subst hlt
    exact ⟨data', lookupA_insertA_self _ _ _, treePres_trans htp hpres⟩
  · rcases hinv p t0 h0 with ⟨t, hlt, htp⟩
    exact ⟨t, by rw [lookupA_insertA_ne _ _ _ _ hp]; exact hlt, htp⟩

theorem yfsPres_insert_new (yfs0 yfs : List (String × DbtYamlWriter.DocTree))
    (fp : String) (data' : DbtYamlWriter.DocTree)
    (hinv : yfsPres yfs0 yfs) (hly : lookupA yfs fp = none) :
    yfsPres yfs0 (insertA yfs fp data') := by
  intro p t0 h0
  by_cases hp : fp = p
  · subst hp
    rcases hinv fp t0 h0 with ⟨t, hlt, _⟩
    rw [hly] at hlt
    exact Option.noConfusion hlt
  · rcases hinv p t0 h0 with ⟨t, hlt, htp⟩
    exact ⟨t, by rw [lookupA_insertA_ne _ _ _ _ hp]; exact hlt, htp⟩

theorem update_existing_yfsPres (mode : DbtYamlWriter.Mode)
    (oracle : DbtYamlWriter.Oracle) (st : DbtYamlWriter.WState)
    (fp n : String) (ai : DbtYamlWriter.AiModel)
    (yfs0 : List (String × DbtYamlWriter.DocTree))
    (hinv : yfsPres yfs0 st.yaml_files) :
    yfsPres yfs0
      (DbtYamlWriter.update_existing_model_in_memory mode oracle st fp n
        ai).1.yaml_files := by
  cases hly : lookupA st.yaml_files fp with
  | none =>
      simp only [DbtYamlWriter.update_existing_model_in_memory, hly]
      exact hinv
  | some data =>
    cases hidx : data.models.findIdx?
        (fun nd => DbtYamlWriter.nodeName nd = n) with
    | none =>
        simp only [DbtYamlWriter.update_existing_model_in_memory, hly, hidx]
        exact hinv
    | some i =>
      cases hnode : data.models[i]? with
      | none =>
          simp only [DbtYamlWriter.update_existing_model_in_memory, hly,
            hidx, hnode]
          exact hinv
      | some node =>
          simp only [DbtYamlWriter.update_existing_model_in_memory, hly,
            hidx, hnode]
          exact yfsPres_insert_pres yfs0 st.yaml_files fp data _ hinv hly
            (treePres_set data i node _ hnode
              (DbtYamlWriter.updateModelNode_nodePres mode oracle n ai node))

theorem create_stub_yfsPres (mode : DbtYamlWriter.Mode)
    (oracle : DbtYamlWriter.Oracle) (st : DbtYamlWriter.WState)
    (name : String) (ai : DbtYamlWriter.AiModel)
    (yfs0 : List (String × DbtYamlWriter.DocTree))
    (hinv : yfsPres yfs0 st.yaml_files) :
    yfsPres yfs0
      (DbtYamlWriter.create_new_model_stub_in_memory mode oracle st name
        ai).1.yaml_files := by
  by_cases hc : mode = DbtYamlWriter.Mode.check
  · simp only [DbtYamlWriter.create_new_model_stub_in_memory, if_pos hc]
    exact hinv
  · by_cases hpath : ai.original_file_path = ""
    · simp only [DbtYamlWriter.create_new_model_stub_in_memory, if_neg hc,
        if_pos hpath]
      exact hinv
    · cases hlt : lookupA st.yaml_files (DbtYamlWriter.stubTarget ai) with
      | some data =>
          simp only [DbtYamlWriter.create_new_model_stub_in_memory,
            if_neg hc, if_neg hpath, hlt]
          exact yfsPres_insert_pres yfs0 st.yaml_files _ data _ hinv hlt
            (treePres_append data _)
      | none =>
          simp only [DbtYamlWriter.create_new_model_stub_in_memory,
            if_neg hc, if_neg hpath, hlt]
          exact yfsPres_insert_new yfs0 st.yaml_files _ _ hinv hlt

theorem foldl_updateLoop_yfsPres (mode : DbtYamlWriter.Mode)
    (oracle : DbtYamlWriter.Oracle) (mmap : List (String × String))
    (catalog : DbtYamlWriter.Catalog) (s : DbtYamlWriter.WState × Bool)
    (yfs0 : List (String × DbtYamlWriter.DocTree))
    (hinv : yfsPres yfs0 s.1.yaml_files) :
    yfsPres yfs0
      (catalog.foldl (DbtYamlWriter.updateLoopStep mode oracle mmap)
        s).1.yaml_files := by
  induction catalog generalizing s with
  | nil => exact hinv
  | cons e t ih =>
    rw [List.foldl_cons]
    apply ih
    cases hm : lookupA mmap e.1 with
    | none =>
        simp only [DbtYamlWriter.updateLoopStep, hm]
        exact hinv
    | some fp =>
        simp only [DbtYamlWriter.updateLoopStep, hm]
        exact update_existing_yfsPres mode oracle s.1 fp e.1 e.2 yfs0 hinv

theorem foldl_createLoop_yfsPres (mode : DbtYamlWriter.Mode)
    (oracle : DbtYamlWriter.Oracle) (mmap : List (String × String))
    (catalog : DbtYamlWriter.Catalog) (s : DbtYamlWriter.WState × Bool)
    (yfs0 : List (String × DbtYamlWriter.DocTree))
    (hinv : yfsPres yfs0 s.1.yaml_files) :
    yfsPres yfs0
      (catalog.foldl (DbtYamlWriter.createLoopStep mode oracle mmap)
        s).1.yaml_files := by
  induction catalog generalizing s with
  | nil => exact hinv
  | cons e t ih =>
    rw [List.foldl_cons]
    apply ih
    cases hm : lookupA mmap e.1 with
    | none =>
        simp only [DbtYamlWriter.createLoopStep, hm]
        exact create_stub_yfsPres mode oracle s.1 e.1 e.2 yfs0 hinv
    | some fp =>
        simp only [DbtYamlWriter.createLoopStep, hm]
        exact hinv

theorem writeState_yfsPres (mode : DbtYamlWriter.Mode)
    (oracle : DbtYamlWriter.Oracle) (dir : String)
    (disk : List (String × DbtYamlWriter.FileContent))
    (catalog : DbtYamlWriter.Catalog)
    (lm : List (String × DbtYamlWriter.DocTree) × List (String × String))
    (st : DbtYamlWriter.WState) (b : Bool)
    (hl : DbtYamlWriter.load_and_map_existing_yamls dir disk = .ok lm)
    (hws : DbtYamlWriter.writeState mode oracle dir disk catalog =
      .ok (st, b)) :
    yfsPres lm.1 st.yaml_files := by
  unfold DbtYamlWriter.writeState at hws
  rw [hl] at hws
  simp only [Except.ok.injEq, Prod.ext_iff] at hws
  rw [← hws.1]
  exact foldl_createLoop_yfsPres mode oracle lm.2 catalog _ lm.1
    (foldl_updateLoop_yfsPres mode oracle lm.2 catalog (⟨lm.1, lm.2, []⟩,
      false) lm.1 (yfsPres_refl lm.1))

/-! ## Loader characterization -/

theorem loadStep_ok_cases (disk : List (String × DbtYamlWriter.FileContent))
    (acc acc' : List (String × DbtYamlWriter.DocTree) ×
      List (String × String)) (q : String)
    (h : DbtYamlWriter.loadStep disk acc q = Except.ok acc') :
    acc' = acc ∨ ∃ t, lookupA disk q =
      some (DbtYamlWriter.FileContent.yamlDoc t) ∧
      acc' = (insertA acc.1 q t, DbtYamlWriter.indexTree acc.2 q t) := by
  unfold DbtYamlWriter.loadStep at h
  cases hl : lookupA disk q with
  | none =>
      rw [hl] at h
      injection h with h
      exact Or.inl h.symm
  | some c =>
      rw [hl] at h
      cases c with
      | yamlDoc t =>
          injection h with h
          exact Or.inr ⟨t, rfl, h.symm⟩
      | emptyDoc =>
          injection h with h
          exact Or.inl h.symm
      | malformed => exact Except.noConfusion h

theorem loadFold_frame (disk : List (String × DbtYamlWriter.FileContent))
    (files : List String)
    (acc r : List (String × DbtYamlWriter.DocTree) × List (String × String))
    (hfold : List.foldlM (DbtYamlWriter.loadStep disk) acc files =
      Except.ok r) (p : String) (hp : p ∉ files) :
    lookupA r.1 p = lookupA acc.1 p := by
  induction files generalizing acc with
  | nil =>
      injection hfold with hfold
      rw [hfold]
  | cons q t ih =>
    simp only [List.mem_cons, not_or] at hp
    rw [List.foldlM_cons] at hfold
    cases hs : DbtYamlWriter.loadStep disk acc q with
    | error e => rw [hs] at hfold; exact Except.noConfusion hfold
    | ok acc' =>
      rw [hs, except_ok_bind] at hfold
      rw [ih acc' hfold hp.2]
      rcases loadStep_ok_cases disk acc acc' q hs with rfl | ⟨t', _, rfl⟩
      · rfl
      · exact lookupA_insertA_ne _ _ _ _ (Ne.symm hp.1)

theorem loadFold_lookup (disk : List (String × DbtYamlWriter.FileContent))
    (files : List String)
    (acc r : List (String × DbtYamlWriter.DocTree) × List (String × String))
    (hfold : List.foldlM (DbtYamlWriter.loadStep disk) acc files =
      Except.ok r) (p : String) (t : DbtYamlWriter.DocTree)
    (hp : p ∈ files)
    (ht : lookupA disk p = some (DbtYamlWriter.FileContent.yamlDoc t)) :
    lookupA r.1 p = some t := by
  induction files generalizing acc with
  | nil => simp at hp
  | cons q t' ih =>
    rw [List.foldlM_cons] at hfold
    cases hs : DbtYamlWriter.loadStep disk acc q with
    | error e => rw [hs] at hfold; exact Except.noConfusion hfold
    | ok acc' =>
      rw [hs, except_ok_bind] at hfold
      by_cases hpt : p ∈ t'
      · exact ih acc' hfold hpt
      · have hpq : p = q := by
          rcases List.mem_cons.mp hp with h | h
          · exact h
          · exact absurd h hpt
        subst hpq
        rw [loadFold_frame disk t' acc' r hfold p hpt]
        unfold DbtYamlWriter.loadStep at hs
        rw [ht] at hs
        injection hs with hs
        rw [← hs]
        exact lookupA_insertA_self _ _ _

/-- A path inside the dirty set is flushed with its in-memory document. -/
theorem lookupA_foldl_insertA_mem {α : Type} (ps : List String)
    (f : String → α) (d : List (String × α)) (p : String) (hp : p ∈ ps) :
    lookupA (ps.foldl (fun d q => insertA d q (f q)) d) p = some (f p) := by
  induction ps generalizing d with
  | nil => simp at hp
  | cons q t ih =>
    rw [List.foldl_cons]
    by_cases hpt : p ∈ t
    · exact ih _ hpt
    · have hpq : p = q := by
        rcases List.mem_cons.mp hp with h | h
        · exact h
        · exact absurd h hpt
      subst hpq
      rw [lookupA_foldl_insertA t f _ p hpt, lookupA_insertA_self]

/-! ## C2: no overwrite of existing descriptions -/

/-- Any discovered, parsed document survives a whole `write` run preserved
in the sense of `treePres` (in every mode). -/
theorem write_preserves_trees (mode : DbtYamlWriter.Mode)
    (oracle : DbtYamlWriter.Oracle) (dir : String)
    (disk : List (String × DbtYamlWriter.FileContent))
    (catalog : DbtYamlWriter.Catalog) (p : String)
    (t0 : DbtYamlWriter.DocTree)
    (disk' : List (String × DbtYamlWriter.FileContent)) (b : Bool)
    (hp : p ∈ DbtYamlWriter.find_schema_files dir (disk.map Prod.fst))
    (ht : lookupA disk p = some (DbtYamlWriter.FileContent.yamlDoc t0))
    (hw : DbtYamlWriter.write mode oracle dir disk catalog =
      .ok (disk', b)) :
    ∃ t', lookupA disk' p =
      some (DbtYamlWriter.FileContent.yamlDoc t') ∧ treePres t0 t' := by
  cases hl : DbtYamlWriter.load_and_map_existing_yamls dir disk with
  | error e =>
      exfalso
      unfold DbtYamlWriter.write DbtYamlWriter.writeState at hw
      rw [hl] at hw
      exact Except.noConfusion hw
  | ok lm =>
    cases hws : DbtYamlWriter.writeState mode oracle dir disk catalog with
    | error e =>
        exfalso
        unfold DbtYamlWriter.write at hw
        rw [hws] at hw
        exact Except.noConfusion hw
    | ok s =>
      have hyfs0 : lookupA lm.1 p = some t0 := by
        have hl' := hl
        unfold DbtYamlWriter.load_and_map_existing_yamls at hl'
        exact loadFold_lookup disk _ ([], []) lm hl' p t0 hp ht
      rcases writeState_yfsPres mode oracle dir disk catalog lm s.1 s.2 hl
          (by rw [hws]) p t0 hyfs0 with ⟨t, hlt, htp⟩
      unfold DbtYamlWriter.write at hw
      rw [hws] at hw
      simp only [Except.ok.injEq, Prod.ext_iff] at hw
      rw [← hw.1]
      split
      · by_cases hdirty : p ∈ s.1.files_to_write
        · refine ⟨t, ?_, htp⟩
          unfold DbtYamlWriter.write_modified_files_to_disk
          rw [lookupA_foldl_insertA_mem _ _ _ _ hdirty, hlt]
          rfl
        · refine ⟨t0, ?_, treePres_refl t0⟩
          rw [write_modified_files_to_disk_frame s.1 disk p hdirty]
          exact ht
      · exact ⟨t0, ht, treePres_refl t0⟩

/-- C2: in `update`, `check` or `interactive` mode, a documented node's
non-empty `description` — and every non-empty field of its existing
columns — survives `write` unchanged.  For any discovered, parsed file the
resulting on-disk document preserves every existing model node: same name,
same non-empty description, same number of columns, and every non-empty
column field keeps its value (`treePres`). -/
theorem no_overwrite_existing_descriptions (mode : DbtYamlWriter.Mode)
    (oracle : DbtYamlWriter.Oracle) (dir : String)
    (disk : List (String × DbtYamlWriter.FileContent))
    (catalog : DbtYamlWriter.Catalog) (p : String)
    (t0 : DbtYamlWriter.DocTree)
    (disk' : List (String × DbtYamlWriter.FileContent)) (b : Bool)
    (hmode : mode = DbtYamlWriter.Mode.update ∨
      mode = DbtYamlWriter.Mode.check ∨
      mode = DbtYamlWriter.Mode.interactive)
    (hp : p ∈ DbtYamlWriter.find_schema_files dir (disk.map Prod.fst))
    (ht : lookupA disk p = some (DbtYamlWriter.FileContent.yamlDoc t0))
    (hw : DbtYamlWriter.write mode oracle dir disk catalog =
      .ok (disk', b)) :
    ∃ t', lookupA disk' p =
      some (DbtYamlWriter.FileContent.yamlDoc t') ∧ treePres t0 t' :=
  write_preserves_trees mode oracle dir disk catalog p t0 disk' b hp ht hw

/-- Witness for C2 in `check` mode on the documented project: the column's
human description survives. -/
theorem no_overwrite_existing_descriptions_witness :
    ∃ t', lookupA documentedDisk "models/schema.yml" =
      some (DbtYamlWriter.FileContent.yamlDoc t') ∧
      treePres { models :=
        [⟨[("name", "orders")],
          [[("name", "id"), ("description", "human text")]]⟩] } t' :=
  no_overwrite_existing_descriptions DbtYamlWriter.Mode.check
    DbtYamlWriter.skipOracle "" documentedDisk ordersCatalog
    "models/schema.yml"
    { models :=
      [⟨[("name", "orders")],
        [[("name", "id"), ("description", "human text")]]⟩] }
    documentedDisk true (Or.inr (Or.inl rfl)) (by decide) (by rfl) (by rfl)

/-! ## C10: names indexed from `sources`/`seeds`/`snapshots` -/

theorem lookupA_insertA_isSome {α : Type} (l : List (String × α))
    (k k' : String) (v : α) (h : (lookupA l k').isSome) :
    (lookupA (insertA l k v) k').isSome := by
  by_cases hk : k = k'
  · subst hk
    rw [lookupA_insertA_self]
    rfl
  · rw [lookupA_insertA_ne _ _ _ _ hk]
    exact h

theorem foldl_indexNodes_mono (nodes : List DbtYamlWriter.NodeConfig)
    (m : List (String × String)) (p k : String)
    (h : (lookupA m k).isSome) :
    (lookupA (nodes.foldl
      (fun m n => if DbtYamlWriter.nodeName n = "" then m
        else insertA m (DbtYamlWriter.nodeName n) p) m) k).isSome := by
  induction nodes generalizing m with
  | nil => exact h
  | cons nd rest ih =>
    rw [List.foldl_cons]
    by_cases hn : DbtYamlWriter.nodeName nd = ""
    · rw [if_pos hn]
      exact ih m h
    · rw [if_neg hn]
      exact ih _ (lookupA_insertA_isSome _ _ _ _ h)

theorem foldl_indexNodes_names (nodes : List DbtYamlWriter.NodeConfig)
    (m : List (String × String)) (p : String)
    (nd : DbtYamlWriter.NodeConfig) (hmem : nd ∈ nodes)
    (hname : DbtYamlWriter.nodeName nd ≠ "") :
    (lookupA (nodes.foldl
      (fun m n => if DbtYamlWriter.nodeName n = "" then m
        else insertA m (DbtYamlWriter.nodeName n) p) m)
      (DbtYamlWriter.nodeName nd)).isSome := by
  induction nodes generalizing m with
  | nil => simp at hmem
  | cons hd rest ih =>
    rw [List.foldl_cons]
    rcases List.mem_cons.mp hmem with rfl | hmem'
    · rw [if_neg hname]
      exact foldl_indexNodes_mono rest _ p _
        (by rw [lookupA_insertA_self]; rfl)
    · by_cases hn : DbtYamlWriter.nodeName hd = ""
      · rw [if_pos hn]
        exact ih m hmem'
      · rw [if_neg hn]
        exact ih _ hmem' 

theorem indexTree_mono (m : List (String × String)) (p : String)
    (t : DbtYamlWriter.DocTree) (k : String)
    (h : (lookupA m k).isSome) :
    (lookupA (DbtYamlWriter.indexTree m p t) k).isSome :=
  foldl_indexNodes_mono _ m p k h

theorem indexTree_names (m : List (String × String)) (p : String)
    (t : DbtYamlWriter.DocTree) (nd : DbtYamlWriter.NodeConfig)
    (hmem : nd ∈ t.models ++ t.sources ++ t.seeds ++ t.snapshots)
    (hname : DbtYamlWriter.nodeName nd ≠ "") :
    (lookupA (DbtYamlWriter.indexTree m p t)
      (DbtYamlWriter.nodeName nd)).isSome :=
  foldl_indexNodes_names _ m p nd hmem hname

theorem loadFold_map_mono (disk : List (String × DbtYamlWriter.FileContent))
    (files : List String)
    (acc r : List (String × DbtYamlWriter.DocTree) × List (String × String))
    (hfold : List.foldlM (DbtYamlWriter.loadStep disk) acc files =
      Except.ok r) (k : String) (h : (lookupA acc.2 k).isSome) :
    (lookupA r.2 k).isSome := by
  induction files generalizing acc with
  | nil =>
      injection hfold with hfold
      rw [← hfold]
      exact h
  | cons q t ih =>
    rw [List.foldlM_cons] at hfold
    cases hs : DbtYamlWriter.loadStep disk acc q with
    | error e => rw [hs] at hfold; exact Except.noConfusion hfold
    | ok acc' =>
      rw [hs, except_ok_bind] at hfold
      rcases loadStep_ok_cases disk acc acc' q hs with rfl | ⟨t', _, rfl⟩
      · exact ih acc' hfold h
      · exact ih _ hfold (indexTree_mono _ _ _ _ h)

/-- Any node of any loaded tree, of any of the four lists, makes its name
documented in the model-to-file index. -/
theorem loadFold_indexes_names
    (disk : List (String × DbtYamlWriter.FileContent)) (files : List String)
    (acc r : List (String × DbtYamlWriter.DocTree) × List (String × String))
    (hfold : List.foldlM (DbtYamlWriter.loadStep disk) acc files =
      Except.ok r) (p : String) (t : DbtYamlWriter.DocTree)
    (nd : DbtYamlWriter.NodeConfig) (hp : p ∈ files)
    (ht : lookupA disk p = some (DbtYamlWriter.FileContent.yamlDoc t))
    (hmem : nd ∈ t.models ++ t.sources ++ t.seeds ++ t.snapshots)
    (hname : DbtYamlWriter.nodeName nd ≠ "") :
    (lookupA r.2 (DbtYamlWriter.nodeName nd)).isSome := by
  induction files generalizing acc with
  | nil => simp at hp
  | cons q t' ih =>
    rw [List.foldlM_cons] at hfold
    cases hs : DbtYamlWriter.loadStep disk acc q with
    | error e => rw [hs] at hfold; exact Except.noConfusion hfold
    | ok acc' =>
      rw [hs, except_ok_bind] at hfold
      by_cases hpt : p ∈ t'
      · exact ih acc' hfold hpt
      · have hpq : p = q := by
          rcases List.mem_cons.mp hp with h | h
          · exact h
          · exact absurd h hpt
        subst hpq
        unfold DbtYamlWriter.loadStep at hs
        rw [ht] at hs
        injection hs with hs
        subst hs
        exact loadFold_map_mono disk t' _ r hfold _
          (indexTree_names acc.2 p t nd hmem hname)

/-- C10: the model-to-file index is built from `models`, `sources`, `seeds`
and `snapshots` alike (any named node of a loaded tree is indexed), but the
known-model update path searches only the `models` list: when the mapped
file has no `models` entry of that name the update is a no-op returning
`False`; moreover a whole `write` run never modifies the `sources`,
`seeds` or `snapshots` lists of any discovered document, and concretely a
catalog model documented only under `sources` leaves the project byte-for
byte unchanged with `write` returning `false`. -/
theorem sources_indexed_models_untouched :
    (∀ (mode : DbtYamlWriter.Mode) (oracle : DbtYamlWriter.Oracle)
        (st : DbtYamlWriter.WState) (fp n : String)
        (ai : DbtYamlWriter.AiModel) (data : DbtYamlWriter.DocTree),
      lookupA st.yaml_files fp = some data →
      (∀ nd ∈ data.models, DbtYamlWriter.nodeName nd ≠ n) →
      DbtYamlWriter.update_existing_model_in_memory mode oracle st fp n ai =
        (st, false))
    ∧ (∀ (dir : String) (disk : List (String × DbtYamlWriter.FileContent))
        (lm : List (String × DbtYamlWriter.DocTree) ×
          List (String × String)) (p : String)
        (t : DbtYamlWriter.DocTree) (nd : DbtYamlWriter.NodeConfig),
      DbtYamlWriter.load_and_map_existing_yamls dir disk = .ok lm →
      p ∈ DbtYamlWriter.find_schema_files dir (disk.map Prod.fst) →
      lookupA disk p = some (DbtYamlWriter.FileContent.yamlDoc t) →
      nd ∈ t.models ++ t.sources ++ t.seeds ++ t.snapshots →
      DbtYamlWriter.nodeName nd ≠ "" →
      (lookupA lm.2 (DbtYamlWriter.nodeName nd)).isSome)
    ∧ (∀ (mode : DbtYamlWriter.Mode) (oracle : DbtYamlWriter.Oracle)
        (dir : String) (disk : List (String × DbtYamlWriter.FileContent))
        (catalog : DbtYamlWriter.Catalog) (p : String)
        (t0 : DbtYamlWriter.DocTree)
        (disk' : List (String × DbtYamlWriter.FileContent)) (b : Bool),
      p ∈ DbtYamlWriter.find_schema_files dir (disk.map Prod.fst) →
      lookupA disk p = some (DbtYamlWriter.FileContent.yamlDoc t0) →
      DbtYamlWriter.write mode oracle dir disk catalog = .ok (disk', b) →
      ∃ t', lookupA disk' p =
        some (DbtYamlWriter.FileContent.yamlDoc t') ∧
        t'.sources = t0.sources ∧ t'.seeds = t0.seeds ∧
        t'.snapshots = t0.snapshots)
    ∧ DbtYamlWriter.write DbtYamlWriter.Mode.update DbtYamlWriter.skipOracle
        "" sourcesDisk ordersCatalog = .ok (sourcesDisk, false) := by
  refine ⟨?_, ?_, ?_, by rfl⟩
  · intro mode oracle st fp n ai data hly hnone
    have hidx : data.models.findIdx?
        (fun nd => DbtYamlWriter.nodeName nd = n) = none := by
      rw [List.findIdx?_eq_none_iff]
      intro nd hnd
      simp [hnone nd hnd]
    simp only [DbtYamlWriter.update_existing_model_in_memory, hly, hidx]
  · intro dir disk lm p t nd hl hp ht hmem hname
    unfold DbtYamlWriter.load_and_map_existing_yamls at hl
    exact loadFold_indexes_names disk _ ([], []) lm hl p t nd hp ht hmem
      hname
  · intro mode oracle dir disk catalog p t0 disk' b hp ht hw
    rcases write_preserves_trees mode oracle dir disk catalog p t0 disk' b
      hp ht hw with ⟨t', hlt, htp⟩
    exact ⟨t', hlt, htp.2.1, htp.2.2.1, htp.2.2.2.1⟩

/-- Witness for C10: the no-op update on the sources-only project. -/
theorem sources_indexed_models_untouched_witness :
    DbtYamlWriter.update_existing_model_in_memory DbtYamlWriter.Mode.update
      DbtYamlWriter.skipOracle
      ⟨[("models/schema.yml", { sources := [⟨[("name", "orders")], []⟩] })],
        [("orders", "models/schema.yml")], []⟩
      "models/schema.yml" "orders"
      { model_description := "Order facts" } =
      (⟨[("models/schema.yml", { sources := [⟨[("name", "orders")], []⟩] })],
        [("orders", "models/schema.yml")], []⟩, false) :=
  sources_indexed_models_untouched.1 DbtYamlWriter.Mode.update
    DbtYamlWriter.skipOracle _ "models/schema.yml" "orders"
    { model_description := "Order facts" }
    { sources := [⟨[("name", "orders")], []⟩] } (by rfl)
    (by intro nd hnd; simp at hnd)

/-! ## C8: stub placement for unknown models -/

/-- C8: in `update` mode an unknown model's stub is appended to the
already-loaded document living in the directory of the model's source file
when there is one, and otherwise goes into a brand-new document seeded
with `{version: 2, models: [stub]}`; either way the target is marked dirty
and the model counts as outdated.  Concretely, the spec's scenario catalog
against an empty project creates `models/schema.yml` with the `orders`
entry, its description and its `id` column, and `write` returns `true`. -/
theorem unknown_model_stub_placement :
    (∀ (oracle : DbtYamlWriter.Oracle) (st : DbtYamlWriter.WState)
        (name : String) (ai : DbtYamlWriter.AiModel)
        (data : DbtYamlWriter.DocTree),
      ai.original_file_path ≠ "" →
      lookupA st.yaml_files (DbtYamlWriter.stubTarget ai) = some data →
      DbtYamlWriter.create_new_model_stub_in_memory
          DbtYamlWriter.Mode.update oracle st name ai =
        ({ st with
            yaml_files := insertA st.yaml_files (DbtYamlWriter.stubTarget ai)
              { data with models := data.models ++
                [DbtYamlWriter.makeStub DbtYamlWriter.Mode.update oracle
                  name ai] }
            files_to_write :=
              addIfAbsent st.files_to_write (DbtYamlWriter.stubTarget ai) },
          true))
    ∧ (∀ (oracle : DbtYamlWriter.Oracle) (st : DbtYamlWriter.WState)
        (name : String) (ai : DbtYamlWriter.AiModel),
      ai.original_file_path ≠ "" →
      lookupA st.yaml_files (DbtYamlWriter.stubTarget ai) = none →
      DbtYamlWriter.create_new_model_stub_in_memory
          DbtYamlWriter.Mode.update oracle st name ai =
        ({ st with
            yaml_files := insertA st.yaml_files (DbtYamlWriter.stubTarget ai)
              { version := some 2,
                models := [DbtYamlWriter.makeStub DbtYamlWriter.Mode.update
                  oracle name ai] }
            files_to_write :=
              addIfAbsent st.files_to_write (DbtYamlWriter.stubTarget ai) },
          true))
    ∧ DbtYamlWriter.stubTarget
        { original_file_path := "models/orders.sql" } = "models/schema.yml"
    ∧ DbtYamlWriter.write DbtYamlWriter.Mode.update DbtYamlWriter.skipOracle
        "" [] ordersCatalog =
      .ok ([("models/schema.yml",
        DbtYamlWriter.FileContent.yamlDoc
          { version := some 2,
            models := [⟨[("name", "orders"), ("description", "Order facts")],
              [[("name", "id"), ("description", "PK")]]⟩] })], true) := by
  refine ⟨?_, ?_, by rfl, by rfl⟩
  · intro oracle st name ai data hpath hlt
    simp only [DbtYamlWriter.create_new_model_stub_in_memory,
      if_neg (by decide : ¬ DbtYamlWriter.Mode.update =
        DbtYamlWriter.Mode.check), if_neg hpath, hlt]
  · intro oracle st name ai hpath hlt
    simp only [DbtYamlWriter.create_new_model_stub_in_memory,
      if_neg (by decide : ¬ DbtYamlWriter.Mode.update =
        DbtYamlWriter.Mode.check), if_neg hpath, hlt]

/-- Witness for C8: creating the `orders` stub in a fresh writer state. -/
theorem unknown_model_stub_placement_witness :
    DbtYamlWriter.create_new_model_stub_in_memory DbtYamlWriter.Mode.update
      DbtYamlWriter.skipOracle ⟨[], [], []⟩ "orders"
      { model_description := "Order facts",
        columns := [{ name := "id", ai_generated := [("description", "PK")] }],
        original_file_path := "models/orders.sql" } =
    (⟨[("models/schema.yml",
        { version := some 2,
          models := [⟨[("name", "orders"), ("description", "Order facts")],
            [[("name", "id"), ("description", "PK")]]⟩] })],
      [], ["models/schema.yml"]⟩, true) := by
  have h := unknown_model_stub_placement.2.1 DbtYamlWriter.skipOracle
    ⟨[], [], []⟩ "orders"
    { model_description := "Order facts",
      columns := [{ name := "id", ai_generated := [("description", "PK")] }],
      original_file_path := "models/orders.sql" }
    (by decide) (by rfl)
  rw [h]
  rfl

/-! ## C4 groundwork: the change measure under reconciler steps -/

theorem muF_setF (fs : DbtYamlWriter.Fields) (k v : String)
    (hk : DbtYamlWriter.getF fs k = "") :
    muF (DbtYamlWriter.setF fs k v) =
      muF fs + (if v = "" then 0 else 1) +
        (if lookupA fs k = none then 1 else 0) := by
  induction fs with
  | nil =>
      simp only [DbtYamlWriter.setF, insertA, muF, lookupA, List.map_cons,
        List.map_nil, List.sum_cons, List.sum_nil, muV]
      by_cases hv : v = "" <;> simp [hv]
  | cons hd t ih =>
    obtain ⟨k', v'⟩ := hd
    by_cases hkk : k' = k
    · subst hkk
      have hv' : v' = "" := by
        simpa [DbtYamlWriter.getF, lookupA] using hk
      subst hv'
      simp only [DbtYamlWriter.setF, insertA, if_pos rfl, muF, lookupA,
        List.map_cons, List.sum_cons, muV]
      by_cases hv : v = "" <;> simp [hv] <;> omega
    · have hk' : DbtYamlWriter.getF t k = "" := by
        simpa [DbtYamlWriter.getF, lookupA, hkk] using hk
      have hrec := ih hk'
      have hcons : lookupA ((k', v') :: t) k = lookupA t k := by
        simp [lookupA, hkk]
      have hset : DbtYamlWriter.setF ((k', v') :: t) k v =
          (k', v') :: DbtYamlWriter.setF t k v := by
        simp [DbtYamlWriter.setF, insertA, hkk]
      rw [hset, hcons]
      simp only [muF, List.map_cons, List.sum_cons] at hrec ⊢
      omega

theorem muF_setF_ge (fs : DbtYamlWriter.Fields) (k v : String)
    (hk : DbtYamlWriter.getF fs k = "") :
    muF fs ≤ muF (DbtYamlWriter.setF fs k v) := by
  rw [muF_setF fs k v hk]
  omega

theorem muF_setF_gt (fs : DbtYamlWriter.Fields) (k v : String)
    (hk : DbtYamlWriter.getF fs k = "") (hv : v ≠ "") :
    muF fs < muF (DbtYamlWriter.setF fs k v) := by
  rw [muF_setF fs k v hk, if_neg hv]
  omega

theorem set_self {α : Type} (l : List α) (i : Nat) (x : α)
    (h : l[i]? = some x) : l.set i x = l := by
  induction l generalizing i with
  | nil => simp at h
  | cons hd t ih =>
    cases i with
    | zero =>
        simp at h
        simp [List.set, h]
    | succ j =>
        simp at h
        simp [List.set, ih j h]

theorem sum_map_mono {α : Type} (l : List α) (f g : α → Nat)
    (h : ∀ a ∈ l, f a ≤ g a) :
    (l.map f).sum ≤ (l.map g).sum := by
  induction l with
  | nil => simp
  | cons hd t ih =>
    simp only [List.map_cons, List.sum_cons]
    have h1 := h hd (by simp)
    have h2 := ih (fun a ha => h a (by simp [ha]))
    omega

theorem sum_map_strict {α : Type} (l : List α) (f g : α → Nat)
    (h : ∀ a ∈ l, f a ≤ g a) (a : α) (ha : a ∈ l) (hs : f a < g a) :
    (l.map f).sum < (l.map g).sum := by
  induction l with
  | nil => simp at ha
  | cons hd t ih =>
    simp only [List.map_cons, List.sum_cons]
    rcases List.mem_cons.mp ha with rfl | ha'
    · have h2 := sum_map_mono t f g (fun x hx => h x (by simp [hx]))
      omega
    · have h1 := h hd (by simp)
      have h2 := ih (fun x hx => h x (by simp [hx])) ha'
      omega

theorem sum_map_set {α : Type} (l : List α) (i : Nat) (x y : α)
    (f : α → Nat) (h : l[i]? = some y) :
    ((l.set i x).map f).sum + f y = (l.map f).sum + f x := by
  induction l generalizing i with
  | nil => simp at h
  | cons hd t ih =>
    cases i with
    | zero =>
        simp only [List.getElem?_cons_zero, Option.some.injEq] at h
        subst h
        simp only [List.set, List.map_cons, List.sum_cons]
        omega
    | succ j =>
        simp only [List.getElem?_cons_succ] at h
        have hrec := ih j h
        simp only [List.set, List.map_cons, List.sum_cons]
        omega

namespace DbtYamlWriter

theorem process_update_bit_mu (mode : Mode) (oracle : Oracle)
    (hm : mode = Mode.update ∨ mode = Mode.interactive)
    (ho : mode = Mode.interactive → ∀ a b c v, oracle a b c = some v →
      v ≠ "")
    (fs : Fields) (key v ln : String) (hkey : getF fs key = "")
    (hv : v ≠ "") :
    ((process_update mode oracle fs key v ln).2 = false →
      (process_update mode oracle fs key v ln).1 = fs)
    ∧ ((process_update mode oracle fs key v ln).2 = true →
      muF fs < muF (process_update mode oracle fs key v ln).1)
    ∧ muF fs ≤ muF (process_update mode oracle fs key v ln).1 := by
  rcases hm with rfl | rfl
  · unfold process_update
    exact ⟨fun h => Bool.noConfusion h,
      fun _ => muF_setF_gt fs key v hkey hv, muF_setF_ge fs key v hkey⟩
  · unfold process_update
    cases hor : oracle ln key v with
    | none => exact ⟨fun _ => rfl, fun h => Bool.noConfusion h, le_refl _⟩
    | some fv =>
        have hfv : fv ≠ "" := ho rfl ln key v fv hor
        exact ⟨fun h => Bool.noConfusion h,
          fun _ => muF_setF_gt fs key fv hkey hfv,
          muF_setF_ge fs key fv hkey⟩

theorem fillStep_mu_ge (mode : Mode) (oracle : Oracle) (ln : String)
    (s : Fields × Bool) (kv : String × String) :
    muF s.1 ≤ muF (fillStep mode oracle ln s kv).1 := by
  unfold fillStep
  by_cases hg : getF s.1 kv.1 = ""
  · rw [if_pos hg]
    dsimp only
    cases mode with
    | check => exact le_refl _
    | interactive =>
        unfold process_update
        cases oracle ln kv.1 kv.2 with
        | none => exact le_refl _
        | some fv => exact muF_setF_ge s.1 kv.1 fv hg
    | update => exact muF_setF_ge s.1 kv.1 kv.2 hg
    | drift => exact muF_setF_ge s.1 kv.1 kv.2 hg
  · rw [if_neg hg]

theorem fillFold_mu_ge (mode : Mode) (oracle : Oracle) (ln : String)
    (kvs : Fields) (s : Fields × Bool) :
    muF s.1 ≤ muF ((kvs.foldl (fillStep mode oracle ln) s)).1 := by
  induction kvs generalizing s with
  | nil => exact le_refl _
  | cons kv t ih =>
    rw [List.foldl_cons]
    exact le_trans (fillStep_mu_ge mode oracle ln s kv) (ih _)

theorem fillStep_bit_mono (mode : Mode) (oracle : Oracle) (ln : String)
    (s : Fields × Bool) (kv : String × String) (h : s.2 = true) :
    (fillStep mode oracle ln s kv).2 = true := by
  unfold fillStep
  by_cases hg : getF s.1 kv.1 = ""
  · rw [if_pos hg]
    dsimp only
    rw [h]
    simp
  · rw [if_neg hg]
    exact h

theorem fillFold_bit_mono (mode : Mode) (oracle : Oracle) (ln : String)
    (kvs : Fields) (s : Fields × Bool) (h : s.2 = true) :
    (kvs.foldl (fillStep mode oracle ln) s).2 = true := by
  induction kvs generalizing s with
  | nil => exact h
  | cons kv t ih =>
    rw [List.foldl_cons]
    exact ih _ (fillStep_bit_mono mode oracle ln s kv h)

theorem fillFold_false (mode : Mode) (oracle : Oracle)
    (hm : mode = Mode.update ∨ mode = Mode.interactive) (ln : String)
    (kvs : Fields) (s : Fields × Bool)
    (h : (kvs.foldl (fillStep mode oracle ln) s).2 = false) :
    kvs.foldl (fillStep mode oracle ln) s = s ∧ s.2 = false := by
  induction kvs generalizing s with
  | nil => exact ⟨rfl, h⟩
  | cons kv t ih =>
    rw [List.foldl_cons] at h ⊢
    by_cases hg : getF s.1 kv.1 = ""
    · have hstep : fillStep mode oracle ln s kv =
          ((process_update mode oracle s.1 kv.1 kv.2 ln).1,
            s.2 || (process_update mode oracle s.1 kv.1 kv.2 ln).2) := by
        simp [fillStep, hg]
      rcases hm with rfl | rfl
      · exfalso
        rw [hstep] at h
        have : (s.2 || (process_update Mode.update oracle s.1 kv.1 kv.2
            ln).2) = true := by
          unfold process_update
          simp
        rw [fillFold_bit_mono _ _ _ _ _ this] at h
        exact Bool.noConfusion h
      · cases hor : oracle ln kv.1 kv.2 with
        | none =>
            have hid : fillStep Mode.interactive oracle ln s kv = s := by
              rw [hstep]
              unfold process_update
              rw [hor]
              simp
            rw [hid] at h ⊢
            exact ih s h
        | some fv =>
            exfalso
            rw [hstep] at h
            have : (s.2 || (process_update Mode.interactive oracle s.1 kv.1
                kv.2 ln).2) = true := by
              unfold process_update
              rw [hor]
              simp
            rw [fillFold_bit_mono _ _ _ _ _ this] at h
            exact Bool.noConfusion h
    · have hstep : fillStep mode oracle ln s kv = s := by
        simp [fillStep, hg]
      rw [hstep] at h ⊢
      exact ih s h

theorem fillFold_true_strict (mode : Mode) (oracle : Oracle)
    (hm : mode = Mode.update ∨ mode = Mode.interactive)
    (ho : mode = Mode.interactive → ∀ a b c v, oracle a b c = some v →
      v ≠ "") (ln : String)
    (kvs : Fields) (s : Fields × Bool)
    (hv : ∀ kv ∈ kvs, kv.2 ≠ "")
    (h : (kvs.foldl (fillStep mode oracle ln) s).2 = true) :
    s.2 = true ∨ muF s.1 < muF (kvs.foldl (fillStep mode oracle ln) s).1 := by
  induction kvs generalizing s with
  | nil => exact Or.inl h
  | cons kv t ih =>
    rw [List.foldl_cons] at h ⊢
    by_cases hg : getF s.1 kv.1 = ""
    · have hkv : kv.2 ≠ "" := hv kv (by simp)
      have hbm := process_update_bit_mu mode oracle hm ho s.1 kv.1 kv.2 ln
        hg hkv
      have hstep : fillStep mode oracle ln s kv =
          ((process_update mode oracle s.1 kv.1 kv.2 ln).1,
            s.2 || (process_update mode oracle s.1 kv.1 kv.2 ln).2) := by
        simp [fillStep, hg]
      cases hpb : (process_update mode oracle s.1 kv.1 kv.2 ln).2 with
      | false =>
          have hid : fillStep mode oracle ln s kv = s := by
            rw [hstep, hbm.1 hpb, hpb]
            simp
          rw [hid] at h ⊢
          exact ih s (fun x hx => hv x (List.mem_cons_of_mem kv hx)) h
      | true =>
          right
          have hstrict := hbm.2.1 hpb
          calc muF s.1 < muF (process_update mode oracle s.1 kv.1 kv.2
                ln).1 := hstrict
            _ = muF (fillStep mode oracle ln s kv).1 := by rw [hstep]
            _ ≤ _ := fillFold_mu_ge mode oracle ln t _
    · have hid : fillStep mode oracle ln s kv = s := by
        simp [fillStep, hg]
      rw [hid] at h ⊢
      exact ih s (fun x hx => hv x (List.mem_cons_of_mem kv hx)) h

end DbtYamlWriter

namespace DbtYamlWriter

theorem updateOneColumn_mu_ge (mode : Mode) (oracle : Oracle)
    (mn : String) (ai : AiModel) (col : Fields) :
    muF col ≤ muF (updateOneColumn mode oracle mn ai col).1 := by
  simp only [updateOneColumn]
  cases hf : List.find? (fun c => decide (c.name = getF col "name"))
      ai.columns with
  | none => exact le_refl _
  | some c =>
      dsimp only
      by_cases hd : mode = Mode.drift ∧ getF col "description" ≠ "" ∧
          c.drift_status = "DRIFT"
      · rw [if_pos hd]
      · rw [if_neg hd]
        exact fillFold_mu_ge mode oracle _ c.ai_generated (col, false)

theorem updateOneColumn_false (mode : Mode) (oracle : Oracle)
    (hm : mode = Mode.update ∨ mode = Mode.interactive)
    (mn : String) (ai : AiModel) (col : Fields)
    (h : (updateOneColumn mode oracle mn ai col).2 = false) :
    (updateOneColumn mode oracle mn ai col).1 = col := by
  simp only [updateOneColumn] at h ⊢
  cases hf : List.find? (fun c => decide (c.name = getF col "name"))
      ai.columns with
  | none => rfl
  | some c =>
      rw [hf] at h
      dsimp only at h ⊢
      by_cases hd : mode = Mode.drift ∧ getF col "description" ≠ "" ∧
          c.drift_status = "DRIFT"
      · rw [if_pos hd] at h
        exact Bool.noConfusion h
      · rw [if_neg hd] at h ⊢
        rw [(fillFold_false mode oracle hm _ c.ai_generated (col, false)
          h).1]

theorem updateOneColumn_true_strict (mode : Mode) (oracle : Oracle)
    (hm : mode = Mode.update ∨ mode = Mode.interactive)
    (ho : mode = Mode.interactive → ∀ a b c v, oracle a b c = some v →
      v ≠ "")
    (mn : String) (ai : AiModel) (col : Fields)
    (hv : ∀ c ∈ ai.columns, ∀ kv ∈ c.ai_generated, kv.2 ≠ "")
    (h : (updateOneColumn mode oracle mn ai col).2 = true) :
    muF col < muF (updateOneColumn mode oracle mn ai col).1 := by
  simp only [updateOneColumn] at h ⊢
  cases hf : List.find? (fun c => decide (c.name = getF col "name"))
      ai.columns with
  | none =>
      rw [hf] at h
      exact Bool.noConfusion h
  | some c =>
      rw [hf] at h
      dsimp only at h ⊢
      have hmem : c ∈ ai.columns := List.mem_of_find?_eq_some hf
      by_cases hd : mode = Mode.drift ∧ getF col "description" ≠ "" ∧
          c.drift_status = "DRIFT"
      · exfalso
        rcases hm with rfl | rfl <;> exact Mode.noConfusion hd.1
      · rw [if_neg hd] at h ⊢
        rcases fillFold_true_strict mode oracle hm ho _ c.ai_generated
          (col, false) (fun kv hkv => hv c hmem kv hkv) h with hfalse | hlt
        · exact Bool.noConfusion hfalse
        · exact hlt

theorem colStep_foldl_snd (mode : Mode) (oracle : Oracle) (mn : String)
    (ai : AiModel) (cols : List Fields) (s : List Fields × Bool) :
    (cols.foldl (colStep mode oracle mn ai) s).2 =
      (s.2 || cols.any
        (fun col => (updateOneColumn mode oracle mn ai col).2)) := by
  induction cols generalizing s with
  | nil => simp
  | cons c t ih =>
    rw [List.foldl_cons, ih]
    simp [colStep, Bool.or_assoc]

theorem updateModelNode_components (mode : Mode) (oracle : Oracle)
    (mn : String) (ai : AiModel) (node : NodeConfig) :
    (updateModelNode mode oracle mn ai node).1.fields =
      (if getF node.fields "description" = "" ∧
          ai.model_description ≠ "" then
        (process_update mode oracle node.fields "description"
          ai.model_description ("model " ++ mn)).1
      else node.fields)
    ∧ (updateModelNode mode oracle mn ai node).1.columns =
      node.columns.map
        (fun col => (updateOneColumn mode oracle mn ai col).1)
    ∧ (updateModelNode mode oracle mn ai node).2 =
      ((if getF node.fields "description" = "" ∧
          ai.model_description ≠ "" then
        (process_update mode oracle node.fields "description"
          ai.model_description ("model " ++ mn)).2
      else false) ||
        node.columns.any
          (fun col => (updateOneColumn mode oracle mn ai col).2)) := by
  refine ⟨?_, ?_, ?_⟩
  · simp only [updateModelNode]
    by_cases hg : getF node.fields "description" = "" ∧
        ai.model_description ≠ ""
    · rw [if_pos hg, if_pos hg]
    · rw [if_neg hg, if_neg hg]
  · simp only [updateModelNode]
    rw [colStep_foldl ..]
    simp
  · simp only [updateModelNode]
    rw [colStep_foldl_snd ..]
    by_cases hg : getF node.fields "description" = "" ∧
        ai.model_description ≠ ""
    · rw [if_pos hg, if_pos hg]
      simp
    · rw [if_neg hg, if_neg hg]
      simp

theorem process_update_false (mode : Mode) (oracle : Oracle)
    (hm : mode = Mode.update ∨ mode = Mode.interactive)
    (fs : Fields) (key v ln : String)
    (h : (process_update mode oracle fs key v ln).2 = false) :
    (process_update mode oracle fs key v ln).1 = fs := by
  rcases hm with rfl | rfl
  · exact absurd h (by unfold process_update; simp)
  · unfold process_update at h ⊢
    dsimp only at h ⊢
    cases hor : oracle ln key v with
    | none => rfl
    | some fv =>
        rw [hor] at h
        simp at h

theorem updateModelNode_false (mode : Mode) (oracle : Oracle)
    (hm : mode = Mode.update ∨ mode = Mode.interactive)
    (mn : String) (ai : AiModel) (node : NodeConfig)
    (h : (updateModelNode mode oracle mn ai node).2 = false) :
    (updateModelNode mode oracle mn ai node).1 = node := by
  obtain ⟨hfields, hcols, hbit⟩ :=
    updateModelNode_components mode oracle mn ai node
  rw [hbit] at h
  simp only [Bool.or_eq_false_iff] at h
  have hfieldsEq : (updateModelNode mode oracle mn ai node).1.fields =
      node.fields := by
    rw [hfields]
    by_cases hg : getF node.fields "description" = "" ∧
        ai.model_description ≠ ""
    · rw [if_pos hg]
      rw [if_pos hg] at h
      exact process_update_false mode oracle hm node.fields "description"
        ai.model_description _ h.1
    · rw [if_neg hg]
  have hcolsEq : (updateModelNode mode oracle mn ai node).1.columns =
      node.columns := by
    rw [hcols]
    have hall := List.any_eq_false.mp h.2
    have : node.columns.map
        (fun col => (updateOneColumn mode oracle mn ai col).1) =
        node.columns.map id := by
      apply List.map_congr_left
      intro col hcol
      exact updateOneColumn_false mode oracle hm mn ai col
        (by simpa using hall col hcol)
    rw [this, List.map_id]
  obtain ⟨nf, nc⟩ := node
  have h1 : (updateModelNode mode oracle mn ai ⟨nf, nc⟩).1 =
      ⟨(updateModelNode mode oracle mn ai ⟨nf, nc⟩).1.fields,
        (updateModelNode mode oracle mn ai ⟨nf, nc⟩).1.columns⟩ := rfl
  rw [h1, hfieldsEq, hcolsEq]

theorem process_update_mu_ge (mode : Mode) (oracle : Oracle) (fs : Fields)
    (key v ln : String) (hkey : getF fs key = "") :
    muF fs ≤ muF (process_update mode oracle fs key v ln).1 := by
  cases mode with
  | check => exact le_refl _
  | interactive =>
      unfold process_update
      cases oracle ln key v with
      | none => exact le_refl _
      | some fv => exact muF_setF_ge fs key fv hkey
  | update => exact muF_setF_ge fs key v hkey
  | drift => exact muF_setF_ge fs key v hkey

/-- The description step of `updateModelNode`, abbreviated. -/
theorem updateModelNode_fields_mu_ge (mode : Mode) (oracle : Oracle)
    (mn : String) (ai : AiModel) (node : NodeConfig) :
    muF node.fields ≤
      muF (updateModelNode mode oracle mn ai node).1.fields := by
  rw [(updateModelNode_components mode oracle mn ai node).1]
  by_cases hg : getF node.fields "description" = "" ∧
      ai.model_description ≠ ""
  · rw [if_pos hg]
    exact process_update_mu_ge mode oracle node.fields "description"
      ai.model_description _ hg.1
  · rw [if_neg hg]

theorem updateModelNode_mu_ge (mode : Mode) (oracle : Oracle)
    (mn : String) (ai : AiModel) (node : NodeConfig) :
    muN node ≤ muN (updateModelNode mode oracle mn ai node).1 := by
  have h1 := updateModelNode_fields_mu_ge mode oracle mn ai node
  have h2 : ((updateModelNode mode oracle mn ai
      node).1.columns.map muF).sum =
      ((node.columns.map
        (fun col => (updateOneColumn mode oracle mn ai col).1)).map
          muF).sum := by
    rw [(updateModelNode_components mode oracle mn ai node).2.1]
  have h3 : (node.columns.map muF).sum ≤
      ((node.columns.map
        (fun col => (updateOneColumn mode oracle mn ai col).1)).map
          muF).sum := by
    rw [List.map_map]
    exact sum_map_mono node.columns muF _
      (fun col _ => updateOneColumn_mu_ge mode oracle mn ai col)
  unfold muN
  omega

theorem updateModelNode_true_strict (mode : Mode) (oracle : Oracle)
    (hm : mode = Mode.update ∨ mode = Mode.interactive)
    (ho : mode = Mode.interactive → ∀ a b c v, oracle a b c = some v →
      v ≠ "")
    (mn : String) (ai : AiModel) (node : NodeConfig)
    (hv : ∀ c ∈ ai.columns, ∀ kv ∈ c.ai_generated, kv.2 ≠ "")
    (h : (updateModelNode mode oracle mn ai node).2 = true) :
    muN node < muN (updateModelNode mode oracle mn ai node).1 := by
  obtain ⟨hfields, hcols, hbit⟩ :=
    updateModelNode_components mode oracle mn ai node
  rw [hbit] at h
  rcases Bool.or_eq_true_iff.mp h with hdesc | hany
  · -- the description was filled: strict on fields, monotone on columns
    have hstrict : muF node.fields <
        muF (updateModelNode mode oracle mn ai node).1.fields := by
      rw [hfields]
      by_cases hg : getF node.fields "description" = "" ∧
          ai.model_description ≠ ""
      · rw [if_pos hg]
        rw [if_pos hg] at hdesc
        exact (process_update_bit_mu mode oracle hm ho node.fields
          "description" ai.model_description _ hg.1 hg.2).2.1 hdesc
      · rw [if_neg hg] at hdesc
        exact absurd hdesc (by simp)
    have h3 : (node.columns.map muF).sum ≤
        ((updateModelNode mode oracle mn ai node).1.columns.map
          muF).sum := by
      rw [hcols, List.map_map]
      exact sum_map_mono node.columns muF _
        (fun col _ => updateOneColumn_mu_ge mode oracle mn ai col)
    unfold muN
    omega
  · -- some column changed: strict on that column, monotone elsewhere
    rcases List.any_eq_true.mp hany with ⟨col, hcol, hct⟩
    have hstrict : (node.columns.map muF).sum <
        ((updateModelNode mode oracle mn ai node).1.columns.map
          muF).sum := by
      rw [hcols, List.map_map]
      exact sum_map_strict node.columns muF _
        (fun c _ => updateOneColumn_mu_ge mode oracle mn ai c) col hcol
        (updateOneColumn_true_strict mode oracle hm ho mn ai col hv hct)
    have h1 := updateModelNode_fields_mu_ge mode oracle mn ai node
    unfold muN
    omega

end DbtYamlWriter

/-! ## C4: dirty-set soundness machinery -/

theorem dirtyInv_insert (old : List (String × DbtYamlWriter.DocTree))
    (st : DbtYamlWriter.WState) (fp : String)
    (data' : DbtYamlWriter.DocTree) (hinv : dirtyInv old st)
    (hmu : muO (lookupA st.yaml_files fp) < muT data' + 1) :
    dirtyInv old
      ⟨insertA st.yaml_files fp data', st.model_to_file_map,
        addIfAbsent st.files_to_write fp⟩ := by
  intro p
  by_cases hp : fp = p
  · subst hp
    constructor
    · intro _
      have hle : muO (lookupA old fp) ≤ muO (lookupA st.yaml_files fp) := by
        by_cases hf : fp ∈ st.files_to_write
        · exact le_of_lt ((hinv fp).1 hf)
        · rw [(hinv fp).2 hf]
      have : lookupA (insertA st.yaml_files fp data') fp = some data' :=
        lookupA_insertA_self _ _ _
      simp only [this]
      calc muO (lookupA old fp) ≤ muO (lookupA st.yaml_files fp) := hle
        _ < muT data' + 1 := hmu
        _ = muO (some data') := rfl
    · intro hnot
      exact absurd ((mem_addIfAbsent _ _ _).mpr (Or.inr rfl)) hnot
  · constructor
    · intro hmem
      rcases (mem_addIfAbsent _ _ _).mp hmem with hmem' | heq
      · have := (hinv p).1 hmem'
        simpa [lookupA_insertA_ne _ _ _ _ hp] using this
      · exact absurd heq.symm hp
    · intro hnot
      have hnot' : p ∉ st.files_to_write := fun hmem =>
        hnot ((mem_addIfAbsent _ _ _).mpr (Or.inl hmem))
      have := (hinv p).2 hnot'
      simpa [lookupA_insertA_ne _ _ _ _ hp] using this

theorem update_existing_dirtyInv (mode : DbtYamlWriter.Mode)
    (oracle : DbtYamlWriter.Oracle)
    (hm : mode = DbtYamlWriter.Mode.update ∨
      mode = DbtYamlWriter.Mode.interactive)
    (ho : mode = DbtYamlWriter.Mode.interactive →
      ∀ a b c v, oracle a b c = some v → v ≠ "")
    (st : DbtYamlWriter.WState) (fp n : String)
    (ai : DbtYamlWriter.AiModel)
    (old : List (String × DbtYamlWriter.DocTree))
    (hv : ∀ c ∈ ai.columns, ∀ kv ∈ c.ai_generated, kv.2 ≠ "")
    (hinv : dirtyInv old st) :
    dirtyInv old
      (DbtYamlWriter.update_existing_model_in_memory mode oracle st fp n
        ai).1 := by
  cases hly : lookupA st.yaml_files fp with
  | none =>
      simp only [DbtYamlWriter.update_existing_model_in_memory, hly]
      exact hinv
  | some data =>
    cases hidx : data.models.findIdx?
        (fun nd => DbtYamlWriter.nodeName nd = n) with
    | none =>
        simp only [DbtYamlWriter.update_existing_model_in_memory, hly, hidx]
        exact hinv
    | some i =>
      cases hnode : data.models[i]? with
      | none =>
          simp only [DbtYamlWriter.update_existing_model_in_memory, hly,
            hidx, hnode]
          exact hinv
      | some node =>
        simp only [DbtYamlWriter.update_existing_model_in_memory, hly,
          hidx, hnode]
        cases hr2 : (DbtYamlWriter.updateModelNode mode oracle n ai
            node).2 with
        | false =>
            have hr1 := DbtYamlWriter.updateModelNode_false mode oracle hm
              n ai node hr2
            rw [hr1, set_self data.models i node hnode,
              if_neg (by decide : ¬ (false : Bool) = true)]
            show dirtyInv old
              ⟨insertA st.yaml_files fp data, st.model_to_file_map,
                st.files_to_write⟩
            rw [insertA_self st.yaml_files fp data hly]
            exact hinv
        | true =>
            have hstrict := DbtYamlWriter.updateModelNode_true_strict mode
              oracle hm ho n ai node hv hr2
            rw [if_pos (rfl : (true : Bool) = true)]
            apply dirtyInv_insert old st fp _ hinv
            rw [hly]
            have hsum := sum_map_set data.models i
              (DbtYamlWriter.updateModelNode mode oracle n ai node).1 node
              muN hnode
            have hlen : (data.models.set i
                (DbtYamlWriter.updateModelNode mode oracle n ai
                  node).1).length = data.models.length :=
              List.length_set data.models i _
            simp only [muO, muT, hlen]
            omega

theorem create_stub_dirtyInv (mode : DbtYamlWriter.Mode)
    (oracle : DbtYamlWriter.Oracle)
    (hm : mode = DbtYamlWriter.Mode.update ∨
      mode = DbtYamlWriter.Mode.interactive)
    (st : DbtYamlWriter.WState) (name : String)
    (ai : DbtYamlWriter.AiModel)
    (old : List (String × DbtYamlWriter.DocTree))
    (hinv : dirtyInv old st) :
    dirtyInv old
      (DbtYamlWriter.create_new_model_stub_in_memory mode oracle st name
        ai).1 := by
  have hc : mode ≠ DbtYamlWriter.Mode.check := by
    rcases hm with rfl | rfl <;> decide
  by_cases hpath : ai.original_file_path = ""
  · simp only [DbtYamlWriter.create_new_model_stub_in_memory, if_neg hc,
      if_pos hpath]
    exact hinv
  · cases hlt : lookupA st.yaml_files (DbtYamlWriter.stubTarget ai) with
    | some data =>
        simp only [DbtYamlWriter.create_new_model_stub_in_memory,
          if_neg hc, if_neg hpath, hlt]
        apply dirtyInv_insert old st _ _ hinv
        rw [hlt]
        simp only [muO, muT, List.length_append, List.map_append,
          List.sum_append, List.map_cons, List.map_nil, List.sum_cons,
          List.sum_nil, List.length_cons, List.length_nil]
        omega
    | none =>
        simp only [DbtYamlWriter.create_new_model_stub_in_memory,
          if_neg hc, if_neg hpath, hlt]
        apply dirtyInv_insert old st _ _ hinv
        rw [hlt]
        simp [muO]

theorem foldl_updateLoop_dirtyInv (mode : DbtYamlWriter.Mode)
    (oracle : DbtYamlWriter.Oracle)
    (hm : mode = DbtYamlWriter.Mode.update ∨
      mode = DbtYamlWriter.Mode.interactive)
    (ho : mode = DbtYamlWriter.Mode.interactive →
      ∀ a b c v, oracle a b c = some v → v ≠ "")
    (mmap : List (String × String)) (catalog : DbtYamlWriter.Catalog)
    (hv : ∀ e ∈ catalog, ∀ c ∈ e.2.columns, ∀ kv ∈ c.ai_generated,
      kv.2 ≠ "")
    (s : DbtYamlWriter.WState × Bool)
    (old : List (String × DbtYamlWriter.DocTree))
    (hinv : dirtyInv old s.1) :
    dirtyInv old
      (catalog.foldl (DbtYamlWriter.updateLoopStep mode oracle mmap)
        s).1 := by
  induction catalog generalizing s with
  | nil => exact hinv
  | cons e t ih =>
    rw [List.foldl_cons]
    apply ih (fun x hx => hv x (List.mem_cons_of_mem e hx))
    cases hmm : lookupA mmap e.1 with
    | none =>
        simp only [DbtYamlWriter.updateLoopStep, hmm]
        exact hinv
    | some fp =>
        simp only [DbtYamlWriter.updateLoopStep, hmm]
        exact update_existing_dirtyInv mode oracle hm ho s.1 fp e.1 e.2 old
          (hv e (by simp)) hinv

theorem foldl_createLoop_dirtyInv (mode : DbtYamlWriter.Mode)
    (oracle : DbtYamlWriter.Oracle)
    (hm : mode = DbtYamlWriter.Mode.update ∨
      mode = DbtYamlWriter.Mode.interactive)
    (mmap : List (String × String)) (catalog : DbtYamlWriter.Catalog)
    (s : DbtYamlWriter.WState × Bool)
    (old : List (String × DbtYamlWriter.DocTree))
    (hinv : dirtyInv old s.1) :
    dirtyInv old
      (catalog.foldl (DbtYamlWriter.createLoopStep mode oracle mmap)
        s).1 := by
  induction catalog generalizing s with
  | nil => exact hinv
  | cons e t ih =>
    rw [List.foldl_cons]
    apply ih
    cases hmm : lookupA mmap e.1 with
    | none =>
        simp only [DbtYamlWriter.createLoopStep, hmm]
        exact create_stub_dirtyInv mode oracle hm s.1 e.1 e.2 old hinv
    | some fp =>
        simp only [DbtYamlWriter.createLoopStep, hmm]
        exact hinv

/-- C4 counterexample: in `drift` mode a detected drift puts the file into
the dirty set although its in-memory document is exactly the document that
was loaded from disk — no field was changed.  So outside `check` mode the
dirty set is not equivalent to "at least one field was actually
changed". -/
theorem dirty_set_drift_counterexample :
    DbtYamlWriter.writeState DbtYamlWriter.Mode.drift
        DbtYamlWriter.skipOracle "" documentedDisk driftCatalog =
      Except.ok
        (⟨[("models/schema.yml",
            { models := [⟨[("name", "orders")],
              [[("name", "id"), ("description", "human text")]]⟩] })],
          [("orders", "models/schema.yml")], ["models/schema.yml"]⟩, true)
    ∧ documentedDisk = [("models/schema.yml",
        DbtYamlWriter.FileContent.yamlDoc
          { models := [⟨[("name", "orders")],
            [[("name", "id"), ("description", "human text")]]⟩] })] :=
  ⟨by rfl, by rfl⟩

/-- C4 amended: in `update` and `interactive` mode — with non-empty
candidate values (catalog `ai_generated` values, and any value the
operator accepts or edits) — a path enters the dirty set during `write`
if and only if its in-memory document differs from the loaded one;
re-affirming an already-present value never marks a file dirty.  (In
`check` mode dirtiness means "would need a change", and in `drift` mode a
drift detection marks the file dirty without mutating it, as the
counterexample shows; a candidate equal to the empty string can also
re-affirm an empty field and mark the file dirty without change.) -/
theorem dirty_set_soundness_amended (mode : DbtYamlWriter.Mode)
    (oracle : DbtYamlWriter.Oracle) (dir : String)
    (disk : List (String × DbtYamlWriter.FileContent))
    (catalog : DbtYamlWriter.Catalog)
    (lm : List (String × DbtYamlWriter.DocTree) × List (String × String))
    (st : DbtYamlWriter.WState) (b : Bool)
    (hm : mode = DbtYamlWriter.Mode.update ∨
      mode = DbtYamlWriter.Mode.interactive)
    (ho : ∀ a b c v, oracle a b c = some v → v ≠ "")
    (hv : ∀ e ∈ catalog, ∀ c ∈ e.2.columns, ∀ kv ∈ c.ai_generated,
      kv.2 ≠ "")
    (hl : DbtYamlWriter.load_and_map_existing_yamls dir disk = .ok lm)
    (hws : DbtYamlWriter.writeState mode oracle dir disk catalog =
      .ok (st, b)) :
    ∀ p, p ∈ st.files_to_write ↔
      lookupA st.yaml_files p ≠ lookupA lm.1 p := by
  have hinv : dirtyInv lm.1 st := by
    unfold DbtYamlWriter.writeState at hws
    rw [hl] at hws
    simp only [Except.ok.injEq, Prod.ext_iff] at hws
    rw [← hws.1]
    apply foldl_createLoop_dirtyInv mode oracle hm lm.2 catalog _ lm.1
    apply foldl_updateLoop_dirtyInv mode oracle hm (fun _ => ho) lm.2
      catalog hv (⟨lm.1, lm.2, []⟩, false) lm.1
    intro p
    exact ⟨fun hmem => absurd hmem (by simp), fun _ => rfl⟩
  intro p
  constructor
  · intro hmem heq
    have := (hinv p).1 hmem
    rw [heq] at this
    exact lt_irrefl _ this
  · intro hne
    by_contra hnot
    exact hne ((hinv p).2 hnot)

/-- Witness for C4 at a concrete dirty run: filling the missing column
description of `ordersDisk` marks exactly that file dirty, and its
in-memory document differs from the loaded one. -/
theorem dirty_set_soundness_amended_witness :
    "models/schema.yml" ∈
      (⟨[("models/schema.yml",
          { models := [⟨[("name", "orders"),
              ("description", "Order facts")],
            [[("name", "id"), ("description", "PK")]]⟩] })],
        [("orders", "models/schema.yml")],
        ["models/schema.yml"]⟩ : DbtYamlWriter.WState).files_to_write ↔
      lookupA (⟨[("models/schema.yml",
          { models := [⟨[("name", "orders"),
              ("description", "Order facts")],
            [[("name", "id"), ("description", "PK")]]⟩] })],
        [("orders", "models/schema.yml")],
        ["models/schema.yml"]⟩ : DbtYamlWriter.WState).yaml_files
          "models/schema.yml" ≠
        lookupA [("models/schema.yml",
          { models := [⟨[("name", "orders")], [[("name", "id")]]⟩] })]
          "models/schema.yml" :=
  dirty_set_soundness_amended DbtYamlWriter.Mode.update
    DbtYamlWriter.skipOracle "" ordersDisk ordersCatalog
    ([("models/schema.yml",
      { models := [⟨[("name", "orders")], [[("name", "id")]]⟩] })],
      [("orders", "models/schema.yml")])
    ⟨[("models/schema.yml",
        { models := [⟨[("name", "orders"), ("description", "Order facts")],
          [[("name", "id"), ("description", "PK")]]⟩] })],
      [("orders", "models/schema.yml")], ["models/schema.yml"]⟩ true
    (Or.inl rfl)
    (fun a b c v hv => by simp [DbtYamlWriter.skipOracle] at hv)
    (by decide) (by rfl) (by rfl) "models/schema.yml"

/-! ## Generic list helpers for the idempotence analysis (C1) -/

theorem lookupA_isSome_iff_mem {α : Type} (l : List (String × α))
    (k : String) : (lookupA l k).isSome ↔ k ∈ l.map Prod.fst := by
  induction l with
  | nil => simp [lookupA]
  | cons a t ih =>
      rcases a with ⟨k', v⟩
      by_cases h : k' = k
      · subst h
        simp [lookupA]
      · simp [lookupA, h, ih, Ne.symm h]

theorem findIdx?_congr_aux {α β : Type} (p : α → Bool) (q : β → Bool) :
    ∀ (l : List α) (l' : List β), l.map p = l'.map q →
      ∀ i, List.findIdx? p l i = List.findIdx? q l' i := by
  intro l
  induction l with
  | nil =>
      intro l' h i
      cases l' with
      | nil => rfl
      | cons b t => simp at h
  | cons a t ih =>
      intro l' h i
      cases l' with
      | nil => simp at h
      | cons b t' =>
          simp only [List.map_cons, List.cons.injEq] at h
          rw [List.findIdx?_cons, List.findIdx?_cons, h.1, ih t' h.2 (i + 1)]

theorem findIdx?_spec_aux {α : Type} (p : α → Bool) :
    ∀ (l : List α) (s i : Nat), List.findIdx? p l s = some i →
      ∃ k x, i = s + k ∧ l[k]? = some x ∧ p x = true := by
  intro l
  induction l with
  | nil => intro s i h; exact Option.noConfusion h
  | cons a t ih =>
      intro s i h
      rw [List.findIdx?_cons] at h
      by_cases hp : p a
      · rw [if_pos hp] at h
        injection h with h
        exact ⟨0, a, by omega, by simp, hp⟩
      · rw [if_neg hp] at h
        obtain ⟨k, x, hk, hx, hpx⟩ := ih (s + 1) i h
        exact ⟨k + 1, x, by omega, by simpa using hx, hpx⟩

theorem findIdx?_spec {α : Type} (p : α → Bool) (l : List α) (i : Nat)
    (h : l.findIdx? p = some i) : ∃ x, l[i]? = some x ∧ p x = true := by
  obtain ⟨k, x, hk, hx, hpx⟩ := findIdx?_spec_aux p l 0 i h
  rw [Nat.zero_add] at hk
  subst hk
  exact ⟨x, hx, hpx⟩

theorem findIdx?_append_of_some {α : Type} (p : α → Bool) :
    ∀ (l l2 : List α) (s i : Nat), List.findIdx? p l s = some i →
      List.findIdx? p (l ++ l2) s = some i := by
  intro l
  induction l with
  | nil => intro l2 s i h; exact Option.noConfusion h
  | cons a t ih =>
      intro l2 s i h
      rw [List.findIdx?_cons] at h
      rw [List.cons_append, List.findIdx?_cons]
      by_cases hp : p a
      · rw [if_pos hp] at h ⊢
        exact h
      · rw [if_neg hp] at h ⊢
        exact ih l2 (s + 1) i h

theorem findIdx?_append_one_of_none {α : Type} (p : α → Bool) :
    ∀ (l : List α) (a : α) (s : Nat), List.findIdx? p l s = none →
      List.findIdx? p (l ++ [a]) s =
        if p a then some (s + l.length) else none := by
  intro l
  induction l with
  | nil =>
      intro a s _
      rw [List.nil_append, List.findIdx?_cons]
      by_cases hp : p a
      · rw [if_pos hp, if_pos hp]
        simp
      · rw [if_neg hp, if_neg hp]
        rfl
  | cons a' t ih =>
      intro a s h
      rw [List.findIdx?_cons] at h
      rw [List.cons_append, List.findIdx?_cons]
      by_cases hp' : p a'
      · rw [if_pos hp'] at h
        exact Option.noConfusion h
      · rw [if_neg hp'] at h ⊢
        rw [ih a (s + 1) h]
        have harith : s + 1 + t.length = s + (a' :: t).length := by
          rw [List.length_cons]
          omega
        rw [harith]

theorem getElem?_append_len {α : Type} (l : List α) (a : α) :
    (l ++ [a])[l.length]? = some a := by
  rw [List.getElem?_append_right (Nat.le_refl _)]
  simp

theorem foldl_inv {σ β : Type} (f : σ → β → σ) (Q : σ → Prop) :
    ∀ (l : List β), (∀ s x, x ∈ l → Q s → Q (f s x)) →
      ∀ s, Q s → Q (l.foldl f s) := by
  intro l
  induction l with
  | nil => intro _ s hs; exact hs
  | cons a t ih =>
      intro h s hs
      rw [List.foldl_cons]
      exact ih (fun s x hx hQ => h s x (List.mem_cons_of_mem a hx) hQ)
        (f s a) (h s a (List.mem_cons_self a t) hs)

theorem foldl_fixed {σ β : Type} (f : σ → β → σ) (s : σ) :
    ∀ (l : List β), (∀ x ∈ l, f s x = s) → l.foldl f s = s := by
  intro l
  induction l with
  | nil => intro _; rfl
  | cons a t ih =>
      intro h
      rw [List.foldl_cons, h a (List.mem_cons_self a t)]
      exact ih (fun x hx => h x (List.mem_cons_of_mem a hx))

theorem map_set_eq {α β : Type} (l : List α) (i : Nat) (x y : α)
    (f : α → β) (hx : l[i]? = some x) (hf : f y = f x) :
    (l.set i y).map f = l.map f := by
  rw [List.map_set, hf]
  exact set_self (l.map f) i (f x) (by rw [List.getElem?_map, hx]; rfl)

theorem find?_eq_self_of_nodup {α : Type} (f : α → String) :
    ∀ (l : List α), (l.map f).Nodup → ∀ c ∈ l,
      l.find? (fun x => f x = f c) = some c := by
  intro l
  induction l with
  | nil => intro _ c hc; exact absurd hc (List.not_mem_nil c)
  | cons a t ih =>
      intro hnd c hc
      rw [List.map_cons, List.nodup_cons] at hnd
      by_cases hp : f a = f c
      · have hca : c = a := by
          rcases List.mem_cons.mp hc with h | h
          · exact h
          · exact absurd (hp ▸ List.mem_map_of_mem f h) hnd.1
        rw [List.find?_cons_of_pos _ (by simp [hp])]
        rw [hca]
      · rw [List.find?_cons_of_neg _ (by simp [hp])]
        have hct : c ∈ t := by
          rcases List.mem_cons.mp hc with h | h
          · exact absurd (by rw [h]) hp
          · exact h
        exact ih hnd.2 c hct

namespace DbtYamlWriter

/-- In `update` mode `_process_update` is exactly the dict assignment. -/
theorem process_update_update (oracle : Oracle) (fs : Fields)
    (key v ln : String) :
    process_update Mode.update oracle fs key v ln = (setF fs key v, true) :=
  rfl

theorem stubFillStep_update (oracle : Oracle) (ln : String) (acc : Fields)
    (kv : String × String) :
    stubFillStep Mode.update oracle ln acc kv = setF acc kv.1 kv.2 := rfl

/-- If every candidate key is already non-empty the fill loop is the
identity. -/
theorem fillFold_noop (mode : Mode) (oracle : Oracle) (ln : String) :
    ∀ (kvs : Fields) (s : Fields × Bool),
      (∀ kv ∈ kvs, getF s.1 kv.1 ≠ "") →
      kvs.foldl (fillStep mode oracle ln) s = s := by
  intro kvs
  induction kvs with
  | nil => intro s _; rfl
  | cons kv t ih =>
      intro s h
      rw [List.foldl_cons]
      have hstep : fillStep mode oracle ln s kv = s := by
        simp [fillStep, h kv (List.mem_cons_self kv t)]
      rw [hstep]
      exact ih s (fun kv' hkv' => h kv' (List.mem_cons_of_mem kv hkv'))

/-- The fill loop leaves every key outside the candidate set unchanged. -/
theorem fillFold_keeps_key (mode : Mode) (oracle : Oracle) (ln k : String) :
    ∀ (kvs : Fields) (s : Fields × Bool), (∀ kv ∈ kvs, kv.1 ≠ k) →
      getF (kvs.foldl (fillStep mode oracle ln) s).1 k = getF s.1 k := by
  intro kvs
  induction kvs with
  | nil => intro s _; rfl
  | cons kv t ih =>
      intro s h
      rw [List.foldl_cons,
        ih _ (fun kv' hkv' => h kv' (List.mem_cons_of_mem kv hkv'))]
      by_cases hg : getF s.1 kv.1 = ""
      · simp only [fillStep, if_pos hg]
        exact process_update_other mode oracle s.1 kv.1 kv.2 ln k
          (h kv (List.mem_cons_self kv t))
      · simp [fillStep, hg]

/-- After an `update`-mode fill loop every candidate key is non-empty
(provided the candidate values are). -/
theorem fillFold_sat (oracle : Oracle) (ln : String) :
    ∀ (kvs : Fields) (s : Fields × Bool),
      (∀ kv ∈ kvs, kv.2 ≠ "") → ∀ kv ∈ kvs,
      getF (kvs.foldl (fillStep Mode.update oracle ln) s).1 kv.1 ≠ "" := by
  intro kvs
  induction kvs with
  | nil => intro s _ kv hkv; exact absurd hkv (List.not_mem_nil kv)
  | cons kv0 t ih =>
      intro s hv kv hkv
      rw [List.foldl_cons]
      rcases List.mem_cons.mp hkv with rfl | hkvt
      · have hne : getF (fillStep Mode.update oracle ln s kv).1 kv.1
            ≠ "" := by
          by_cases hg : getF s.1 kv.1 = ""
          · simp only [fillStep, if_pos hg, process_update_update]
            rw [getF_setF_self]
            exact hv kv (List.mem_cons_self kv t)
          · simp only [fillStep, if_neg hg]
            exact hg
        rw [fillFold_preserves Mode.update oracle ln t _ kv.1 hne]
        exact hne
      · exact ih _ (fun kv' h' => hv kv' (List.mem_cons_of_mem kv0 h'))
          kv hkvt

/-- The stub fill loop leaves keys outside the candidate set unchanged. -/
theorem stubFold_keeps_key (oracle : Oracle) (ln k : String) :
    ∀ (kvs : Fields) (acc : Fields), (∀ kv ∈ kvs, kv.1 ≠ k) →
      getF (kvs.foldl (stubFillStep Mode.update oracle ln) acc) k =
        getF acc k := by
  intro kvs
  induction kvs with
  | nil => intro acc _; rfl
  | cons kv t ih =>
      intro acc h
      rw [List.foldl_cons,
        ih _ (fun kv' h' => h kv' (List.mem_cons_of_mem kv h')),
        stubFillStep_update]
      exact getF_setF_ne acc kv.1 k kv.2 (h kv (List.mem_cons_self kv t))

theorem stubFold_nonempty (oracle : Oracle) (ln k : String) :
    ∀ (kvs : Fields) (acc : Fields), (∀ kv ∈ kvs, kv.2 ≠ "") →
      getF acc k ≠ "" →
      getF (kvs.foldl (stubFillStep Mode.update oracle ln) acc) k ≠ "" := by
  intro kvs
  induction kvs with
  | nil => intro acc _ hk; exact hk
  | cons kv t ih =>
      intro acc hv hk
      rw [List.foldl_cons]
      refine ih _ (fun kv' h' => hv kv' (List.mem_cons_of_mem kv h')) ?_
      rw [stubFillStep_update]
      by_cases hkk : kv.1 = k
      · rw [← hkk, getF_setF_self]
        exact hv kv (List.mem_cons_self kv t)
      · rw [getF_setF_ne acc kv.1 k kv.2 hkk]
        exact hk

theorem stubFold_sat (oracle : Oracle) (ln : String) :
    ∀ (kvs : Fields) (acc : Fields), (∀ kv ∈ kvs, kv.2 ≠ "") →
      ∀ kv ∈ kvs,
      getF (kvs.foldl (stubFillStep Mode.update oracle ln) acc) kv.1
        ≠ "" := by
  intro kvs
  induction kvs with
  | nil => intro acc _ kv hkv; exact absurd hkv (List.not_mem_nil kv)
  | cons kv0 t ih =>
      intro acc hv kv hkv
      rw [List.foldl_cons]
      rcases List.mem_cons.mp hkv with rfl | hkvt
      · refine stubFold_nonempty oracle ln kv.1 t _
          (fun kv' h' => hv kv' (List.mem_cons_of_mem kv h')) ?_
        rw [stubFillStep_update, getF_setF_self]
        exact hv kv (List.mem_cons_self kv t)
      · exact ih _ (fun kv' h' => hv kv' (List.mem_cons_of_mem kv0 h'))
          kv hkvt

end DbtYamlWriter

theorem namesTree_iff (n : String) (t : DbtYamlWriter.DocTree) :
    namesTree n t ↔
      n ∈ (t.models ++ t.sources ++ t.seeds ++ t.snapshots).map
        DbtYamlWriter.nodeName := by
  unfold namesTree
  constructor
  · rintro ⟨nd, hmem, hname⟩
    exact hname ▸ List.mem_map_of_mem _ hmem
  · intro h
    obtain ⟨nd, hmem, hname⟩ := List.mem_map.mp h
    exact ⟨nd, hmem, hname⟩

theorem namesModels_iff (n : String) (t : DbtYamlWriter.DocTree) :
    namesModels n t ↔ n ∈ t.models.map DbtYamlWriter.nodeName := by
  unfold namesModels
  constructor
  · rintro ⟨nd, hmem, hname⟩
    exact hname ▸ List.mem_map_of_mem _ hmem
  · intro h
    obtain ⟨nd, hmem, hname⟩ := List.mem_map.mp h
    exact ⟨nd, hmem, hname⟩

theorem namesTreeB_iff (n : String) (t : DbtYamlWriter.DocTree) :
    namesTreeB n t = true ↔ namesTree n t := by
  unfold namesTreeB namesTree
  rw [List.any_eq_true]
  constructor
  · rintro ⟨nd, hmem, hname⟩
    exact ⟨nd, hmem, by simpa using hname⟩
  · rintro ⟨nd, hmem, hname⟩
    exact ⟨nd, hmem, by simpa using hname⟩

theorem namesModels_namesTree (n : String) (t : DbtYamlWriter.DocTree)
    (h : namesModels n t) : namesTree n t := by
  obtain ⟨nd, hmem, hname⟩ := h
  exact ⟨nd, by simp [hmem], hname⟩

theorem namesTree_congr (n : String) (t t' : DbtYamlWriter.DocTree)
    (hm : t'.models.map DbtYamlWriter.nodeName =
      t.models.map DbtYamlWriter.nodeName)
    (hs : t'.sources = t.sources) (hd : t'.seeds = t.seeds)
    (hp : t'.snapshots = t.snapshots) :
    namesTree n t' ↔ namesTree n t := by
  rw [namesTree_iff, namesTree_iff]
  simp only [List.map_append, hm, hs, hd, hp]

theorem namesTree_append (n : String) (data : DbtYamlWriter.DocTree)
    (stub : DbtYamlWriter.NodeConfig) :
    namesTree n { data with models := data.models ++ [stub] } ↔
      namesTree n data ∨ DbtYamlWriter.nodeName stub = n := by
  rw [namesTree_iff, namesTree_iff]
  simp only [List.map_append, List.mem_append, List.map_cons, List.map_nil,
    List.mem_cons, List.not_mem_nil, or_false]
  tauto

theorem namesTree_fresh (n : String) (stub : DbtYamlWriter.NodeConfig) :
    namesTree n
      { version := some 2, models := [stub], sources := [], seeds := [],
        snapshots := [] } ↔ DbtYamlWriter.nodeName stub = n := by
  rw [namesTree_iff]
  simp [eq_comm]

theorem namesDiskB_of (disk : List (String × DbtYamlWriter.FileContent))
    (n p : String) (t : DbtYamlWriter.DocTree)
    (hl : lookupA disk p = some (DbtYamlWriter.FileContent.yamlDoc t))
    (hn : namesTree n t) : namesDiskB disk n p = true := by
  unfold namesDiskB
  rw [hl]
  exact (namesTreeB_iff n t).mpr hn

namespace DbtYamlWriter

theorem updateOneColumn_update_none (oracle : Oracle) (n : String)
    (ai : AiModel) (col : Fields)
    (h : ai.columns.find? (fun c => c.name = getF col "name") = none) :
    updateOneColumn Mode.update oracle n ai col = (col, false) := by
  simp only [updateOneColumn, h]

theorem updateOneColumn_update_some (oracle : Oracle) (n : String)
    (ai : AiModel) (col : Fields) (aiC : AiColumn)
    (h : ai.columns.find? (fun c => c.name = getF col "name") = some aiC) :
    updateOneColumn Mode.update oracle n ai col =
      aiC.ai_generated.foldl
        (fillStep Mode.update oracle
          ("column " ++ n ++ "." ++ getF col "name"))
        (col, false) := by
  simp only [updateOneColumn, h]
  rw [if_neg (fun hcontra => absurd hcontra.1 (by decide))]

end DbtYamlWriter

theorem makeStub_name (oracle : DbtYamlWriter.Oracle) (n : String)
    (ai : DbtYamlWriter.AiModel) :
    DbtYamlWriter.nodeName
      (DbtYamlWriter.makeStub DbtYamlWriter.Mode.update oracle n ai) = n := by
  simp only [DbtYamlWriter.makeStub, DbtYamlWriter.nodeName,
    DbtYamlWriter.process_update_update]
  rw [DbtYamlWriter.getF_setF_ne _ _ _ _ (by decide)]
  simp [DbtYamlWriter.getF, lookupA]

/-- A freshly built stub is saturated for its own catalog entry. -/
theorem makeStub_sat (oracle : DbtYamlWriter.Oracle) (n : String)
    (ai : DbtYamlWriter.AiModel)
    (hv : ∀ c ∈ ai.columns, ∀ kv ∈ c.ai_generated,
      kv.2 ≠ "" ∧ kv.1 ≠ "name")
    (hnd : (ai.columns.map DbtYamlWriter.AiColumn.name).Nodup) :
    SatNode ai (DbtYamlWriter.makeStub DbtYamlWriter.Mode.update oracle n
      ai) := by
  have hfe : (DbtYamlWriter.makeStub DbtYamlWriter.Mode.update oracle n
      ai).fields =
      DbtYamlWriter.setF [("name", n)] "description"
        ai.model_description := rfl
  have hce : (DbtYamlWriter.makeStub DbtYamlWriter.Mode.update oracle n
      ai).columns =
      ai.columns.map (fun col =>
        col.ai_generated.foldl
          (DbtYamlWriter.stubFillStep DbtYamlWriter.Mode.update oracle
            ("column " ++ n ++ "." ++ col.name))
          [("name", col.name)]) := rfl
  constructor
  · rw [hfe]
    by_cases hmd : ai.model_description = ""
    · exact Or.inr hmd
    · exact Or.inl (by rw [DbtYamlWriter.getF_setF_self]; exact hmd)
  · intro col hcol
    rw [hce] at hcol
    obtain ⟨c, hc, rfl⟩ := List.mem_map.mp hcol
    intro aiCol hfind kv hkv
    have hname : DbtYamlWriter.getF
        (c.ai_generated.foldl
          (DbtYamlWriter.stubFillStep DbtYamlWriter.Mode.update oracle
            ("column " ++ n ++ "." ++ c.name))
          [("name", c.name)]) "name" = c.name := by
      rw [DbtYamlWriter.stubFold_keeps_key oracle _ "name" c.ai_generated _
        (fun kv' h' => (hv c hc kv' h').2)]
      simp [DbtYamlWriter.getF, lookupA]
    rw [hname] at hfind
    have hself := find?_eq_self_of_nodup DbtYamlWriter.AiColumn.name
      ai.columns hnd c hc
    have haiCol : aiCol = c := by
      rw [hself] at hfind
      injection hfind with h
      exact h.symm
    subst haiCol
    exact DbtYamlWriter.stubFold_sat oracle _ aiCol.ai_generated _
      (fun kv' h' => (hv aiCol hc kv' h').1) kv hkv

/-- After an `update`-mode pass a model node is saturated for the catalog
entry that was applied to it. -/
theorem updateModelNode_sat (oracle : DbtYamlWriter.Oracle) (n : String)
    (ai : DbtYamlWriter.AiModel) (node : DbtYamlWriter.NodeConfig)
    (hv : ∀ c ∈ ai.columns, ∀ kv ∈ c.ai_generated,
      kv.2 ≠ "" ∧ kv.1 ≠ "name") :
    SatNode ai
      (DbtYamlWriter.updateModelNode DbtYamlWriter.Mode.update oracle n ai
        node).1 := by
  obtain ⟨hf, hc, -⟩ := DbtYamlWriter.updateModelNode_components
    DbtYamlWriter.Mode.update oracle n ai node
  constructor
  · rw [hf]
    by_cases hg : DbtYamlWriter.getF node.fields "description" = "" ∧
        ai.model_description ≠ ""
    · rw [if_pos hg]
      left
      show DbtYamlWriter.getF
        (DbtYamlWriter.setF node.fields "description"
          ai.model_description) "description" ≠ ""
      rw [DbtYamlWriter.getF_setF_self]
      exact hg.2
    · rw [if_neg hg]
      rcases not_and_or.mp hg with h1 | h2
      · exact Or.inl h1
      · exact Or.inr (not_not.mp h2)
  · intro col hcol
    rw [hc] at hcol
    obtain ⟨c0, hc0, rfl⟩ := List.mem_map.mp hcol
    intro aiCol hfind kv hkv
    cases hfd : ai.columns.find?
        (fun cc => cc.name = DbtYamlWriter.getF c0 "name") with
    | none =>
        rw [DbtYamlWriter.updateOneColumn_update_none oracle n ai c0 hfd]
          at hfind
        rw [hfd] at hfind
        exact Option.noConfusion hfind
    | some aiC =>
        have hcol' := DbtYamlWriter.updateOneColumn_update_some oracle n ai
          c0 aiC hfd
        rw [hcol'] at hfind ⊢
        have hmemC : aiC ∈ ai.columns := List.mem_of_find?_eq_some hfd
        have hname : DbtYamlWriter.getF
            (aiC.ai_generated.foldl
              (DbtYamlWriter.fillStep DbtYamlWriter.Mode.update oracle
                ("column " ++ n ++ "." ++ DbtYamlWriter.getF c0 "name"))
              (c0, false)).1 "name" = DbtYamlWriter.getF c0 "name" :=
          DbtYamlWriter.fillFold_keeps_key DbtYamlWriter.Mode.update oracle
            _ "name" aiC.ai_generated (c0, false)
            (fun kv' h' => (hv aiC hmemC kv' h').2)
        rw [hname, hfd] at hfind
        injection hfind with hfind
        subst hfind
        exact DbtYamlWriter.fillFold_sat oracle _ aiC.ai_generated
          (c0, false) (fun kv' h' => (hv aiC hmemC kv' h').1) kv hkv

/-- An `update`-mode pass over a saturated column is the identity. -/
theorem updateOneColumn_of_sat (oracle : DbtYamlWriter.Oracle) (n : String)
    (ai : DbtYamlWriter.AiModel) (col : DbtYamlWriter.Fields)
    (hsat : SatCol ai col) :
    DbtYamlWriter.updateOneColumn DbtYamlWriter.Mode.update oracle n ai col
      = (col, false) := by
  cases hfd : ai.columns.find?
      (fun cc => cc.name = DbtYamlWriter.getF col "name") with
  | none =>
      exact DbtYamlWriter.updateOneColumn_update_none oracle n ai col hfd
  | some aiC =>
      rw [DbtYamlWriter.updateOneColumn_update_some oracle n ai col aiC hfd]
      exact DbtYamlWriter.fillFold_noop DbtYamlWriter.Mode.update oracle _
        aiC.ai_generated (col, false) (hsat aiC hfd)

/-- An `update`-mode pass over a saturated node is the identity and
reports no change. -/
theorem updateModelNode_of_sat (oracle : DbtYamlWriter.Oracle) (n : String)
    (ai : DbtYamlWriter.AiModel) (node : DbtYamlWriter.NodeConfig)
    (hsat : SatNode ai node) :
    DbtYamlWriter.updateModelNode DbtYamlWriter.Mode.update oracle n ai node
      = (node, false) := by
  have hg : ¬(DbtYamlWriter.getF node.fields "description" = "" ∧
      ai.model_description ≠ "") := by
    rcases hsat.1 with h | h
    · intro hcon; exact h hcon.1
    · intro hcon; exact hcon.2 h
  have haux : ∀ (cols : List DbtYamlWriter.Fields),
      (∀ col ∈ cols, SatCol ai col) → ∀ (acc : List DbtYamlWriter.Fields),
      cols.foldl (DbtYamlWriter.colStep DbtYamlWriter.Mode.update oracle n
        ai) (acc, false) = (acc ++ cols, false) := by
    intro cols
    induction cols with
    | nil =>
        intro _ acc
        rw [List.append_nil]
        rfl
    | cons c t ih =>
        intro hs acc
        rw [List.foldl_cons]
        have hstep : DbtYamlWriter.colStep DbtYamlWriter.Mode.update oracle
            n ai (acc, false) c = (acc ++ [c], false) := by
          simp only [DbtYamlWriter.colStep,
            updateOneColumn_of_sat oracle n ai c
              (hs c (List.mem_cons_self c t)), Bool.or_false]
        rw [hstep, ih (fun col h' => hs col (List.mem_cons_of_mem c h'))
          (acc ++ [c]), List.append_assoc, List.singleton_append]
  simp only [DbtYamlWriter.updateModelNode, if_neg hg]
  rw [haux node.columns hsat.2 []]
  rfl

/-- Updating an already-saturated model in memory changes nothing. -/
theorem update_existing_noop (oracle : DbtYamlWriter.Oracle)
    (st : DbtYamlWriter.WState) (fp n : String)
    (ai : DbtYamlWriter.AiModel)
    (hsat : ∀ data, lookupA st.yaml_files fp = some data →
      firstSat ai n data) :
    DbtYamlWriter.update_existing_model_in_memory DbtYamlWriter.Mode.update
      oracle st fp n ai = (st, false) := by
  cases hly : lookupA st.yaml_files fp with
  | none =>
      simp only [DbtYamlWriter.update_existing_model_in_memory, hly]
  | some data =>
    cases hidx : data.models.findIdx?
        (fun nd => DbtYamlWriter.nodeName nd = n) with
    | none =>
        simp only [DbtYamlWriter.update_existing_model_in_memory, hly, hidx]
    | some i =>
      cases hnode : data.models[i]? with
      | none =>
          simp only [DbtYamlWriter.update_existing_model_in_memory, hly,
            hidx, hnode]
      | some node =>
          have hr : DbtYamlWriter.updateModelNode DbtYamlWriter.Mode.update
              oracle n ai node = (node, false) :=
            updateModelNode_of_sat oracle n ai node
              (hsat data hly i node hidx hnode)
          simp only [DbtYamlWriter.update_existing_model_in_memory, hly,
            hidx, hnode, hr]
          have hdata : ({ data with models := data.models.set i node } :
              DbtYamlWriter.DocTree) = data := by
            rw [set_self data.models i node hnode]
          rw [hdata, insertA_self st.yaml_files fp data hly]
          rfl

/-- How `_update_existing_model_in_memory` can change the state: not at
all, or by replacing the matched `models` entry of the mapped file with
its updated version. -/
theorem update_existing_char (mode : DbtYamlWriter.Mode)
    (oracle : DbtYamlWriter.Oracle) (st : DbtYamlWriter.WState)
    (fp n : String) (ai : DbtYamlWriter.AiModel) :
    (DbtYamlWriter.update_existing_model_in_memory mode oracle st fp n
      ai).1 = st ∨
    ∃ data i node,
      lookupA st.yaml_files fp = some data ∧
      data.models.findIdx? (fun nd => DbtYamlWriter.nodeName nd = n) =
        some i ∧
      data.models[i]? = some node ∧
      DbtYamlWriter.nodeName node = n ∧
      (DbtYamlWriter.update_existing_model_in_memory mode oracle st fp n
        ai).1.yaml_files =
        insertA st.yaml_files fp
          { data with
              models := data.models.set i
                (DbtYamlWriter.updateModelNode mode oracle n ai node).1 } ∧
      (DbtYamlWriter.update_existing_model_in_memory mode oracle st fp n
        ai).1.model_to_file_map = st.model_to_file_map ∧
      ((DbtYamlWriter.update_existing_model_in_memory mode oracle st fp n
        ai).1.files_to_write = st.files_to_write ∨
       (DbtYamlWriter.update_existing_model_in_memory mode oracle st fp n
        ai).1.files_to_write = addIfAbsent st.files_to_write fp) := by
  cases hly : lookupA st.yaml_files fp with
  | none =>
      left
      simp only [DbtYamlWriter.update_existing_model_in_memory, hly]
  | some data =>
    cases hidx : data.models.findIdx?
        (fun nd => DbtYamlWriter.nodeName nd = n) with
    | none =>
        left
        simp only [DbtYamlWriter.update_existing_model_in_memory, hly,
          hidx]
    | some i =>
      cases hnode : data.models[i]? with
      | none =>
          left
          simp only [DbtYamlWriter.update_existing_model_in_memory, hly,
            hidx, hnode]
      | some node =>
          right
          obtain ⟨nd0, hnd0, hpred⟩ := findIdx?_spec _ data.models i hidx
          have hname : DbtYamlWriter.nodeName node = n := by
            rw [hnode] at hnd0
            injection hnd0 with hnd0
            subst hnd0
            exact of_decide_eq_true hpred
          refine ⟨data, i, node, rfl, hidx, hnode, hname, ?_, ?_, ?_⟩
          · simp only [DbtYamlWriter.update_existing_model_in_memory, hly,
              hidx, hnode]
          · simp only [DbtYamlWriter.update_existing_model_in_memory, hly,
              hidx, hnode]
          · cases hb : (DbtYamlWriter.updateModelNode mode oracle n ai
                node).2 with
            | false =>
                left
                simp only [DbtYamlWriter.update_existing_model_in_memory,
                  hly, hidx, hnode, hb]
                rfl
            | true =>
                right
                simp only [DbtYamlWriter.update_existing_model_in_memory,
                  hly, hidx, hnode, hb]
                rfl

/-- How `_create_new_model_stub_in_memory` can change the state outside
`check` mode: not at all (no source path), by appending a stub to the
target document, or by creating a fresh target document. -/
theorem create_stub_char (mode : DbtYamlWriter.Mode)
    (oracle : DbtYamlWriter.Oracle) (hm : mode ≠ DbtYamlWriter.Mode.check)
    (st : DbtYamlWriter.WState) (n : String)
    (ai : DbtYamlWriter.AiModel) :
    (ai.original_file_path = "" ∧
      DbtYamlWriter.create_new_model_stub_in_memory mode oracle st n ai =
        (st, false)) ∨
    (ai.original_file_path ≠ "" ∧
      (DbtYamlWriter.create_new_model_stub_in_memory mode oracle st n
        ai).1.model_to_file_map = st.model_to_file_map ∧
      (DbtYamlWriter.create_new_model_stub_in_memory mode oracle st n
        ai).1.files_to_write =
        addIfAbsent st.files_to_write (DbtYamlWriter.stubTarget ai) ∧
      ((∃ data, lookupA st.yaml_files (DbtYamlWriter.stubTarget ai) =
          some data ∧
        (DbtYamlWriter.create_new_model_stub_in_memory mode oracle st n
          ai).1.yaml_files =
          insertA st.yaml_files (DbtYamlWriter.stubTarget ai)
            { data with models := data.models ++
                [DbtYamlWriter.makeStub mode oracle n ai] }) ∨
       (lookupA st.yaml_files (DbtYamlWriter.stubTarget ai) = none ∧
        (DbtYamlWriter.create_new_model_stub_in_memory mode oracle st n
          ai).1.yaml_files =
          insertA st.yaml_files (DbtYamlWriter.stubTarget ai)
            { version := some 2,
              models := [DbtYamlWriter.makeStub mode oracle n ai],
              sources := [], seeds := [], snapshots := [] }))) := by
  by_cases hpath : ai.original_file_path = ""
  · left
    refine ⟨hpath, ?_⟩
    simp only [DbtYamlWriter.create_new_model_stub_in_memory, if_neg hm,
      if_pos hpath]
  · right
    refine ⟨hpath, ?_, ?_, ?_⟩
    · cases hlt : lookupA st.yaml_files (DbtYamlWriter.stubTarget ai) with
      | some data =>
          simp only [DbtYamlWriter.create_new_model_stub_in_memory,
            if_neg hm, if_neg hpath, hlt]
      | none =>
          simp only [DbtYamlWriter.create_new_model_stub_in_memory,
            if_neg hm, if_neg hpath, hlt]
    · cases hlt : lookupA st.yaml_files (DbtYamlWriter.stubTarget ai) with
      | some data =>
          simp only [DbtYamlWriter.create_new_model_stub_in_memory,
            if_neg hm, if_neg hpath, hlt]
      | none =>
          simp only [DbtYamlWriter.create_new_model_stub_in_memory,
            if_neg hm, if_neg hpath, hlt]
    · cases hlt : lookupA st.yaml_files (DbtYamlWriter.stubTarget ai) with
      | some data =>
          left
          refine ⟨data, rfl, ?_⟩
          simp only [DbtYamlWriter.create_new_model_stub_in_memory,
            if_neg hm, if_neg hpath, hlt]
      | none =>
          right
          refine ⟨rfl, ?_⟩
          simp only [DbtYamlWriter.create_new_model_stub_in_memory,
            if_neg hm, if_neg hpath, hlt]

/-- A dirty path is flushed with its in-memory document. -/
theorem flush_lookup_mem (st : DbtYamlWriter.WState)
    (disk : List (String × DbtYamlWriter.FileContent)) (p : String)
    (t : DbtYamlWriter.DocTree) (hp : p ∈ st.files_to_write)
    (ht : lookupA st.yaml_files p = some t) :
    lookupA (DbtYamlWriter.write_modified_files_to_disk st disk) p =
      some (DbtYamlWriter.FileContent.yamlDoc t) := by
  unfold DbtYamlWriter.write_modified_files_to_disk
  rw [lookupA_foldl_insertA_mem st.files_to_write _ disk p hp, ht]
  rfl

theorem indexNodes_char (p v n : String) :
    ∀ (nodes : List DbtYamlWriter.NodeConfig)
      (m : List (String × String)),
      lookupA (nodes.foldl
        (fun m nd => if DbtYamlWriter.nodeName nd = "" then m
          else insertA m (DbtYamlWriter.nodeName nd) p) m) n = some v →
      lookupA m n = some v ∨
        (v = p ∧ ∃ nd ∈ nodes, DbtYamlWriter.nodeName nd = n) := by
  intro nodes
  induction nodes with
  | nil => intro m h; exact Or.inl h
  | cons nd rest ih =>
      intro m h
      rw [List.foldl_cons] at h
      by_cases hn : DbtYamlWriter.nodeName nd = ""
      · rw [if_pos hn] at h
        rcases ih m h with h' | ⟨hv, nd', hmem, hname⟩
        · exact Or.inl h'
        · exact Or.inr ⟨hv, nd', List.mem_cons_of_mem nd hmem, hname⟩
      · rw [if_neg hn] at h
        rcases ih _ h with h' | ⟨hv, nd', hmem, hname⟩
        · by_cases hkey : DbtYamlWriter.nodeName nd = n
          · rw [hkey, lookupA_insertA_self] at h'
            injection h' with h'
            exact Or.inr ⟨h'.symm, nd, List.mem_cons_self nd rest, hkey⟩
          · rw [lookupA_insertA_ne _ _ _ _ hkey] at h'
            exact Or.inl h'
        · exact Or.inr ⟨hv, nd', List.mem_cons_of_mem nd hmem, hname⟩

theorem indexTree_char (m : List (String × String)) (p : String)
    (t : DbtYamlWriter.DocTree) (n v : String)
    (h : lookupA (DbtYamlWriter.indexTree m p t) n = some v) :
    lookupA m n = some v ∨ (v = p ∧ namesTree n t) := by
  unfold DbtYamlWriter.indexTree at h
  rcases indexNodes_char p v n _ m h with h' | ⟨hv, nd, hmem, hname⟩
  · exact Or.inl h'
  · exact Or.inr ⟨hv, nd, hmem, hname⟩

/-- Every loaded in-memory document originates from a discovered on-disk
file that parses to it. -/
theorem loadFold_src (disk : List (String × DbtYamlWriter.FileContent)) :
    ∀ (files : List String)
      (acc r : List (String × DbtYamlWriter.DocTree) ×
        List (String × String)),
      List.foldlM (DbtYamlWriter.loadStep disk) acc files = Except.ok r →
      ∀ p t, lookupA r.1 p = some t →
        lookupA acc.1 p = some t ∨
          (p ∈ files ∧ lookupA disk p =
            some (DbtYamlWriter.FileContent.yamlDoc t)) := by
  intro files
  induction files with
  | nil =>
      intro acc r h p t hl
      injection h with h
      subst h
      exact Or.inl hl
  | cons q rest ih =>
      intro acc r h p t hl
      rw [List.foldlM_cons] at h
      cases hs : DbtYamlWriter.loadStep disk acc q with
      | error e => rw [hs] at h; exact Except.noConfusion h
      | ok acc' =>
          rw [hs, except_ok_bind] at h
          rcases ih acc' r h p t hl with h' | ⟨hmem, hdisk⟩
          · rcases loadStep_ok_cases disk acc acc' q hs with rfl |
              ⟨t', hdq, rfl⟩
            · exact Or.inl h'
            · by_cases hpq : p = q
              · subst hpq
                rw [lookupA_insertA_self] at h'
                injection h' with h'
                subst h'
                exact Or.inr ⟨List.mem_cons_self p rest, hdq⟩
              · rw [lookupA_insertA_ne _ _ _ _ (Ne.symm hpq)] at h'
                exact Or.inl h'
          · exact Or.inr ⟨List.mem_cons_of_mem q hmem, hdisk⟩

/-- Every model-to-file binding points at a discovered file whose
document contains a node of that name. -/
theorem loadFold_map_src
    (disk : List (String × DbtYamlWriter.FileContent)) :
    ∀ (files : List String)
      (acc r : List (String × DbtYamlWriter.DocTree) ×
        List (String × String)),
      List.foldlM (DbtYamlWriter.loadStep disk) acc files = Except.ok r →
      ∀ n v, lookupA r.2 n = some v →
        lookupA acc.2 n = some v ∨
          (v ∈ files ∧ ∃ t, lookupA disk v =
            some (DbtYamlWriter.FileContent.yamlDoc t) ∧ namesTree n t) := by
  intro files
  induction files with
  | nil =>
      intro acc r h n v hl
      injection h with h
      subst h
      exact Or.inl hl
  | cons q rest ih =>
      intro acc r h n v hl
      rw [List.foldlM_cons] at h
      cases hs : DbtYamlWriter.loadStep disk acc q with
      | error e => rw [hs] at h; exact Except.noConfusion h
      | ok acc' =>
          rw [hs, except_ok_bind] at h
          rcases ih acc' r h n v hl with h' | ⟨hmem, t, hdisk, hname⟩
          · rcases loadStep_ok_cases disk acc acc' q hs with rfl |
              ⟨t', hdq, rfl⟩
            · exact Or.inl h'
            · rcases indexTree_char acc.2 q t' n v h' with h'' |
                ⟨hv, hname⟩
              · exact Or.inl h''
              · subst hv
                exact Or.inr ⟨List.mem_cons_self v rest, t', hdq, hname⟩
          · exact Or.inr ⟨List.mem_cons_of_mem q hmem, t, hdisk, hname⟩

/-- A successful load run implies no discovered file is malformed. -/
theorem loadFold_no_malformed
    (disk : List (String × DbtYamlWriter.FileContent)) :
    ∀ (files : List String)
      (acc r : List (String × DbtYamlWriter.DocTree) ×
        List (String × String)),
      List.foldlM (DbtYamlWriter.loadStep disk) acc files = Except.ok r →
      ∀ p ∈ files, lookupA disk p ≠
        some DbtYamlWriter.FileContent.malformed := by
  intro files
  induction files with
  | nil => intro acc r _ p hp; exact absurd hp (List.not_mem_nil p)
  | cons q rest ih =>
      intro acc r h p hp
      rw [List.foldlM_cons] at h
      cases hs : DbtYamlWriter.loadStep disk acc q with
      | error e => rw [hs] at h; exact Except.noConfusion h
      | ok acc' =>
          rw [hs, except_ok_bind] at h
          rcases List.mem_cons.mp hp with rfl | hp'
          · intro hmal
            unfold DbtYamlWriter.loadStep at hs
            rw [hmal] at hs
            exact Except.noConfusion hs
          · exact ih acc' r h p hp'

/-- A load run over files none of which is malformed succeeds. -/
theorem loadFold_ok_of
    (disk : List (String × DbtYamlWriter.FileContent)) :
    ∀ (files : List String)
      (acc : List (String × DbtYamlWriter.DocTree) ×
        List (String × String)),
      (∀ p ∈ files, lookupA disk p ≠
        some DbtYamlWriter.FileContent.malformed) →
      ∃ r, List.foldlM (DbtYamlWriter.loadStep disk) acc files =
        Except.ok r := by
  intro files
  induction files with
  | nil => intro acc _; exact ⟨acc, rfl⟩
  | cons q rest ih =>
      intro acc h
      rw [List.foldlM_cons]
      cases hs : DbtYamlWriter.loadStep disk acc q with
      | error e =>
          exfalso
          unfold DbtYamlWriter.loadStep at hs
          cases hl : lookupA disk q with
          | none => rw [hl] at hs; exact Except.noConfusion hs
          | some c =>
              cases c with
              | yamlDoc t => rw [hl] at hs; exact Except.noConfusion hs
              | emptyDoc => rw [hl] at hs; exact Except.noConfusion hs
              | malformed => exact h q (List.mem_cons_self q rest) hl
      | ok acc' =>
          obtain ⟨r, hr⟩ := ih acc'
            (fun p hp => h p (List.mem_cons_of_mem q hp))
          exact ⟨r, by rw [except_ok_bind]; exact hr⟩

theorem map_pred_names (l : List DbtYamlWriter.NodeConfig) (n : String) :
    l.map (fun nd => decide (DbtYamlWriter.nodeName nd = n)) =
      (l.map DbtYamlWriter.nodeName).map (fun s => decide (s = n)) := by
  rw [List.map_map]
  rfl

theorem findIdx_names_congr (l l' : List DbtYamlWriter.NodeConfig)
    (n : String)
    (h : l'.map DbtYamlWriter.nodeName = l.map DbtYamlWriter.nodeName) :
    l'.findIdx? (fun nd => DbtYamlWriter.nodeName nd = n) =
      l.findIdx? (fun nd => DbtYamlWriter.nodeName nd = n) :=
  findIdx?_congr_aux _ _ l' l
    (by rw [map_pred_names, map_pred_names, h]) 0

theorem updated_tree_names (mode : DbtYamlWriter.Mode)
    (oracle : DbtYamlWriter.Oracle) (n : String)
    (ai : DbtYamlWriter.AiModel) (data : DbtYamlWriter.DocTree) (i : Nat)
    (node : DbtYamlWriter.NodeConfig) (hnode : data.models[i]? = some node) :
    ({ data with
        models := data.models.set i
          (DbtYamlWriter.updateModelNode mode oracle n ai node).1 } :
      DbtYamlWriter.DocTree).models.map DbtYamlWriter.nodeName =
      data.models.map DbtYamlWriter.nodeName :=
  map_set_eq data.models i node _ DbtYamlWriter.nodeName hnode
    (DbtYamlWriter.updateModelNode_name mode oracle n ai node)

theorem updated_tree_namesTree (mode : DbtYamlWriter.Mode)
    (oracle : DbtYamlWriter.Oracle) (n : String)
    (ai : DbtYamlWriter.AiModel) (data : DbtYamlWriter.DocTree) (i : Nat)
    (node : DbtYamlWriter.NodeConfig) (hnode : data.models[i]? = some node)
    (m : String) :
    namesTree m
      { data with
          models := data.models.set i
            (DbtYamlWriter.updateModelNode mode oracle n ai node).1 } ↔
      namesTree m data :=
  namesTree_congr m data _
    (updated_tree_names mode oracle n ai data i node hnode) rfl rfl rfl

theorem updated_tree_namesModels (mode : DbtYamlWriter.Mode)
    (oracle : DbtYamlWriter.Oracle) (n : String)
    (ai : DbtYamlWriter.AiModel) (data : DbtYamlWriter.DocTree) (i : Nat)
    (node : DbtYamlWriter.NodeConfig) (hnode : data.models[i]? = some node)
    (m : String) :
    namesModels m
      { data with
          models := data.models.set i
            (DbtYamlWriter.updateModelNode mode oracle n ai node).1 } ↔
      namesModels m data := by
  rw [namesModels_iff, namesModels_iff]
  rw [show ({ data with
      models := data.models.set i
        (DbtYamlWriter.updateModelNode mode oracle n ai node).1 } :
    DbtYamlWriter.DocTree).models.map DbtYamlWriter.nodeName =
      data.models.map DbtYamlWriter.nodeName from
    updated_tree_names mode oracle n ai data i node hnode]

/-! ### Preservation of the per-entry invariants by an update step -/

theorem pres_firstSat_upd (mode : DbtYamlWriter.Mode)
    (oracle : DbtYamlWriter.Oracle) (st : DbtYamlWriter.WState)
    (fpx nx : String) (aix : DbtYamlWriter.AiModel) (p n : String)
    (ai : DbtYamlWriter.AiModel) (hne : nx ≠ n)
    (h : ∀ data, lookupA st.yaml_files p = some data → firstSat ai n data) :
    ∀ data, lookupA (DbtYamlWriter.update_existing_model_in_memory mode
      oracle st fpx nx aix).1.yaml_files p = some data →
      firstSat ai n data := by
  rcases update_existing_char mode oracle st fpx nx aix with heq |
    ⟨data0, i, node, hly, hidx, hnode, hname, hyf, -, -⟩
  · rw [heq]; exact h
  · intro data hdata
    rw [hyf] at hdata
    by_cases hpq : fpx = p
    · subst hpq
      rw [lookupA_insertA_self] at hdata
      injection hdata with hdata
      subst hdata
      intro j nd' hj hnd'
      have hnames := updated_tree_names mode oracle nx aix data0 i node
        hnode
      have hfi : data0.models.findIdx?
          (fun nd => DbtYamlWriter.nodeName nd = n) = some j := by
        rw [← findIdx_names_congr data0.models _ n hnames]
        exact hj
      have hji : j ≠ i := by
        intro hcon
        subst hcon
        obtain ⟨x, hx, hpx⟩ := findIdx?_spec _ data0.models j hfi
        rw [hnode] at hx
        injection hx with hx
        subst hx
        exact hne (hname.symm.trans (of_decide_eq_true hpx))
      have hnd0 : data0.models[j]? = some nd' := by
        have : (data0.models.set i
            (DbtYamlWriter.updateModelNode mode oracle nx aix node).1)[j]? =
            data0.models[j]? :=
          List.getElem?_set_ne (Ne.symm hji)
        rw [← this]
        exact hnd'
      exact h data0 hly j nd' hfi hnd0
    · rw [lookupA_insertA_ne _ _ _ _ hpq] at hdata
      exact h data hdata

theorem pres_namesAt_upd (mode : DbtYamlWriter.Mode)
    (oracle : DbtYamlWriter.Oracle) (st : DbtYamlWriter.WState)
    (fpx nx : String) (aix : DbtYamlWriter.AiModel) (p n : String)
    (h : ∃ data, lookupA st.yaml_files p = some data ∧ namesTree n data) :
    ∃ data, lookupA (DbtYamlWriter.update_existing_model_in_memory mode
      oracle st fpx nx aix).1.yaml_files p = some data ∧
      namesTree n data := by
  obtain ⟨data, hdl, hdn⟩ := h
  rcases update_existing_char mode oracle st fpx nx aix with heq |
    ⟨data0, i, node, hly, hidx, hnode, hname, hyf, -, -⟩
  · rw [heq]; exact ⟨data, hdl, hdn⟩
  · by_cases hpq : fpx = p
    · subst hpq
      rw [hdl] at hly
      injection hly with hly
      subst hly
      refine ⟨_, by rw [hyf, lookupA_insertA_self], ?_⟩
      exact (updated_tree_namesTree mode oracle nx aix data i node hnode
        n).mpr hdn
    · exact ⟨data, by rw [hyf, lookupA_insertA_ne _ _ _ _ hpq]; exact hdl,
        hdn⟩

theorem pres_namesModelsAt_upd (mode : DbtYamlWriter.Mode)
    (oracle : DbtYamlWriter.Oracle) (st : DbtYamlWriter.WState)
    (fpx nx : String) (aix : DbtYamlWriter.AiModel) (p n : String)
    (h : ∃ data, lookupA st.yaml_files p = some data ∧ namesModels n data) :
    ∃ data, lookupA (DbtYamlWriter.update_existing_model_in_memory mode
      oracle st fpx nx aix).1.yaml_files p = some data ∧
      namesModels n data := by
  obtain ⟨data, hdl, hdn⟩ := h
  rcases update_existing_char mode oracle st fpx nx aix with heq |
    ⟨data0, i, node, hly, hidx, hnode, hname, hyf, -, -⟩
  · rw [heq]; exact ⟨data, hdl, hdn⟩
  · by_cases hpq : fpx = p
    · subst hpq
      rw [hdl] at hly
      injection hly with hly
      subst hly
      refine ⟨_, by rw [hyf, lookupA_insertA_self], ?_⟩
      exact (updated_tree_namesModels mode oracle nx aix data i node hnode
        n).mpr hdn
    · exact ⟨data, by rw [hyf, lookupA_insertA_ne _ _ _ _ hpq]; exact hdl,
        hdn⟩

theorem pres_onlyAt_upd (mode : DbtYamlWriter.Mode)
    (oracle : DbtYamlWriter.Oracle) (st : DbtYamlWriter.WState)
    (fpx nx : String) (aix : DbtYamlWriter.AiModel) (n P : String)
    (h : onlyAt n P st.yaml_files) :
    onlyAt n P (DbtYamlWriter.update_existing_model_in_memory mode oracle
      st fpx nx aix).1.yaml_files := by
  intro q data hdl hdn
  rcases update_existing_char mode oracle st fpx nx aix with heq |
    ⟨data0, i, node, hly, hidx, hnode, hname, hyf, -, -⟩
  · rw [heq] at hdl; exact h q data hdl hdn
  · rw [hyf] at hdl
    by_cases hq : fpx = q
    · subst hq
      rw [lookupA_insertA_self] at hdl
      injection hdl with hdl
      subst hdl
      exact h fpx data0 hly
        ((updated_tree_namesTree mode oracle nx aix data0 i node hnode
          n).mp hdn)
    · rw [lookupA_insertA_ne _ _ _ _ hq] at hdl
      exact h q data hdl hdn

theorem pres_noName_upd (mode : DbtYamlWriter.Mode)
    (oracle : DbtYamlWriter.Oracle) (st : DbtYamlWriter.WState)
    (fpx nx : String) (aix : DbtYamlWriter.AiModel) (n : String)
    (h : noName n st.yaml_files) :
    noName n (DbtYamlWriter.update_existing_model_in_memory mode oracle
      st fpx nx aix).1.yaml_files := by
  intro q data hdl hdn
  rcases update_existing_char mode oracle st fpx nx aix with heq |
    ⟨data0, i, node, hly, hidx, hnode, hname, hyf, -, -⟩
  · rw [heq] at hdl; exact h q data hdl hdn
  · rw [hyf] at hdl
    by_cases hq : fpx = q
    · subst hq
      rw [lookupA_insertA_self] at hdl
      injection hdl with hdl
      subst hdl
      exact h fpx data0 hly
        ((updated_tree_namesTree mode oracle nx aix data0 i node hnode
          n).mp hdn)
    · rw [lookupA_insertA_ne _ _ _ _ hq] at hdl
      exact h q data hdl hdn

theorem pres_ftw_upd (mode : DbtYamlWriter.Mode)
    (oracle : DbtYamlWriter.Oracle) (st : DbtYamlWriter.WState)
    (fpx nx : String) (aix : DbtYamlWriter.AiModel) (P : String)
    (h : P ∈ st.files_to_write) :
    P ∈ (DbtYamlWriter.update_existing_model_in_memory mode oracle st fpx
      nx aix).1.files_to_write := by
  rcases update_existing_char mode oracle st fpx nx aix with heq |
    ⟨data0, i, node, hly, hidx, hnode, hname, hyf, hmm, hftw⟩
  · rw [heq]; exact h
  · rcases hftw with hftw | hftw
    · rw [hftw]; exact h
    · rw [hftw]
      exact (mem_addIfAbsent st.files_to_write fpx P).mpr (Or.inl h)

/-! ### Preservation of the per-entry invariants by a create step -/

theorem pres_firstSat_create (oracle : DbtYamlWriter.Oracle)
    (st : DbtYamlWriter.WState) (nx : String)
    (aix : DbtYamlWriter.AiModel) (p n : String)
    (ai : DbtYamlWriter.AiModel) (hne : nx ≠ n)
    (h : ∀ data, lookupA st.yaml_files p = some data → firstSat ai n data) :
    ∀ data, lookupA (DbtYamlWriter.create_new_model_stub_in_memory
      DbtYamlWriter.Mode.update oracle st nx aix).1.yaml_files p =
      some data → firstSat ai n data := by
  have hstub : DbtYamlWriter.nodeName
      (DbtYamlWriter.makeStub DbtYamlWriter.Mode.update oracle nx aix) =
      nx := makeStub_name oracle nx aix
  rcases create_stub_char DbtYamlWriter.Mode.update oracle (by decide) st
    nx aix with ⟨-, heq⟩ | ⟨-, -, -, hyf⟩
  · rw [heq]; exact h
  · rcases hyf with ⟨data0, hlt, hyf⟩ | ⟨hlt, hyf⟩
    · intro data hdata
      rw [hyf] at hdata
      by_cases htp : DbtYamlWriter.stubTarget aix = p
      · subst htp
        rw [lookupA_insertA_self] at hdata
        injection hdata with hdata
        subst hdata
        intro j nd' hj hnd'
        dsimp only at hj hnd'
        have hjpre : data0.models.findIdx?
            (fun nd => DbtYamlWriter.nodeName nd = n) = some j := by
          cases hfi : data0.models.findIdx?
              (fun nd => DbtYamlWriter.nodeName nd = n) with
          | some j0 =>
              have hap := findIdx?_append_of_some _ data0.models
                [DbtYamlWriter.makeStub DbtYamlWriter.Mode.update oracle nx
                  aix] 0 j0 hfi
              rw [hap] at hj
              injection hj with hj
              subst hj
              rfl
          | none =>
              exfalso
              have hap := findIdx?_append_one_of_none _ data0.models
                (DbtYamlWriter.makeStub DbtYamlWriter.Mode.update oracle nx
                  aix) 0 hfi
              rw [hap, if_neg (by simp [hstub, hne])] at hj
              exact Option.noConfusion hj
        have hjlen : j < data0.models.length := by
          obtain ⟨x, hx, -⟩ := findIdx?_spec _ data0.models j hjpre
          exact (List.getElem?_eq_some_iff.mp hx).1
        rw [List.getElem?_append_left hjlen] at hnd'
        exact h data0 hlt j nd' hjpre hnd'
      · rw [lookupA_insertA_ne _ _ _ _ htp] at hdata
        exact h data hdata
    · intro data hdata
      rw [hyf] at hdata
      by_cases htp : DbtYamlWriter.stubTarget aix = p
      · subst htp
        rw [lookupA_insertA_self] at hdata
        injection hdata with hdata
        subst hdata
        intro j nd' hj hnd'
        dsimp only at hj
        rw [List.findIdx?_cons, if_neg (by simp [hstub, hne])] at hj
        exact Option.noConfusion hj
      · rw [lookupA_insertA_ne _ _ _ _ htp] at hdata
        exact h data hdata

theorem pres_namesAt_create (oracle : DbtYamlWriter.Oracle)
    (st : DbtYamlWriter.WState) (nx : String)
    (aix : DbtYamlWriter.AiModel) (p n : String)
    (h : ∃ data, lookupA st.yaml_files p = some data ∧ namesTree n data) :
    ∃ data, lookupA (DbtYamlWriter.create_new_model_stub_in_memory
      DbtYamlWriter.Mode.update oracle st nx aix).1.yaml_files p =
      some data ∧ namesTree n data := by
  obtain ⟨data, hdl, hdn⟩ := h
  rcases create_stub_char DbtYamlWriter.Mode.update oracle (by decide) st
    nx aix with ⟨-, heq⟩ | ⟨-, -, -, hyf⟩
  · rw [heq]; exact ⟨data, hdl, hdn⟩
  · rcases hyf with ⟨data0, hlt, hyf⟩ | ⟨hlt, hyf⟩
    · by_cases htp : DbtYamlWriter.stubTarget aix = p
      · subst htp
        rw [hdl] at hlt
        injection hlt with hlt
        subst hlt
        refine ⟨_, by rw [hyf, lookupA_insertA_self], ?_⟩
        exact (namesTree_append n data _).mpr (Or.inl hdn)
      · refine ⟨data, ?_, hdn⟩
        rw [hyf, lookupA_insertA_ne _ _ _ _ htp]
        exact hdl
    · by_cases htp : DbtYamlWriter.stubTarget aix = p
      · subst htp
        rw [hdl] at hlt
        exact Option.noConfusion hlt
      · refine ⟨data, ?_, hdn⟩
        rw [hyf, lookupA_insertA_ne _ _ _ _ htp]
        exact hdl

theorem pres_namesModelsAt_create (oracle : DbtYamlWriter.Oracle)
    (st : DbtYamlWriter.WState) (nx : String)
    (aix : DbtYamlWriter.AiModel) (p n : String)
    (h : ∃ data, lookupA st.yaml_files p = some data ∧ namesModels n data) :
    ∃ data, lookupA (DbtYamlWriter.create_new_model_stub_in_memory
      DbtYamlWriter.Mode.update oracle st nx aix).1.yaml_files p =
      some data ∧ namesModels n data := by
  obtain ⟨data, hdl, hdn⟩ := h
  rcases create_stub_char DbtYamlWriter.Mode.update oracle (by decide) st
    nx aix with ⟨-, heq⟩ | ⟨-, -, -, hyf⟩
  · rw [heq]; exact ⟨data, hdl, hdn⟩
  · rcases hyf with ⟨data0, hlt, hyf⟩ | ⟨hlt, hyf⟩
    · by_cases htp : DbtYamlWriter.stubTarget aix = p
      · subst htp
        rw [hdl] at hlt
        injection hlt with hlt
        subst hlt
        refine ⟨_, by rw [hyf, lookupA_insertA_self], ?_⟩
        obtain ⟨nd, hmem, hname⟩ := hdn
        exact ⟨nd, by simp [hmem], hname⟩
      · refine ⟨data, ?_, hdn⟩
        rw [hyf, lookupA_insertA_ne _ _ _ _ htp]
        exact hdl
    · by_cases htp : DbtYamlWriter.stubTarget aix = p
      · subst htp
        rw [hdl] at hlt
        exact Option.noConfusion hlt
      · refine ⟨data, ?_, hdn⟩
        rw [hyf, lookupA_insertA_ne _ _ _ _ htp]
        exact hdl

theorem pres_onlyAt_create (oracle : DbtYamlWriter.Oracle)
    (st : DbtYamlWriter.WState) (nx : String)
    (aix : DbtYamlWriter.AiModel) (n P : String) (hne : nx ≠ n)
    (h : onlyAt n P st.yaml_files) :
    onlyAt n P (DbtYamlWriter.create_new_model_stub_in_memory
      DbtYamlWriter.Mode.update oracle st nx aix).1.yaml_files := by
  have hstub : DbtYamlWriter.nodeName
      (DbtYamlWriter.makeStub DbtYamlWriter.Mode.update oracle nx aix) =
      nx := makeStub_name oracle nx aix
  intro q data hdl hdn
  rcases create_stub_char DbtYamlWriter.Mode.update oracle (by decide) st
    nx aix with ⟨-, heq⟩ | ⟨-, -, -, hyf⟩
  · rw [heq] at hdl; exact h q data hdl hdn
  · rcases hyf with ⟨data0, hlt, hyf⟩ | ⟨hlt, hyf⟩
    · rw [hyf] at hdl
      by_cases htq : DbtYamlWriter.stubTarget aix = q
      · subst htq
        rw [lookupA_insertA_self] at hdl
        injection hdl with hdl
        subst hdl
        rcases (namesTree_append n data0 _).mp hdn with hdn' | hdn'
        · exact h _ data0 hlt hdn'
        · exact absurd (hstub.symm.trans hdn') hne
      · rw [lookupA_insertA_ne _ _ _ _ htq] at hdl
        exact h q data hdl hdn
    · rw [hyf] at hdl
      by_cases htq : DbtYamlWriter.stubTarget aix = q
      · subst htq
        rw [lookupA_insertA_self] at hdl
        injection hdl with hdl
        subst hdl
        exact absurd (hstub.symm.trans ((namesTree_fresh n _).mp hdn)) hne
      · rw [lookupA_insertA_ne _ _ _ _ htq] at hdl
        exact h q data hdl hdn

theorem pres_noName_create (oracle : DbtYamlWriter.Oracle)
    (st : DbtYamlWriter.WState) (nx : String)
    (aix : DbtYamlWriter.AiModel) (n : String) (hne : nx ≠ n)
    (h : noName n st.yaml_files) :
    noName n (DbtYamlWriter.create_new_model_stub_in_memory
      DbtYamlWriter.Mode.update oracle st nx aix).1.yaml_files := by
  have hstub : DbtYamlWriter.nodeName
      (DbtYamlWriter.makeStub DbtYamlWriter.Mode.update oracle nx aix) =
      nx := makeStub_name oracle nx aix
  intro q data hdl hdn
  rcases create_stub_char DbtYamlWriter.Mode.update oracle (by decide) st
    nx aix with ⟨-, heq⟩ | ⟨-, -, -, hyf⟩
  · rw [heq] at hdl; exact h q data hdl hdn
  · rcases hyf with ⟨data0, hlt, hyf⟩ | ⟨hlt, hyf⟩
    · rw [hyf] at hdl
      by_cases htq : DbtYamlWriter.stubTarget aix = q
      · subst htq
        rw [lookupA_insertA_self] at hdl
        injection hdl with hdl
        subst hdl
        rcases (namesTree_append n data0 _).mp hdn with hdn' | hdn'
        · exact h _ data0 hlt hdn'
        · exact absurd (hstub.symm.trans hdn') hne
      · rw [lookupA_insertA_ne _ _ _ _ htq] at hdl
        exact h q data hdl hdn
    · rw [hyf] at hdl
      by_cases htq : DbtYamlWriter.stubTarget aix = q
      · subst htq
        rw [lookupA_insertA_self] at hdl
        injection hdl with hdl
        subst hdl
        exact absurd (hstub.symm.trans ((namesTree_fresh n _).mp hdn)) hne
      · rw [lookupA_insertA_ne _ _ _ _ htq] at hdl
        exact h q data hdl hdn

theorem pres_ftw_create (oracle : DbtYamlWriter.Oracle)
    (st : DbtYamlWriter.WState) (nx : String)
    (aix : DbtYamlWriter.AiModel) (P : String)
    (h : P ∈ st.files_to_write) :
    P ∈ (DbtYamlWriter.create_new_model_stub_in_memory
      DbtYamlWriter.Mode.update oracle st nx aix).1.files_to_write := by
  rcases create_stub_char DbtYamlWriter.Mode.update oracle (by decide) st
    nx aix with ⟨-, heq⟩ | ⟨-, -, hftw, -⟩
  · rw [heq]; exact h
  · rw [hftw]
    exact (mem_addIfAbsent st.files_to_write _ P).mpr (Or.inl h)

theorem not_namesTree_models (n : String) (t : DbtYamlWriter.DocTree)
    (h : ¬ namesTree n t) :
    ∀ nd ∈ t.models, DbtYamlWriter.nodeName nd ≠ n := by
  intro nd hmem hname
  exact h ⟨nd, by simp [hmem], hname⟩

/-- The update step for a catalog entry leaves the first node of its name
in its mapped file saturated (or no such node at all). -/
theorem est_firstSat_upd (oracle : DbtYamlWriter.Oracle)
    (st : DbtYamlWriter.WState) (p n : String)
    (ai : DbtYamlWriter.AiModel)
    (hv : ∀ c ∈ ai.columns, ∀ kv ∈ c.ai_generated,
      kv.2 ≠ "" ∧ kv.1 ≠ "name") :
    ∀ data, lookupA (DbtYamlWriter.update_existing_model_in_memory
      DbtYamlWriter.Mode.update oracle st p n ai).1.yaml_files p =
      some data → firstSat ai n data := by
  cases hly : lookupA st.yaml_files p with
  | none =>
      intro data hdata
      simp only [DbtYamlWriter.update_existing_model_in_memory, hly]
        at hdata
      exact Option.noConfusion hdata
  | some data0 =>
    cases hidx : data0.models.findIdx?
        (fun nd => DbtYamlWriter.nodeName nd = n) with
    | none =>
        intro data hdata
        simp only [DbtYamlWriter.update_existing_model_in_memory, hly,
          hidx] at hdata
        injection hdata with hdata
        subst hdata
        intro j nd hj hnd
        rw [hidx] at hj
        exact Option.noConfusion hj
    | some i =>
      cases hnode : data0.models[i]? with
      | none =>
          intro data hdata
          simp only [DbtYamlWriter.update_existing_model_in_memory, hly,
            hidx, hnode] at hdata
          injection hdata with hdata
          subst hdata
          intro j nd hj hnd
          rw [hidx] at hj
          injection hj with hj
          subst hj
          rw [hnode] at hnd
          exact Option.noConfusion hnd
      | some node =>
          intro data hdata
          simp only [DbtYamlWriter.update_existing_model_in_memory, hly,
            hidx, hnode] at hdata
          rw [lookupA_insertA_self] at hdata
          injection hdata with hdata
          subst hdata
          intro j nd' hj hnd'
          dsimp only at hj hnd'
          have hnames := updated_tree_names DbtYamlWriter.Mode.update
            oracle n ai data0 i node hnode
          have hfi : data0.models.findIdx?
              (fun nd => DbtYamlWriter.nodeName nd = n) = some j := by
            rw [← findIdx_names_congr data0.models _ n hnames]
            exact hj
          have hij : j = i := by
            have := hfi.symm.trans hidx
            injection this
          subst hij
          have hlen : j < data0.models.length :=
            (List.getElem?_eq_some_iff.mp hnode).1
          rw [List.getElem?_set_self hlen] at hnd'
          injection hnd' with hnd'
          subst hnd'
          exact updateModelNode_sat oracle n ai node hv

/-- The create step for an unknown catalog entry with a source path puts
a saturated stub named after it at the target file, which becomes the
only document naming it. -/
theorem est_create (oracle : DbtYamlWriter.Oracle)
    (st : DbtYamlWriter.WState) (n : String) (ai : DbtYamlWriter.AiModel)
    (hv : ∀ c ∈ ai.columns, ∀ kv ∈ c.ai_generated,
      kv.2 ≠ "" ∧ kv.1 ≠ "name")
    (hnd : (ai.columns.map DbtYamlWriter.AiColumn.name).Nodup)
    (hpath : ai.original_file_path ≠ "")
    (hnoname : noName n st.yaml_files) :
    (∀ data, lookupA (DbtYamlWriter.create_new_model_stub_in_memory
        DbtYamlWriter.Mode.update oracle st n ai).1.yaml_files
        (DbtYamlWriter.stubTarget ai) = some data → firstSat ai n data) ∧
    (∃ data, lookupA (DbtYamlWriter.create_new_model_stub_in_memory
        DbtYamlWriter.Mode.update oracle st n ai).1.yaml_files
        (DbtYamlWriter.stubTarget ai) = some data ∧ namesModels n data) ∧
    DbtYamlWriter.stubTarget ai ∈
      (DbtYamlWriter.create_new_model_stub_in_memory
        DbtYamlWriter.Mode.update oracle st n ai).1.files_to_write ∧
    onlyAt n (DbtYamlWriter.stubTarget ai)
      (DbtYamlWriter.create_new_model_stub_in_memory
        DbtYamlWriter.Mode.update oracle st n ai).1.yaml_files := by
  have hstub : DbtYamlWriter.nodeName
      (DbtYamlWriter.makeStub DbtYamlWriter.Mode.update oracle n ai) = n :=
    makeStub_name oracle n ai
  have hsat : SatNode ai
      (DbtYamlWriter.makeStub DbtYamlWriter.Mode.update oracle n ai) :=
    makeStub_sat oracle n ai hv hnd
  rcases create_stub_char DbtYamlWriter.Mode.update oracle (by decide) st
    n ai with ⟨hpath', -⟩ | ⟨-, -, hftw, hyf⟩
  · exact absurd hpath' hpath
  · rcases hyf with ⟨data0, hlt, hyf⟩ | ⟨hlt, hyf⟩
    · have hpref : data0.models.findIdx?
          (fun nd => DbtYamlWriter.nodeName nd = n) = none := by
        rw [List.findIdx?_eq_none_iff]
        intro nd hmem
        simp [not_namesTree_models n data0 (hnoname _ data0 hlt) nd hmem]
      refine ⟨?_, ?_, ?_, ?_⟩
      · intro data hdata
        rw [hyf, lookupA_insertA_self] at hdata
        injection hdata with hdata
        subst hdata
        intro j nd' hj hnd'
        dsimp only at hj hnd'
        have hap := findIdx?_append_one_of_none _ data0.models
          (DbtYamlWriter.makeStub DbtYamlWriter.Mode.update oracle n ai) 0
          hpref
        rw [hap, if_pos (by simp [hstub])] at hj
        injection hj with hj
        subst hj
        rw [Nat.zero_add, getElem?_append_len] at hnd'
        injection hnd' with hnd'
        subst hnd'
        exact hsat
      · refine ⟨_, by rw [hyf, lookupA_insertA_self], ?_⟩
        exact ⟨DbtYamlWriter.makeStub DbtYamlWriter.Mode.update oracle n ai,
          by simp, hstub⟩
      · rw [hftw]
        exact (mem_addIfAbsent st.files_to_write _ _).mpr (Or.inr rfl)
      · intro q data hdl hdn
        rw [hyf] at hdl
        by_cases htq : DbtYamlWriter.stubTarget ai = q
        · exact htq.symm
        · rw [lookupA_insertA_ne _ _ _ _ htq] at hdl
          exact absurd hdn (hnoname q data hdl)
    · refine ⟨?_, ?_, ?_, ?_⟩
      · intro data hdata
        rw [hyf, lookupA_insertA_self] at hdata
        injection hdata with hdata
        subst hdata
        intro j nd' hj hnd'
        dsimp only at hj hnd'
        rw [List.findIdx?_cons, if_pos (by simp [hstub])] at hj
        injection hj with hj
        subst hj
        injection hnd' with hnd'
        subst hnd'
        exact hsat
      · refine ⟨_, by rw [hyf, lookupA_insertA_self], ?_⟩
        exact ⟨DbtYamlWriter.makeStub DbtYamlWriter.Mode.update oracle n ai,
          by simp, hstub⟩
      · rw [hftw]
        exact (mem_addIfAbsent st.files_to_write _ _).mpr (Or.inr rfl)
      · intro q data hdl hdn
        rw [hyf] at hdl
        by_cases htq : DbtYamlWriter.stubTarget ai = q
        · exact htq.symm
        · rw [lookupA_insertA_ne _ _ _ _ htq] at hdl
          exact absurd hdn (hnoname q data hdl)

/-! ### Loop-level preservation -/

theorem updLoop_firstSat (mode : DbtYamlWriter.Mode)
    (oracle : DbtYamlWriter.Oracle) (mmap : List (String × String))
    (catalog : DbtYamlWriter.Catalog) (p n : String)
    (ai : DbtYamlWriter.AiModel) (hne : ∀ x ∈ catalog, x.1 ≠ n)
    (s : DbtYamlWriter.WState × Bool)
    (h : ∀ data, lookupA s.1.yaml_files p = some data →
      firstSat ai n data) :
    ∀ data, lookupA (catalog.foldl
      (DbtYamlWriter.updateLoopStep mode oracle mmap) s).1.yaml_files p =
      some data → firstSat ai n data := by
  refine foldl_inv _ (fun st => ∀ data, lookupA st.1.yaml_files p =
    some data → firstSat ai n data) catalog ?_ s h
  intro s' x hx hQ
  cases hmm : lookupA mmap x.1 with
  | none => simpa only [DbtYamlWriter.updateLoopStep, hmm] using hQ
  | some fp =>
      simp only [DbtYamlWriter.updateLoopStep, hmm]
      exact pres_firstSat_upd mode oracle s'.1 fp x.1 x.2 p n ai
        (hne x hx) hQ

theorem updLoop_namesAt (mode : DbtYamlWriter.Mode)
    (oracle : DbtYamlWriter.Oracle) (mmap : List (String × String))
    (catalog : DbtYamlWriter.Catalog) (p n : String)
    (s : DbtYamlWriter.WState × Bool)
    (h : ∃ data, lookupA s.1.yaml_files p = some data ∧
      namesTree n data) :
    ∃ data, lookupA (catalog.foldl
      (DbtYamlWriter.updateLoopStep mode oracle mmap) s).1.yaml_files p =
      some data ∧ namesTree n data := by
  refine foldl_inv _ (fun st => ∃ data, lookupA st.1.yaml_files p =
    some data ∧ namesTree n data) catalog ?_ s h
  intro s' x hx hQ
  cases hmm : lookupA mmap x.1 with
  | none => simpa only [DbtYamlWriter.updateLoopStep, hmm] using hQ
  | some fp =>
      simp only [DbtYamlWriter.updateLoopStep, hmm]
      exact pres_namesAt_upd mode oracle s'.1 fp x.1 x.2 p n hQ

theorem updLoop_namesModelsAt (mode : DbtYamlWriter.Mode)
    (oracle : DbtYamlWriter.Oracle) (mmap : List (String × String))
    (catalog : DbtYamlWriter.Catalog) (p n : String)
    (s : DbtYamlWriter.WState × Bool)
    (h : ∃ data, lookupA s.1.yaml_files p = some data ∧
      namesModels n data) :
    ∃ data, lookupA (catalog.foldl
      (DbtYamlWriter.updateLoopStep mode oracle mmap) s).1.yaml_files p =
      some data ∧ namesModels n data := by
  refine foldl_inv _ (fun st => ∃ data, lookupA st.1.yaml_files p =
    some data ∧ namesModels n data) catalog ?_ s h
  intro s' x hx hQ
  cases hmm : lookupA mmap x.1 with
  | none => simpa only [DbtYamlWriter.updateLoopStep, hmm] using hQ
  | some fp =>
      simp only [DbtYamlWriter.updateLoopStep, hmm]
      exact pres_namesModelsAt_upd mode oracle s'.1 fp x.1 x.2 p n hQ

theorem updLoop_onlyAt (mode : DbtYamlWriter.Mode)
    (oracle : DbtYamlWriter.Oracle) (mmap : List (String × String))
    (catalog : DbtYamlWriter.Catalog) (n P : String)
    (s : DbtYamlWriter.WState × Bool)
    (h : onlyAt n P s.1.yaml_files) :
    onlyAt n P (catalog.foldl
      (DbtYamlWriter.updateLoopStep mode oracle mmap) s).1.yaml_files := by
  refine foldl_inv _ (fun st => onlyAt n P st.1.yaml_files) catalog ?_ s h
  intro s' x hx hQ
  cases hmm : lookupA mmap x.1 with
  | none => simpa only [DbtYamlWriter.updateLoopStep, hmm] using hQ
  | some fp =>
      simp only [DbtYamlWriter.updateLoopStep, hmm]
      exact pres_onlyAt_upd mode oracle s'.1 fp x.1 x.2 n P hQ

theorem updLoop_noName (mode : DbtYamlWriter.Mode)
    (oracle : DbtYamlWriter.Oracle) (mmap : List (String × String))
    (catalog : DbtYamlWriter.Catalog) (n : String)
    (s : DbtYamlWriter.WState × Bool)
    (h : noName n s.1.yaml_files) :
    noName n (catalog.foldl
      (DbtYamlWriter.updateLoopStep mode oracle mmap) s).1.yaml_files := by
  refine foldl_inv _ (fun st => noName n st.1.yaml_files) catalog ?_ s h
  intro s' x hx hQ
  cases hmm : lookupA mmap x.1 with
  | none => simpa only [DbtYamlWriter.updateLoopStep, hmm] using hQ
  | some fp =>
      simp only [DbtYamlWriter.updateLoopStep, hmm]
      exact pres_noName_upd mode oracle s'.1 fp x.1 x.2 n hQ

theorem updLoop_ftw (mode : DbtYamlWriter.Mode)
    (oracle : DbtYamlWriter.Oracle) (mmap : List (String × String))
    (catalog : DbtYamlWriter.Catalog) (P : String)
    (s : DbtYamlWriter.WState × Bool)
    (h : P ∈ s.1.files_to_write) :
    P ∈ (catalog.foldl
      (DbtYamlWriter.updateLoopStep mode oracle mmap)
        s).1.files_to_write := by
  refine foldl_inv _ (fun st => P ∈ st.1.files_to_write) catalog ?_ s h
  intro s' x hx hQ
  cases hmm : lookupA mmap x.1 with
  | none => simpa only [DbtYamlWriter.updateLoopStep, hmm] using hQ
  | some fp =>
      simp only [DbtYamlWriter.updateLoopStep, hmm]
      exact pres_ftw_upd mode oracle s'.1 fp x.1 x.2 P hQ

theorem creLoop_firstSat (oracle : DbtYamlWriter.Oracle)
    (mmap : List (String × String)) (catalog : DbtYamlWriter.Catalog)
    (p n : String) (ai : DbtYamlWriter.AiModel)
    (hne : ∀ x ∈ catalog, lookupA mmap x.1 = none → x.1 ≠ n)
    (s : DbtYamlWriter.WState × Bool)
    (h : ∀ data, lookupA s.1.yaml_files p = some data →
      firstSat ai n data) :
    ∀ data, lookupA (catalog.foldl
      (DbtYamlWriter.createLoopStep DbtYamlWriter.Mode.update oracle mmap)
      s).1.yaml_files p = some data → firstSat ai n data := by
  refine foldl_inv _ (fun st => ∀ data, lookupA st.1.yaml_files p =
    some data → firstSat ai n data) catalog ?_ s h
  intro s' x hx hQ
  cases hmm : lookupA mmap x.1 with
  | some fp => simpa only [DbtYamlWriter.createLoopStep, hmm] using hQ
  | none =>
      simp only [DbtYamlWriter.createLoopStep, hmm]
      exact pres_firstSat_create oracle s'.1 x.1 x.2 p n ai
        (hne x hx hmm) hQ

theorem creLoop_namesAt (oracle : DbtYamlWriter.Oracle)
    (mmap : List (String × String)) (catalog : DbtYamlWriter.Catalog)
    (p n : String) (s : DbtYamlWriter.WState × Bool)
    (h : ∃ data, lookupA s.1.yaml_files p = some data ∧
      namesTree n data) :
    ∃ data, lookupA (catalog.foldl
      (DbtYamlWriter.createLoopStep DbtYamlWriter.Mode.update oracle mmap)
      s).1.yaml_files p = some data ∧ namesTree n data := by
  refine foldl_inv _ (fun st => ∃ data, lookupA st.1.yaml_files p =
    some data ∧ namesTree n data) catalog ?_ s h
  intro s' x hx hQ
  cases hmm : lookupA mmap x.1 with
  | some fp => simpa only [DbtYamlWriter.createLoopStep, hmm] using hQ
  | none =>
      simp only [DbtYamlWriter.createLoopStep, hmm]
      exact pres_namesAt_create oracle s'.1 x.1 x.2 p n hQ

theorem creLoop_namesModelsAt (oracle : DbtYamlWriter.Oracle)
    (mmap : List (String × String)) (catalog : DbtYamlWriter.Catalog)
    (p n : String) (s : DbtYamlWriter.WState × Bool)
    (h : ∃ data, lookupA s.1.yaml_files p = some data ∧
      namesModels n data) :
    ∃ data, lookupA (catalog.foldl
      (DbtYamlWriter.createLoopStep DbtYamlWriter.Mode.update oracle mmap)
      s).1.yaml_files p = some data ∧ namesModels n data := by
  refine foldl_inv _ (fun st => ∃ data, lookupA st.1.yaml_files p =
    some data ∧ namesModels n data) catalog ?_ s h
  intro s' x hx hQ
  cases hmm : lookupA mmap x.1 with
  | some fp => simpa only [DbtYamlWriter.createLoopStep, hmm] using hQ
  | none =>
      simp only [DbtYamlWriter.createLoopStep, hmm]
      exact pres_namesModelsAt_create oracle s'.1 x.1 x.2 p n hQ

theorem creLoop_onlyAt (oracle : DbtYamlWriter.Oracle)
    (mmap : List (String × String)) (catalog : DbtYamlWriter.Catalog)
    (n P : String)
    (hne : ∀ x ∈ catalog, lookupA mmap x.1 = none → x.1 ≠ n)
    (s : DbtYamlWriter.WState × Bool)
    (h : onlyAt n P s.1.yaml_files) :
    onlyAt n P (catalog.foldl
      (DbtYamlWriter.createLoopStep DbtYamlWriter.Mode.update oracle mmap)
      s).1.yaml_files := by
  refine foldl_inv _ (fun st => onlyAt n P st.1.yaml_files) catalog ?_ s h
  intro s' x hx hQ
  cases hmm : lookupA mmap x.1 with
  | some fp => simpa only [DbtYamlWriter.createLoopStep, hmm] using hQ
  | none =>
      simp only [DbtYamlWriter.createLoopStep, hmm]
      exact pres_onlyAt_create oracle s'.1 x.1 x.2 n P (hne x hx hmm) hQ

theorem creLoop_noName (oracle : DbtYamlWriter.Oracle)
    (mmap : List (String × String)) (catalog : DbtYamlWriter.Catalog)
    (n : String)
    (hne : ∀ x ∈ catalog, lookupA mmap x.1 = none → x.1 ≠ n)
    (s : DbtYamlWriter.WState × Bool)
    (h : noName n s.1.yaml_files) :
    noName n (catalog.foldl
      (DbtYamlWriter.createLoopStep DbtYamlWriter.Mode.update oracle mmap)
      s).1.yaml_files := by
  refine foldl_inv _ (fun st => noName n st.1.yaml_files) catalog ?_ s h
  intro s' x hx hQ
  cases hmm : lookupA mmap x.1 with
  | some fp => simpa only [DbtYamlWriter.createLoopStep, hmm] using hQ
  | none =>
      simp only [DbtYamlWriter.createLoopStep, hmm]
      exact pres_noName_create oracle s'.1 x.1 x.2 n (hne x hx hmm) hQ

theorem creLoop_ftw (oracle : DbtYamlWriter.Oracle)
    (mmap : List (String × String)) (catalog : DbtYamlWriter.Catalog)
    (P : String) (s : DbtYamlWriter.WState × Bool)
    (h : P ∈ s.1.files_to_write) :
    P ∈ (catalog.foldl
      (DbtYamlWriter.createLoopStep DbtYamlWriter.Mode.update oracle mmap)
      s).1.files_to_write := by
  refine foldl_inv _ (fun st => P ∈ st.1.files_to_write) catalog ?_ s h
  intro s' x hx hQ
  cases hmm : lookupA mmap x.1 with
  | some fp => simpa only [DbtYamlWriter.createLoopStep, hmm] using hQ
  | none =>
      simp only [DbtYamlWriter.createLoopStep, hmm]
      exact pres_ftw_create oracle s'.1 x.1 x.2 P hQ

theorem nodup_split_names (pre post : DbtYamlWriter.Catalog)
    (e : String × DbtYamlWriter.AiModel)
    (h : ((pre ++ e :: post).map Prod.fst).Nodup) :
    (∀ x ∈ pre, x.1 ≠ e.1) ∧ (∀ x ∈ post, x.1 ≠ e.1) := by
  rw [List.map_append, List.map_cons, List.nodup_append] at h
  obtain ⟨h1, h2, hdisj⟩ := h
  constructor
  · intro x hx hcon
    exact hdisj (List.mem_map_of_mem Prod.fst hx)
      (by rw [hcon]; exact List.mem_cons_self _ _)
  · intro x hx hcon
    exact (List.nodup_cons.mp h2).1
      (by rw [← hcon]; exact List.mem_map_of_mem Prod.fst hx)

/-- Run-1, documented entry: after both loops, the first node named after
the entry in its mapped file is saturated, the file still names it, and it
is the only file naming it. -/
theorem run1_caseA (oracle : DbtYamlWriter.Oracle)
    (mmap : List (String × String)) (catalog : DbtYamlWriter.Catalog)
    (s0 : DbtYamlWriter.WState × Bool)
    (e : String × DbtYamlWriter.AiModel) (he : e ∈ catalog)
    (hnodup : (catalog.map Prod.fst).Nodup)
    (hv : ∀ c ∈ e.2.columns, ∀ kv ∈ c.ai_generated,
      kv.2 ≠ "" ∧ kv.1 ≠ "name")
    (p : String) (hp : lookupA mmap e.1 = some p)
    (hinit_names : ∃ data, lookupA s0.1.yaml_files p = some data ∧
      namesTree e.1 data)
    (hinit_only : onlyAt e.1 p s0.1.yaml_files) :
    (∀ data, lookupA (catalog.foldl
        (DbtYamlWriter.createLoopStep DbtYamlWriter.Mode.update oracle
          mmap)
        (catalog.foldl (DbtYamlWriter.updateLoopStep
          DbtYamlWriter.Mode.update oracle mmap) s0)).1.yaml_files p =
      some data → firstSat e.2 e.1 data) ∧
    (∃ data, lookupA (catalog.foldl
        (DbtYamlWriter.createLoopStep DbtYamlWriter.Mode.update oracle
          mmap)
        (catalog.foldl (DbtYamlWriter.updateLoopStep
          DbtYamlWriter.Mode.update oracle mmap) s0)).1.yaml_files p =
      some data ∧ namesTree e.1 data) ∧
    onlyAt e.1 p (catalog.foldl
        (DbtYamlWriter.createLoopStep DbtYamlWriter.Mode.update oracle
          mmap)
        (catalog.foldl (DbtYamlWriter.updateLoopStep
          DbtYamlWriter.Mode.update oracle mmap) s0)).1.yaml_files := by
  have hne_cre : ∀ x ∈ catalog, lookupA mmap x.1 = none → x.1 ≠ e.1 := by
    intro x _ hxm hcon
    rw [hcon, hp] at hxm
    exact Option.noConfusion hxm
  refine ⟨?_, ?_, ?_⟩
  · obtain ⟨pre, post, hsplit⟩ := List.append_of_mem he
    have hne_post := (nodup_split_names pre post e
      (by rw [← hsplit]; exact hnodup)).2
    apply creLoop_firstSat oracle mmap catalog p e.1 e.2 hne_cre
    rw [hsplit, List.foldl_append, List.foldl_cons]
    apply updLoop_firstSat DbtYamlWriter.Mode.update oracle mmap post p
      e.1 e.2 hne_post
    simp only [DbtYamlWriter.updateLoopStep, hp]
    exact est_firstSat_upd oracle _ p e.1 e.2 hv
  · apply creLoop_namesAt oracle mmap catalog p e.1
    exact updLoop_namesAt DbtYamlWriter.Mode.update oracle mmap catalog p
      e.1 s0 hinit_names
  · apply creLoop_onlyAt oracle mmap catalog e.1 p hne_cre
    exact updLoop_onlyAt DbtYamlWriter.Mode.update oracle mmap catalog e.1
      p s0 hinit_only

/-- Run-1, undocumented entry with a source path: after both loops its
stub target holds a saturated first node of its name, is dirty, and is
the only file naming it. -/
theorem run1_caseB (oracle : DbtYamlWriter.Oracle)
    (mmap : List (String × String)) (catalog : DbtYamlWriter.Catalog)
    (s0 : DbtYamlWriter.WState × Bool)
    (e : String × DbtYamlWriter.AiModel) (he : e ∈ catalog)
    (hnodup : (catalog.map Prod.fst).Nodup)
    (hv : ∀ c ∈ e.2.columns, ∀ kv ∈ c.ai_generated,
      kv.2 ≠ "" ∧ kv.1 ≠ "name")
    (hndcols : (e.2.columns.map DbtYamlWriter.AiColumn.name).Nodup)
    (hpath : e.2.original_file_path ≠ "")
    (hm : lookupA mmap e.1 = none)
    (hinit_noname : noName e.1 s0.1.yaml_files) :
    (∀ data, lookupA (catalog.foldl
        (DbtYamlWriter.createLoopStep DbtYamlWriter.Mode.update oracle
          mmap)
        (catalog.foldl (DbtYamlWriter.updateLoopStep
          DbtYamlWriter.Mode.update oracle mmap) s0)).1.yaml_files
        (DbtYamlWriter.stubTarget e.2) =
      some data → firstSat e.2 e.1 data) ∧
    (∃ data, lookupA (catalog.foldl
        (DbtYamlWriter.createLoopStep DbtYamlWriter.Mode.update oracle
          mmap)
        (catalog.foldl (DbtYamlWriter.updateLoopStep
          DbtYamlWriter.Mode.update oracle mmap) s0)).1.yaml_files
        (DbtYamlWriter.stubTarget e.2) =
      some data ∧ namesModels e.1 data) ∧
    DbtYamlWriter.stubTarget e.2 ∈ (catalog.foldl
        (DbtYamlWriter.createLoopStep DbtYamlWriter.Mode.update oracle
          mmap)
        (catalog.foldl (DbtYamlWriter.updateLoopStep
          DbtYamlWriter.Mode.update oracle mmap) s0)).1.files_to_write ∧
    onlyAt e.1 (DbtYamlWriter.stubTarget e.2) (catalog.foldl
        (DbtYamlWriter.createLoopStep DbtYamlWriter.Mode.update oracle
          mmap)
        (catalog.foldl (DbtYamlWriter.updateLoopStep
          DbtYamlWriter.Mode.update oracle mmap) s0)).1.yaml_files := by
  obtain ⟨pre, post, hsplit⟩ := List.append_of_mem he
  subst hsplit
  have hnames := nodup_split_names pre post e hnodup
  have hnoname1 : noName e.1 ((pre ++ e :: post).foldl
      (DbtYamlWriter.updateLoopStep DbtYamlWriter.Mode.update oracle mmap)
      s0).1.yaml_files :=
    updLoop_noName DbtYamlWriter.Mode.update oracle mmap (pre ++ e :: post)
      e.1 s0 hinit_noname
  have hnonamePre : noName e.1 (pre.foldl
      (DbtYamlWriter.createLoopStep DbtYamlWriter.Mode.update oracle mmap)
      ((pre ++ e :: post).foldl (DbtYamlWriter.updateLoopStep
        DbtYamlWriter.Mode.update oracle mmap) s0)).1.yaml_files :=
    creLoop_noName oracle mmap pre e.1 (fun x hx _ => hnames.1 x hx) _
      hnoname1
  obtain ⟨hs1, hs2, hs3, hs4⟩ := est_create oracle (pre.foldl
      (DbtYamlWriter.createLoopStep DbtYamlWriter.Mode.update oracle mmap)
      ((pre ++ e :: post).foldl (DbtYamlWriter.updateLoopStep
        DbtYamlWriter.Mode.update oracle mmap) s0)).1 e.1 e.2 hv hndcols
    hpath hnonamePre
  rw [List.foldl_append, List.foldl_cons]
  refine ⟨?_, ?_, ?_, ?_⟩
  · apply creLoop_firstSat oracle mmap post _ e.1 e.2
      (fun x hx _ => hnames.2 x hx)
    simp only [DbtYamlWriter.createLoopStep, hm]
    exact hs1
  · apply creLoop_namesModelsAt oracle mmap post _ e.1
    simp only [DbtYamlWriter.createLoopStep, hm]
    exact hs2
  · apply creLoop_ftw oracle mmap post _
    simp only [DbtYamlWriter.createLoopStep, hm]
    exact hs3
  · apply creLoop_onlyAt oracle mmap post e.1 _
      (fun x hx _ => hnames.2 x hx)
    simp only [DbtYamlWriter.createLoopStep, hm]
    exact hs4

/-- Run-1, unknown entry with no source path: no file ever names it. -/
theorem run1_caseC (oracle : DbtYamlWriter.Oracle)
    (mmap : List (String × String)) (catalog : DbtYamlWriter.Catalog)
    (s0 : DbtYamlWriter.WState × Bool)
    (e : String × DbtYamlWriter.AiModel) (he : e ∈ catalog)
    (hnodup : (catalog.map Prod.fst).Nodup)
    (hm : lookupA mmap e.1 = none)
    (hpath : e.2.original_file_path = "")
    (hinit : noName e.1 s0.1.yaml_files) :
    noName e.1 (catalog.foldl
      (DbtYamlWriter.createLoopStep DbtYamlWriter.Mode.update oracle mmap)
      (catalog.foldl (DbtYamlWriter.updateLoopStep
        DbtYamlWriter.Mode.update oracle mmap) s0)).1.yaml_files := by
  obtain ⟨pre, post, hsplit⟩ := List.append_of_mem he
  subst hsplit
  have hnames := nodup_split_names pre post e hnodup
  have h1 := updLoop_noName DbtYamlWriter.Mode.update oracle mmap
    (pre ++ e :: post) e.1 s0 hinit
  have h2 := creLoop_noName oracle mmap pre e.1
    (fun x hx _ => hnames.1 x hx) _ h1
  rw [List.foldl_append, List.foldl_cons]
  apply creLoop_noName oracle mmap post e.1 (fun x hx _ => hnames.2 x hx)
  simp only [DbtYamlWriter.createLoopStep, hm]
  rcases create_stub_char DbtYamlWriter.Mode.update oracle (by decide)
    (pre.foldl (DbtYamlWriter.createLoopStep DbtYamlWriter.Mode.update
      oracle mmap) ((pre ++ e :: post).foldl (DbtYamlWriter.updateLoopStep
      DbtYamlWriter.Mode.update oracle mmap) s0)).1 e.1 e.2 with
    ⟨-, heq⟩ | ⟨hpath', -⟩
  · rw [heq]
    exact h2
  · exact absurd hpath hpath'

theorem write_char (mode : DbtYamlWriter.Mode)
    (oracle : DbtYamlWriter.Oracle) (dir : String)
    (disk : List (String × DbtYamlWriter.FileContent))
    (catalog : DbtYamlWriter.Catalog)
    (d : List (String × DbtYamlWriter.FileContent)) (b : Bool)
    (h : DbtYamlWriter.write mode oracle dir disk catalog =
      Except.ok (d, b)) :
    ∃ s, DbtYamlWriter.writeState mode oracle dir disk catalog =
      Except.ok s ∧ s.2 = b ∧
      d = (if (mode ≠ DbtYamlWriter.Mode.check ∧
            mode ≠ DbtYamlWriter.Mode.drift) ∧ s.1.files_to_write ≠ []
        then DbtYamlWriter.write_modified_files_to_disk s.1 disk
        else disk) := by
  unfold DbtYamlWriter.write at h
  cases hws : DbtYamlWriter.writeState mode oracle dir disk catalog with
  | error e => rw [hws] at h; exact Except.noConfusion h
  | ok s =>
      rw [hws] at h
      injection h with h
      exact ⟨s, rfl, congrArg Prod.snd h, (congrArg Prod.fst h).symm⟩

theorem writeState_char (mode : DbtYamlWriter.Mode)
    (oracle : DbtYamlWriter.Oracle) (dir : String)
    (disk : List (String × DbtYamlWriter.FileContent))
    (catalog : DbtYamlWriter.Catalog) (s : DbtYamlWriter.WState × Bool)
    (h : DbtYamlWriter.writeState mode oracle dir disk catalog =
      Except.ok s) :
    ∃ lm, DbtYamlWriter.load_and_map_existing_yamls dir disk =
      Except.ok lm ∧
      s = catalog.foldl (DbtYamlWriter.createLoopStep mode oracle lm.2)
        (catalog.foldl (DbtYamlWriter.updateLoopStep mode oracle lm.2)
          (⟨lm.1, lm.2, []⟩, false)) := by
  unfold DbtYamlWriter.writeState at h
  cases hlm : DbtYamlWriter.load_and_map_existing_yamls dir disk with
  | error e => rw [hlm] at h; exact Except.noConfusion h
  | ok lm =>
      rw [hlm] at h
      injection h with h
      exact ⟨lm, rfl, h.symm⟩

/-- A name absent from the model-to-file index is named by no loaded
document. -/
theorem noName_of_map_none
    (disk : List (String × DbtYamlWriter.FileContent))
    (files : List String)
    (lm : List (String × DbtYamlWriter.DocTree) × List (String × String))
    (hfold : List.foldlM (DbtYamlWriter.loadStep disk) ([], []) files =
      Except.ok lm) (n : String) (hn : n ≠ "")
    (hm : lookupA lm.2 n = none) : noName n lm.1 := by
  intro q dq hdq hdqn
  rcases loadFold_src disk files ([], []) lm hfold q dq hdq with h' |
    ⟨hqf, hdiskq⟩
  · exact Option.noConfusion h'
  · obtain ⟨nd, hndmem, hndname⟩ := hdqn
    have hsome := loadFold_indexes_names disk files ([], []) lm hfold q dq
      nd hqf hdiskq hndmem (by rw [hndname]; exact hn)
    rw [hndname, hm] at hsome
    simp at hsome

/-- C1 (amended): one `update`-mode run reaches a fixed point.  Under the
amended side conditions — catalog keys form a dict with non-empty names,
every AI candidate value is non-empty and never the `name` key, per-model
catalog column names are unique, stub targets stay inside the discovered
roots, and each catalog model is documented by at most one discovered
file — a second `update` run on the written project changes no file,
marks zero files dirty, and returns `false`. -/
theorem idempotence_amended (oracle : DbtYamlWriter.Oracle) (dir : String)
    (disk : List (String × DbtYamlWriter.FileContent))
    (catalog : DbtYamlWriter.Catalog)
    (hcat : (catalog.map Prod.fst).Nodup)
    (hnames : ∀ e ∈ catalog, e.1 ≠ "")
    (hval : ∀ e ∈ catalog, ∀ c ∈ e.2.columns, ∀ kv ∈ c.ai_generated,
      kv.2 ≠ "" ∧ kv.1 ≠ "name")
    (hcols : ∀ e ∈ catalog,
      (e.2.columns.map DbtYamlWriter.AiColumn.name).Nodup)
    (htarget : ∀ e ∈ catalog, e.2.original_file_path ≠ "" →
      specDiscoveryKeepsAmended dir (DbtYamlWriter.stubTarget e.2) = true)
    (huniq : ∀ e ∈ catalog,
      ∀ p ∈ DbtYamlWriter.find_schema_files dir (disk.map Prod.fst),
      ∀ q ∈ DbtYamlWriter.find_schema_files dir (disk.map Prod.fst),
      namesDiskB disk e.1 p = true → namesDiskB disk e.1 q = true → p = q)
    (d1 : List (String × DbtYamlWriter.FileContent)) (b1 : Bool)
    (h1 : DbtYamlWriter.write DbtYamlWriter.Mode.update oracle dir disk
      catalog = Except.ok (d1, b1)) :
    DbtYamlWriter.write DbtYamlWriter.Mode.update oracle dir d1 catalog =
      Except.ok (d1, false) ∧
    ∃ yfs2 mm2, DbtYamlWriter.writeState DbtYamlWriter.Mode.update oracle
      dir d1 catalog = Except.ok (⟨yfs2, mm2, []⟩, false) := by
  -- run 1 decomposition
  obtain ⟨s, hws, hb1, hd1⟩ := write_char DbtYamlWriter.Mode.update oracle
    dir disk catalog d1 b1 h1
  obtain ⟨lm, hlm, hs⟩ := writeState_char DbtYamlWriter.Mode.update oracle
    dir disk catalog s hws
  subst hs
  obtain ⟨S, hS⟩ : ∃ S, catalog.foldl
      (DbtYamlWriter.createLoopStep DbtYamlWriter.Mode.update oracle lm.2)
      (catalog.foldl (DbtYamlWriter.updateLoopStep
        DbtYamlWriter.Mode.update oracle lm.2)
        (⟨lm.1, lm.2, []⟩, false)) = S := ⟨_, rfl⟩
  rw [hS] at hws hb1 hd1
  unfold DbtYamlWriter.load_and_map_existing_yamls at hlm
  -- dirty-set invariant of run 1
  have hinv0 : dirtyInv lm.1 (⟨lm.1, lm.2, []⟩ : DbtYamlWriter.WState) :=
    fun p => ⟨fun h => absurd h (List.not_mem_nil p), fun _ => rfl⟩
  have hval' : ∀ e ∈ catalog, ∀ c ∈ e.2.columns, ∀ kv ∈ c.ai_generated,
      kv.2 ≠ "" := fun e he c hc kv hkv => (hval e he c hc kv hkv).1
  have hinv : dirtyInv lm.1 S.1 := by
    rw [← hS]
    exact foldl_createLoop_dirtyInv DbtYamlWriter.Mode.update oracle
      (Or.inl rfl) lm.2 catalog _ lm.1
      (foldl_updateLoop_dirtyInv DbtYamlWriter.Mode.update oracle
        (Or.inl rfl) (fun h => absurd h (by decide)) lm.2 catalog hval'
        (⟨lm.1, lm.2, []⟩, false) lm.1 hinv0)
  -- the flushed disk
  have hd1flush : d1 = DbtYamlWriter.write_modified_files_to_disk S.1
      disk := by
    by_cases hftw : S.1.files_to_write = []
    · have hflush : DbtYamlWriter.write_modified_files_to_disk S.1 disk =
          disk := by
        unfold DbtYamlWriter.write_modified_files_to_disk
        rw [hftw]
        rfl
      rw [hd1, if_neg (fun hc => hc.2 hftw), hflush]
    · rw [hd1, if_pos ⟨⟨by decide, by decide⟩, hftw⟩]
  have hftwSome : ∀ p ∈ S.1.files_to_write,
      ∃ t, lookupA S.1.yaml_files p = some t := by
    intro p hp
    have hlt := (hinv p).1 hp
    cases hst : lookupA S.1.yaml_files p with
    | none =>
        rw [hst] at hlt
        simp only [muO] at hlt
        exact absurd hlt (Nat.not_lt_zero _)
    | some t => exact ⟨t, rfl⟩
  have hd1mem : ∀ p ∈ S.1.files_to_write, ∀ t,
      lookupA S.1.yaml_files p = some t →
      lookupA d1 p = some (DbtYamlWriter.FileContent.yamlDoc t) := by
    intro p hp t ht
    rw [hd1flush]
    exact flush_lookup_mem S.1 disk p t hp ht
  have hd1frame : ∀ p, p ∉ S.1.files_to_write →
      lookupA d1 p = lookupA disk p := by
    intro p hp
    rw [hd1flush]
    exact write_modified_files_to_disk_frame S.1 disk p hp
  have hclean : ∀ p, p ∉ S.1.files_to_write →
      lookupA S.1.yaml_files p = lookupA lm.1 p :=
    fun p hp => (hinv p).2 hp
  -- run-1 load facts
  have horig1 : ∀ p t, lookupA lm.1 p = some t →
      p ∈ DbtYamlWriter.find_schema_files dir (disk.map Prod.fst) ∧
      lookupA disk p = some (DbtYamlWriter.FileContent.yamlDoc t) := by
    intro p t h
    rcases loadFold_src disk _ ([], []) lm hlm p t h with h' | h'
    · exact Option.noConfusion h'
    · exact h'
  have hmaporig1 : ∀ n v, lookupA lm.2 n = some v →
      v ∈ DbtYamlWriter.find_schema_files dir (disk.map Prod.fst) ∧
      ∃ t, lookupA disk v = some (DbtYamlWriter.FileContent.yamlDoc t) ∧
        namesTree n t := by
    intro n v h
    rcases loadFold_map_src disk _ ([], []) lm hlm n v h with h' | h'
    · exact Option.noConfusion h'
    · exact h'
  have hnomal1 := loadFold_no_malformed disk _ ([], []) lm hlm
  -- per-entry run-1 facts
  have hcaseA : ∀ x ∈ catalog, ∀ p, lookupA lm.2 x.1 = some p →
      (∀ data, lookupA S.1.yaml_files p = some data →
        firstSat x.2 x.1 data) ∧
      (∃ data, lookupA S.1.yaml_files p = some data ∧
        namesTree x.1 data) ∧
      onlyAt x.1 p S.1.yaml_files := by
    intro x hx p hm1
    obtain ⟨hpf1, t0, hdiskp, hnt0⟩ := hmaporig1 x.1 p hm1
    have hlmp : lookupA lm.1 p = some t0 :=
      loadFold_lookup disk _ ([], []) lm hlm p t0 hpf1 hdiskp
    have hinit_names : ∃ data,
        lookupA lm.1 p = some data ∧ namesTree x.1 data := ⟨t0, hlmp, hnt0⟩
    have hinit_only : onlyAt x.1 p lm.1 := by
      intro q dq hdq hdqn
      obtain ⟨hqf1, hdiskq⟩ := horig1 q dq hdq
      exact huniq x hx q hqf1 p hpf1
        (namesDiskB_of disk x.1 q dq hdiskq hdqn)
        (namesDiskB_of disk x.1 p t0 hdiskp hnt0)
    have h := run1_caseA oracle lm.2 catalog (⟨lm.1, lm.2, []⟩, false) x
      hx hcat (hval x hx) p hm1 hinit_names hinit_only
    rw [hS] at h
    exact h
  have hcaseB : ∀ x ∈ catalog, lookupA lm.2 x.1 = none →
      x.2.original_file_path ≠ "" →
      (∀ data, lookupA S.1.yaml_files (DbtYamlWriter.stubTarget x.2) =
        some data → firstSat x.2 x.1 data) ∧
      (∃ data, lookupA S.1.yaml_files (DbtYamlWriter.stubTarget x.2) =
        some data ∧ namesModels x.1 data) ∧
      DbtYamlWriter.stubTarget x.2 ∈ S.1.files_to_write ∧
      onlyAt x.1 (DbtYamlWriter.stubTarget x.2) S.1.yaml_files := by
    intro x hx hm1 hpath
    have hnn0 : noName x.1 lm.1 :=
      noName_of_map_none disk _ lm hlm x.1 (hnames x hx) hm1
    have h := run1_caseB oracle lm.2 catalog (⟨lm.1, lm.2, []⟩, false) x
      hx hcat (hval x hx) (hcols x hx) hpath hm1 hnn0
    rw [hS] at h
    exact h
  have hcaseC : ∀ x ∈ catalog, lookupA lm.2 x.1 = none →
      x.2.original_file_path = "" → noName x.1 S.1.yaml_files := by
    intro x hx hm1 hpath
    have hnn0 : noName x.1 lm.1 :=
      noName_of_map_none disk _ lm hlm x.1 (hnames x hx) hm1
    have h := run1_caseC oracle lm.2 catalog (⟨lm.1, lm.2, []⟩, false) x
      hx hcat hm1 hpath hnn0
    rw [hS] at h
    exact h
  -- run-2 files carry no malformed documents
  have hnomal2 : ∀ p ∈ DbtYamlWriter.find_schema_files dir
      (d1.map Prod.fst),
      lookupA d1 p ≠ some DbtYamlWriter.FileContent.malformed := by
    intro p hp hcon
    by_cases hmem : p ∈ S.1.files_to_write
    · obtain ⟨t, ht⟩ := hftwSome p hmem
      rw [hd1mem p hmem t ht] at hcon
      injection hcon with hcon
      exact DbtYamlWriter.FileContent.noConfusion hcon
    · rw [hd1frame p hmem] at hcon
      have hkeep := (mem_find_schema_files dir (d1.map Prod.fst) p).mp hp
      have hdiskmem : p ∈ disk.map Prod.fst :=
        (lookupA_isSome_iff_mem disk p).mp (by rw [hcon]; rfl)
      have hp1 : p ∈ DbtYamlWriter.find_schema_files dir
          (disk.map Prod.fst) :=
        (mem_find_schema_files dir (disk.map Prod.fst) p).mpr
          ⟨hdiskmem, hkeep.2⟩
      exact hnomal1 p hp1 hcon
  obtain ⟨lm2, hfold2⟩ := loadFold_ok_of d1
    (DbtYamlWriter.find_schema_files dir (d1.map Prod.fst)) ([], [])
    hnomal2
  have hload2 : DbtYamlWriter.load_and_map_existing_yamls dir d1 =
      Except.ok lm2 := hfold2
  -- every run-2 document is a run-1 final document
  have hT : ∀ q t2, lookupA lm2.1 q = some t2 →
      lookupA S.1.yaml_files q = some t2 := by
    intro q t2 h
    rcases loadFold_src d1 _ ([], []) lm2 hfold2 q t2 h with h' |
      ⟨hqmem, hqc⟩
    · exact Option.noConfusion h'
    · by_cases hmem : q ∈ S.1.files_to_write
      · obtain ⟨t, ht⟩ := hftwSome q hmem
        rw [hd1mem q hmem t ht] at hqc
        injection hqc with hqc
        injection hqc with hqc
        rw [hqc] at ht
        exact ht
      · rw [hd1frame q hmem] at hqc
        have hkeep := (mem_find_schema_files dir (d1.map Prod.fst) q).mp
          hqmem
        have hdiskmem : q ∈ disk.map Prod.fst :=
          (lookupA_isSome_iff_mem disk q).mp (by rw [hqc]; rfl)
        have hq1 : q ∈ DbtYamlWriter.find_schema_files dir
            (disk.map Prod.fst) :=
          (mem_find_schema_files dir (disk.map Prod.fst) q).mpr
            ⟨hdiskmem, hkeep.2⟩
        rw [hclean q hmem]
        exact loadFold_lookup disk _ ([], []) lm hlm q t2 hq1 hqc
  -- run-2 saturation at every mapped path
  have hsat2 : ∀ x ∈ catalog, ∀ p2, lookupA lm2.2 x.1 = some p2 →
      ∀ data, lookupA lm2.1 p2 = some data → firstSat x.2 x.1 data := by
    intro x hx p2 hp2 data hdata
    have hst1 : lookupA S.1.yaml_files p2 = some data := hT p2 data hdata
    rcases loadFold_src d1 _ ([], []) lm2 hfold2 p2 data hdata with h' |
      ⟨hp2mem, hp2c⟩
    · exact Option.noConfusion h'
    rcases loadFold_map_src d1 _ ([], []) lm2 hfold2 x.1 p2 hp2 with h' |
      ⟨hp2mem', t2, hd1p2, hname2⟩
    · exact Option.noConfusion h'
    rw [hp2c] at hd1p2
    injection hd1p2 with h12
    injection h12 with h12
    rw [← h12] at hname2
    cases hm1 : lookupA lm.2 x.1 with
    | some p =>
        obtain ⟨hA1, hA2, hA3⟩ := hcaseA x hx p hm1
        have hp2p : p2 = p := hA3 p2 data hst1 hname2
        subst hp2p
        exact hA1 data hst1
    | none =>
        by_cases hpath : x.2.original_file_path = ""
        · exact absurd hname2 (hcaseC x hx hm1 hpath p2 data hst1)
        · obtain ⟨hB1, hB2, hB3, hB4⟩ := hcaseB x hx hm1 hpath
          have hp2t : p2 = DbtYamlWriter.stubTarget x.2 :=
            hB4 p2 data hst1 hname2
          subst hp2t
          exact hB1 data hst1
  -- run-2 update loop is the identity
  have hupdfix : ∀ x ∈ catalog,
      DbtYamlWriter.updateLoopStep DbtYamlWriter.Mode.update oracle lm2.2
        ((⟨lm2.1, lm2.2, []⟩ : DbtYamlWriter.WState), false) x =
      ((⟨lm2.1, lm2.2, []⟩ : DbtYamlWriter.WState), false) := by
    intro x hx
    cases hmm2 : lookupA lm2.2 x.1 with
    | none => simp only [DbtYamlWriter.updateLoopStep, hmm2]
    | some p2 =>
        simp only [DbtYamlWriter.updateLoopStep, hmm2]
        rw [update_existing_noop oracle _ p2 x.1 x.2
          (hsat2 x hx p2 hmm2)]
        rfl
  -- run-2 create loop is the identity
  have hcrefix : ∀ x ∈ catalog,
      DbtYamlWriter.createLoopStep DbtYamlWriter.Mode.update oracle lm2.2
        ((⟨lm2.1, lm2.2, []⟩ : DbtYamlWriter.WState), false) x =
      ((⟨lm2.1, lm2.2, []⟩ : DbtYamlWriter.WState), false) := by
    intro x hx
    cases hmm2 : lookupA lm2.2 x.1 with
    | some p2 => simp only [DbtYamlWriter.createLoopStep, hmm2]
    | none =>
        cases hm1 : lookupA lm.2 x.1 with
        | some p =>
            exfalso
            obtain ⟨hA1, hA2, hA3⟩ := hcaseA x hx p hm1
            obtain ⟨dA, hstA, hnA⟩ := hA2
            obtain ⟨hpf1, t0, hdiskp, hnt0⟩ := hmaporig1 x.1 p hm1
            have hd1p : lookupA d1 p =
                some (DbtYamlWriter.FileContent.yamlDoc dA) := by
              by_cases hmem : p ∈ S.1.files_to_write
              · exact hd1mem p hmem dA hstA
              · rw [hclean p hmem] at hstA
                have hlmp : lookupA lm.1 p = some t0 :=
                  loadFold_lookup disk _ ([], []) lm hlm p t0 hpf1 hdiskp
                rw [hlmp] at hstA
                injection hstA with hstA
                rw [hd1frame p hmem, ← hstA]
                exact hdiskp
            have hpf2 : p ∈ DbtYamlWriter.find_schema_files dir
                (d1.map Prod.fst) := by
              apply (mem_find_schema_files dir (d1.map Prod.fst) p).mpr
              refine ⟨(lookupA_isSome_iff_mem d1 p).mp
                (by rw [hd1p]; rfl), ?_⟩
              exact ((mem_find_schema_files dir (disk.map Prod.fst)
                p).mp hpf1).2
            obtain ⟨nd, hndmem, hndname⟩ := hnA
            have hsome := loadFold_indexes_names d1 _ ([], []) lm2 hfold2
              p dA nd hpf2 hd1p hndmem (by rw [hndname]; exact hnames x hx)
            rw [hndname, hmm2] at hsome
            simp at hsome
        | none =>
            by_cases hpath : x.2.original_file_path = ""
            · simp only [DbtYamlWriter.createLoopStep, hmm2]
              rcases create_stub_char DbtYamlWriter.Mode.update oracle
                (by decide) ⟨lm2.1, lm2.2, []⟩ x.1 x.2 with ⟨-, heq⟩ |
                ⟨hp', -⟩
              · rw [heq]
                rfl
              · exact absurd hpath hp'
            · exfalso
              obtain ⟨hB1, hB2, hB3, hB4⟩ := hcaseB x hx hm1 hpath
              obtain ⟨dT, hstT, hnT⟩ := hB2
              have hd1t : lookupA d1 (DbtYamlWriter.stubTarget x.2) =
                  some (DbtYamlWriter.FileContent.yamlDoc dT) :=
                hd1mem _ hB3 dT hstT
              have htf2 : DbtYamlWriter.stubTarget x.2 ∈
                  DbtYamlWriter.find_schema_files dir (d1.map Prod.fst) := by
                apply (mem_find_schema_files dir (d1.map Prod.fst) _).mpr
                exact ⟨(lookupA_isSome_iff_mem d1 _).mp
                  (by rw [hd1t]; rfl), htarget x hx hpath⟩
              obtain ⟨nd, hndmem, hndname⟩ := hnT
              have hsome := loadFold_indexes_names d1 _ ([], []) lm2
                hfold2 _ dT nd htf2 hd1t (by simp [hndmem])
                (by rw [hndname]; exact hnames x hx)
              rw [hndname, hmm2] at hsome
              simp at hsome
  -- assemble run 2
  have hws2 : DbtYamlWriter.writeState DbtYamlWriter.Mode.update oracle
      dir d1 catalog =
      Except.ok ((⟨lm2.1, lm2.2, []⟩ : DbtYamlWriter.WState), false) := by
    unfold DbtYamlWriter.writeState
    rw [hload2]
    dsimp only
    rw [foldl_fixed (DbtYamlWriter.updateLoopStep
      DbtYamlWriter.Mode.update oracle lm2.2)
      ((⟨lm2.1, lm2.2, []⟩ : DbtYamlWriter.WState), false) catalog
      hupdfix]
    rw [foldl_fixed (DbtYamlWriter.createLoopStep
      DbtYamlWriter.Mode.update oracle lm2.2)
      ((⟨lm2.1, lm2.2, []⟩ : DbtYamlWriter.WState), false) catalog
      hcrefix]
  refine ⟨?_, lm2.1, lm2.2, hws2⟩
  unfold DbtYamlWriter.write
  rw [hws2]
  dsimp only
  rw [if_neg (fun hc => hc.2 rfl)]

/-- C1 counterexample: with an empty AI candidate value the reconciler is
not idempotent in the claimed sense.  The first `update` run writes the
empty value into the column (file contents `emptyFilledDisk`), and the
second run re-fills the same empty field: it leaves the bytes unchanged
but marks the file dirty again and returns `true`, not `false`. -/
theorem idempotence_counterexample :
    DbtYamlWriter.write DbtYamlWriter.Mode.update DbtYamlWriter.skipOracle
      "" ordersDisk emptyValueCatalog =
      Except.ok (emptyFilledDisk, true) ∧
    DbtYamlWriter.write DbtYamlWriter.Mode.update DbtYamlWriter.skipOracle
      "" emptyFilledDisk emptyValueCatalog =
      Except.ok (emptyFilledDisk, true) ∧
    DbtYamlWriter.writeState DbtYamlWriter.Mode.update
      DbtYamlWriter.skipOracle "" emptyFilledDisk emptyValueCatalog =
      Except.ok
        (⟨[("models/schema.yml",
            { models := [⟨[("name", "orders")],
              [[("name", "id"), ("description", "")]]⟩] })],
          [("orders", "models/schema.yml")],
          ["models/schema.yml"]⟩, true) :=
  ⟨rfl, rfl, rfl⟩

/-- Witness for C1 amended on the `orders` scenario: the first run fills
both descriptions and flushes; the second run on the written project
returns `false` with an empty dirty set and identical file contents. -/
theorem idempotence_amended_witness :
    DbtYamlWriter.write DbtYamlWriter.Mode.update DbtYamlWriter.skipOracle
      "" ordersDocumentedDisk ordersCatalog =
      Except.ok (ordersDocumentedDisk, false) ∧
    ∃ yfs2 mm2, DbtYamlWriter.writeState DbtYamlWriter.Mode.update
      DbtYamlWriter.skipOracle "" ordersDocumentedDisk ordersCatalog =
      Except.ok (⟨yfs2, mm2, []⟩, false) :=
  idempotence_amended DbtYamlWriter.skipOracle "" ordersDisk ordersCatalog
    (by decide) (by decide) (by decide) (by decide) (by decide)
    (by decide) ordersDocumentedDisk true (by rfl)
